import Mathlib

/-!
The command registry and the target resolver of tmux.

A shallow embedding of the command registry, the argv wire packing and the
target resolver of tmux (`cmd.c`) and of its key binding table
(`key-bindings.c`), with the properties proved about them.

Conventions of the embedding:

* a C `char` is a `Char`; only equality of characters and the NUL terminator
  matter to the code modelled here;
* a C string is the list of its characters before the terminating NUL;
* a memory region is a `List Char`, a pointer into it is an offset, a store
  outside the region is dropped;
* `size_t` arithmetic is arithmetic modulo `2 ^ 64`, `int` arithmetic is
  arithmetic on 32-bit patterns;
* a nullable pointer is an `Option`; an object is its value, so that two
  pointers are equal when the objects they point to are;
* a function that calls the `error` slot of its context returns the messages
  it sent;
* an indeterminate value the code reads is a parameter of the function.
-/

namespace Tmux

/-! ## C strings and memory -/

/-- The NUL terminator. -/
def NUL : Char := Char.ofNat 0

/-- The content of a C string: its characters before the terminating NUL. -/
abbrev CStr := List Char

/-- One more than the largest `size_t`. -/
def SIZE_MOD : Nat := 2 ^ 64

/-- The `size_t` subtraction `a - b`, wrapping around below zero. -/
def size_sub (a b : Nat) : Nat := (a + SIZE_MOD - b % SIZE_MOD) % SIZE_MOD

/-- Store the characters `cs` at consecutive offsets from `off`. -/
def write (mem : List Char) (off : Nat) : List Char → List Char
  | [] => mem
  | c :: cs => write (mem.set off c) (off + 1) cs

/-- The libc `strlen` of the string stored at offset `off`. -/
def strlen (mem : List Char) (off : Nat) : Nat :=
  ((mem.drop off).takeWhile (fun c => c != NUL)).length

/-- The string duplicated by `xstrdup` from offset `off`. -/
def xstrdup (mem : List Char) (off : Nat) : CStr :=
  (mem.drop off).takeWhile (fun c => c != NUL)

/-- The libc `strlcpy(dst, src, size)`: at most `size - 1` characters of `src`
are stored at `dst` and NUL-terminated when `size` is not zero; the value
returned is `strlen(src)`. The result is the memory after the call and the
value returned. -/
def strlcpy (mem : List Char) (dst : Nat) (src : CStr) (size : Nat) : List Char × Nat :=
  (if size = 0 then mem else write mem dst (src.take (size - 1) ++ [NUL]), src.length)

/-! ## `cmd_pack_argv` and `cmd_unpack_argv` -/

/-- What `cmd_pack_argv` leaves behind: the value returned, the memory of the
destination buffer, and (ghost) every `len -= arglen` it performed, as the
pair of `len` before the subtraction and `arglen`. -/
structure pack_result where
  ret : Int
  buf : List Char
  subs : List (Nat × Nat)

/-- The `for` loop of `cmd_pack_argv` over the arguments still to pack; `buf`
is the offset of the write pointer and `len` the remaining capacity. -/
def cmd_pack_argv_loop : List CStr → List Char → Nat → Nat → pack_result
  | [], mem, _, _ => ⟨0, mem, []⟩
  | a :: rest, mem, buf, len =>
    if (strlcpy mem buf a len).2 ≥ len then
      ⟨-1, (strlcpy mem buf a len).1, []⟩
    else
      let arglen := (a.length + 1) % SIZE_MOD
      let r := cmd_pack_argv_loop rest (strlcpy mem buf a len).1 (buf + arglen)
        (size_sub len arglen)
      ⟨r.ret, r.buf, (len, arglen) :: r.subs⟩

/-- The function `cmd_pack_argv(argc, argv, buf, len)`; `argc` is the length
of `argv` and `mem` the memory `buf` points to. -/
def cmd_pack_argv (argv : List CStr) (mem : List Char) (len : Nat) : pack_result :=
  cmd_pack_argv_loop argv (mem.set 0 NUL) 0 len

/-- What `cmd_unpack_argv` leaves behind: the value returned, the strings
stored in `*argv` (none after a failure, which frees them), the memory of the
source buffer, and (ghost) every `len -= arglen` it performed. -/
structure unpack_result where
  ret : Int
  argv : List CStr
  buf : List Char
  subs : List (Nat × Nat)

/-- The `for` loop of `cmd_unpack_argv` with `argc - i` iterations to go;
`buf` is the offset of the read pointer and `len` the bytes remaining. -/
def cmd_unpack_argv_loop (mem : List Char) : Nat → Nat → Nat → unpack_result
  | 0, _, _ => ⟨0, [], mem, []⟩
  | n + 1, buf, len =>
    if len = 0 then
      ⟨-1, [], mem, []⟩
    else
      let arglen := (strlen mem buf + 1) % SIZE_MOD
      let r := cmd_unpack_argv_loop mem n (buf + arglen) (size_sub len arglen)
      ⟨r.ret, if r.ret = 0 then xstrdup mem buf :: r.argv else [], mem,
        (len, arglen) :: r.subs⟩

/-- The function `cmd_unpack_argv(buf, len, argc, argv)`. -/
def cmd_unpack_argv (mem : List Char) (len : Nat) (argc : Nat) : unpack_result :=
  if argc = 0 then ⟨0, [], mem, []⟩
  else cmd_unpack_argv_loop (mem.set (size_sub len 1) NUL) argc 0 len

/-- The bytes `cmd_pack_argv` produces for `argv`: each argument followed by
a NUL. -/
def encode_argv : List CStr → List Char
  | [] => []
  | a :: rest => a ++ NUL :: encode_argv rest

/-- The total encoded size of `argv`: the sum of `strlen + 1`. -/
def encoded_size : List CStr → Nat
  | [] => 0
  | a :: rest => (a.length + 1) + encoded_size rest

/-- Scan for NUL-terminated strings; `cur` holds the characters of the string
being read, last one first. -/
def cstrings_from : List Char → List Char → List CStr
  | [], _ => []
  | c :: cs, cur =>
    if c = NUL then cur.reverse :: cstrings_from cs [] else cstrings_from cs (c :: cur)

/-- The NUL-terminated strings a byte sequence contains, in order; bytes after
the last NUL are not a string. -/
def cstrings (bytes : List Char) : List CStr := cstrings_from bytes []


/-! ## The command registry and `cmd_parse` -/

/-- The libc test `strncmp(a, b, n) == 0` on string contents: the first `n`
characters of `a` and of `b` agree. -/
def strncmp_eq (a b : CStr) (n : Nat) : Bool := a.take n == b.take n

/-- The libc `strlcat(dst, src, size)` on the content of `dst`: `src` is
appended as far as `size - 1` characters in all allow; the value returned is
the length the full concatenation would have. -/
def strlcat (dst src : CStr) (size : Nat) : CStr × Nat :=
  if dst.length ≥ size then (dst, size + src.length)
  else (dst ++ src.take (size - dst.length - 1), dst.length + src.length)

/-- The per-variant data behind `cmd->data` (a `void *` for the registry),
kept as the strings the parser of the entry stored. -/
abbrev cmd_data := List CStr

/-- The fields of `struct cmd_entry` that `cmd_parse` reads (`alias_` is the
field `alias`). The `parse` slot is absent (`NULL`) or takes the whole argv to
the data of the command, or to the cause of its failure. -/
structure cmd_entry where
  name : CStr
  alias_ : Option CStr
  usage : CStr
  parse : Option (List CStr → Except CStr cmd_data)

/-- A `struct cmd`: the entry it belongs to and its data. -/
structure cmd where
  entry : cmd_entry
  data : Option cmd_data

/-- What one call of `getopt` leaves behind: the value returned and `optind`. -/
structure getopt_result where
  opt : Int
  optind : Nat

/-- The first call `getopt(argc, argv, "")` after `optreset = 1; optind = 1`,
as POSIX describes it for an empty option string: scanning stops (-1) where
argv stops, at an argument that does not start with `-` and at a lone `-`;
the terminator `--` is skipped and stops the scan; any other argument starting
with `-` holds an unknown option, reported as `?` (63). -/
def getopt_empty (argv : List CStr) : getopt_result :=
  match argv.drop 1 with
  | [] => ⟨-1, 1⟩
  | a :: _ =>
    if a = "--".toList then ⟨-1, 2⟩
    else
      match a with
      | c :: _ :: rest => if c = '-' then ⟨63, if rest = [] then 2 else 1⟩ else ⟨-1, 1⟩
      | _ => ⟨-1, 1⟩

/-- The first `for` loop of `cmd_parse` over the entries still to visit, with
the current values of `entry` and `ambiguous`; the result is their values when
the loop is left. -/
def cmd_parse_lookup (argv0 : CStr) :
    List cmd_entry → Option cmd_entry → Bool → Option cmd_entry × Bool
  | [], entry, ambiguous => (entry, ambiguous)
  | e :: rest, entry, ambiguous =>
    if e.alias_ = some argv0 then
      (some e, false)
    else if ¬ strncmp_eq e.name argv0 argv0.length then
      cmd_parse_lookup argv0 rest entry ambiguous
    else
      let ambiguous := if entry.isSome then true else ambiguous
      if e.name = argv0 then (some e, ambiguous)
      else cmd_parse_lookup argv0 rest (some e) ambiguous

/-- The `for` loop under the `ambiguous` label of `cmd_parse`, collecting the
matching names in the scratch buffer `s` of `BUFSIZ` bytes. -/
def cmd_parse_ambiguous_loop (BUFSIZ : Nat) (argv0 : CStr) : List cmd_entry → CStr → CStr
  | [], s => s
  | e :: rest, s =>
    if ¬ strncmp_eq e.name argv0 argv0.length then
      cmd_parse_ambiguous_loop BUFSIZ argv0 rest s
    else if (strlcat s e.name BUFSIZ).2 ≥ BUFSIZ then
      (strlcat s e.name BUFSIZ).1
    else if (strlcat (strlcat s e.name BUFSIZ).1 ", ".toList BUFSIZ).2 ≥ BUFSIZ then
      (strlcat (strlcat s e.name BUFSIZ).1 ", ".toList BUFSIZ).1
    else
      cmd_parse_ambiguous_loop BUFSIZ argv0 rest
        (strlcat (strlcat s e.name BUFSIZ).1 ", ".toList BUFSIZ).1

/-- The cause built under the `ambiguous` label of `cmd_parse`. The store
`s[strlen(s) - 2] = 0` cuts the last two characters off. -/
def cmd_parse_ambiguous (BUFSIZ : Nat) (cmd_table : List cmd_entry) (argv0 : CStr) : CStr :=
  let s := cmd_parse_ambiguous_loop BUFSIZ argv0 cmd_table []
  "ambiguous command: ".toList ++ argv0 ++ ", could be: ".toList ++
    s.take (size_sub s.length 2)

/-- The cause built under the `usage` label of `cmd_parse`. -/
def cmd_parse_usage (entry : cmd_entry) : CStr :=
  "usage: ".toList ++ entry.name ++ " ".toList ++ entry.usage

/-- The part of `cmd_parse` that follows the resolution of `entry`: the
argument check of an entry without parser, then the parser of the entry. -/
def cmd_parse_entry (entry : cmd_entry) (argv : List CStr) : Except CStr cmd :=
  match entry.parse with
  | none =>
    if (getopt_empty argv).opt ≠ -1 then
      .error (cmd_parse_usage entry)
    else if (argv.length : Int) - (getopt_empty argv).optind ≠ 0 then
      .error (cmd_parse_usage entry)
    else
      .ok ⟨entry, none⟩
  | some parse =>
    match parse argv with
    | .ok data => .ok ⟨entry, some data⟩
    | .error cause => .error cause

/-- The function `cmd_parse(argc, argv, cause)` over the table `cmd_table`:
the command returned, or the cause set when it returns `NULL`. `BUFSIZ` is
the constant of `<stdio.h>`. -/
def cmd_parse (BUFSIZ : Nat) (cmd_table : List cmd_entry) (argv : List CStr) :
    Except CStr cmd :=
  match argv with
  | [] => .error "no command".toList
  | argv0 :: _ =>
    if (cmd_parse_lookup argv0 cmd_table none false).2 then
      .error (cmd_parse_ambiguous BUFSIZ cmd_table argv0)
    else
      match (cmd_parse_lookup argv0 cmd_table none false).1 with
      | none => .error ("unknown command: ".toList ++ argv0)
      | some entry => cmd_parse_entry entry argv

/-- An entry without parser, as the lock commands are declared. -/
def plain_entry (name : String) (alias_ : Option String) (usage : String) :
    cmd_entry :=
  ⟨name.toList, alias_.map String.toList, usage.toList, none⟩

/-- The three entries of `cmd-lock-server.c`, in the order of `cmd_table`. -/
def lock_table : List cmd_entry :=
  [plain_entry "lock-client" (some "lockc") "[-t target-client]",
   plain_entry "lock-server" (some "lock") "",
   plain_entry "lock-session" (some "locks") "[-t target-session]"]

/-! ## Session lookup -/

/-- A `struct timeval`. -/
structure timeval where
  tv_sec : Int := 0
  tv_usec : Int := 0
deriving DecidableEq

/-- The field of `struct window_pane` read by the resolver. -/
structure window_pane where
  tty : CStr := []
deriving DecidableEq

/-- The fields of `struct window` read by the resolver and by the commands:
the name, the panes in the order of the pane list, the pane `active` points
to, and the size. -/
structure window where
  name : CStr := []
  panes : List window_pane := []
  active : Option window_pane := none
  sx : Nat := 0
  sy : Nat := 0
deriving DecidableEq

/-- A `struct winlink`: an index of a session and the window linked there. -/
structure winlink where
  idx : Nat := 0
  window : window := {}
deriving DecidableEq

/-- The fields of `struct session` read by the resolver; `windows` holds the
winlinks in the order `RB_FOREACH` visits them. -/
structure session where
  name : CStr
  tv : timeval := {}
  windows : List winlink := []
  curw : winlink := {}
  references : Int := 0
  flags : Nat := 0
deriving DecidableEq

/-- The loop of `cmd_lookup_session` over the slots still to visit, with the
current `sfound`; the result is the session returned and `*ambiguous`. The
parameter `fnmatch` tells whether the libc `fnmatch(pattern, string, 0)`
returns 0. -/
def cmd_lookup_session_loop (fnmatch : CStr → CStr → Bool) (name : CStr) :
    List (Option session) → Option session → Option session × Bool
  | [], sfound => (sfound, false)
  | none :: rest, sfound => cmd_lookup_session_loop fnmatch name rest sfound
  | some s :: rest, sfound =>
    if name = s.name then
      (some s, false)
    else if strncmp_eq name s.name name.length || fnmatch name s.name then
      if sfound.isSome then (none, true)
      else cmd_lookup_session_loop fnmatch name rest (some s)
    else
      cmd_lookup_session_loop fnmatch name rest sfound

/-- The function `cmd_lookup_session(name, ambiguous)` over the session array
`sessions`, whose empty slots are `none`. -/
def cmd_lookup_session (fnmatch : CStr → CStr → Bool) (sessions : List (Option session))
    (name : CStr) : Option session × Bool :=
  cmd_lookup_session_loop fnmatch name sessions none

/-- A glob matcher with `*` and `?` as only metacharacters, bounded by `fuel`
steps. -/
def glob_steps : Nat → CStr → CStr → Bool
  | 0, _, _ => false
  | _ + 1, [], s => s.isEmpty
  | n + 1, p :: ps, [] => p = '*' && glob_steps n ps []
  | n + 1, p :: ps, c :: cs =>
    if p = '*' then glob_steps n ps (c :: cs) || glob_steps n (p :: ps) cs
    else (p = '?' || p = c) && glob_steps n ps cs

/-- An instance of `fnmatch` for the examples: patterns made of literal
characters, `*` and `?`. -/
def fnmatch_simple (pattern string : CStr) : Bool :=
  glob_steps (pattern.length + string.length + 1) pattern string

/-- A session table slot holding a live session of the given name. -/
def live (name : String) : Option session := some { name := name.toList }

/-! ## Notions the properties are stated with -/

/-- The entries of a table whose full name has `p` as a prefix, in table
order. -/
def prefix_matches (p : CStr) (cmd_table : List cmd_entry) : List cmd_entry :=
  cmd_table.filter (fun e => decide (p <+: e.name))

/-- The entries of a table whose full name has `p` as a strict prefix, in
table order. -/
def strict_matches (p : CStr) (cmd_table : List cmd_entry) : List cmd_entry :=
  cmd_table.filter (fun e => decide (p <+: e.name ∧ p ≠ e.name))

/-- What the `ambiguous` loop writes for the matching entries: each name
followed by a comma and a blank. -/
def listed_names : List cmd_entry → CStr
  | [] => []
  | e :: rest => e.name ++ ", ".toList ++ listed_names rest

/-- The live sessions whose name has `name` as a literal prefix or matches it
as a glob, in table order. -/
def session_candidates (fnmatch : CStr → CStr → Bool) (sessions : List (Option session))
    (name : CStr) : List session :=
  (sessions.filterMap id).filter (fun s => decide (name <+: s.name) || fnmatch name s.name)

/-- What the lookup loop returns when no session is named exactly as asked:
it depends on the session found so far and on the candidates still ahead. -/
def lookup_outcome : Option session → List session → Option session × Bool
  | none, [] => (none, false)
  | none, [s] => (some s, false)
  | some f, [] => (some f, false)
  | _, _ => (none, true)

/-! ## Window lookup -/

/-- The largest `int`. -/
def INT_MAX : Nat := 2147483647

/-- The libc functions the resolver calls and the sources do not hold:
`fnmatch pattern string` tells whether `fnmatch(pattern, string, 0)` returns
0; `strtonum s` is the call `strtonum(s, 0, INT_MAX, &errstr)`, the number
read or the error string. -/
structure libc where
  fnmatch : CStr → CStr → Bool
  strtonum : CStr → Except CStr Nat

/-- Modelled from the spec: `winlink_find_by_index`, which is not part of the
sources; the winlinks of a session are keyed by their integer index, and the
winlink at the index asked for is returned, if there is one. -/
def winlink_find_by_index (windows : List winlink) (idx : Nat) : Option winlink :=
  windows.find? (fun wl => wl.idx = idx)

/-- Modelled from the spec: `window_pane_at_index`, which is not part of the
sources; a pane is addressed by a zero-based index within the ordered pane
list of its window. -/
def window_pane_at_index (w : window) (idx : Nat) : Option window_pane :=
  w.panes[idx]?

/-- The first `RB_FOREACH` of `cmd_lookup_window` (exact matches) over the
winlinks still to visit, with the current `wlfound`; the result is `wlfound`
and `*ambiguous` when the loop is left. -/
def cmd_lookup_window_exact (name : CStr) :
    List winlink → Option winlink → Option winlink × Bool
  | [], wlfound => (wlfound, false)
  | wl :: rest, wlfound =>
    if name = wl.window.name then
      if wlfound.isSome then (none, true)
      else cmd_lookup_window_exact name rest (some wl)
    else
      cmd_lookup_window_exact name rest wlfound

/-- The second `RB_FOREACH` of `cmd_lookup_window` (pattern matches). -/
def cmd_lookup_window_pattern (fnmatch : CStr → CStr → Bool) (name : CStr) :
    List winlink → Option winlink → Option winlink × Bool
  | [], wlfound => (wlfound, false)
  | wl :: rest, wlfound =>
    if strncmp_eq name wl.window.name name.length || fnmatch name wl.window.name then
      if wlfound.isSome then (none, true)
      else cmd_lookup_window_pattern fnmatch name rest (some wl)
    else
      cmd_lookup_window_pattern fnmatch name rest wlfound

/-- The part of `cmd_lookup_window` behind the index test: exact matches,
then pattern matches. -/
def cmd_lookup_window_names (fnmatch : CStr → CStr → Bool) (s : session) (name : CStr) :
    Option winlink × Bool :=
  if (cmd_lookup_window_exact name s.windows none).2 then (none, true)
  else if (cmd_lookup_window_exact name s.windows none).1.isSome then
    ((cmd_lookup_window_exact name s.windows none).1, false)
  else cmd_lookup_window_pattern fnmatch name s.windows none

/-- The function `cmd_lookup_window(s, name, ambiguous)`: the winlink returned
and `*ambiguous`. -/
def cmd_lookup_window (L : libc) (s : session) (name : CStr) : Option winlink × Bool :=
  match L.strtonum name with
  | .ok idx =>
    match winlink_find_by_index s.windows idx with
    | some wl => (some wl, false)
    | none => cmd_lookup_window_names L.fnmatch s name
  | .error _ => cmd_lookup_window_names L.fnmatch s name

/-- The function `cmd_lookup_index(s, name, ambiguous)`: the index returned
and `*ambiguous`. -/
def cmd_lookup_index (L : libc) (s : session) (name : CStr) : Int × Bool :=
  match (cmd_lookup_window L s name).1 with
  | some wl => (wl.idx, (cmd_lookup_window L s name).2)
  | none =>
    if (cmd_lookup_window L s name).2 then (-1, true)
    else
      match L.strtonum name with
      | .ok idx => (idx, false)
      | .error _ => (-1, false)

/-! ## The current session -/

/-- The fields of `struct client` read by the resolver; `tty_path` is
`tty.path`. -/
structure client where
  tty_path : Option CStr := none
  session : Option session := none
  tv : timeval := {}
  references : Int := 0
  flags : Nat := 0
deriving DecidableEq

/-- The fields of `struct msg_command_data` read by the resolver: the
environment record sent by the client. -/
structure msg_command_data where
  pid : Int
  idx : Nat
deriving DecidableEq

/-- The fields of `struct cmd_ctx` read by the resolver; what is sent to the
`error` slot is returned by the functions that call it. -/
structure cmd_ctx where
  curclient : Option client := none
  cmdclient : Option client := none
  msgdata : Option msg_command_data := none
deriving DecidableEq

/-- The global tables of the server and the value of `getpid()`;
`sessions_past` is the indeterminate pointer that lies in memory right behind
the last slot of the session array. -/
structure server where
  sessions : List (Option session) := []
  clients : List (Option client) := []
  pid : Int := 0
  sessions_past : Option session := none
deriving DecidableEq

/-- The test `timercmp(a, b, >)` of `<sys/time.h>`. -/
def timercmp_gt (a b : timeval) : Bool :=
  if a.tv_sec = b.tv_sec then decide (a.tv_usec > b.tv_usec)
  else decide (a.tv_sec > b.tv_sec)

/-- The loop of `cmd_newest_session` over the slots still to visit; `snewest`
is the current `snewest`, whose `tv` the pointer `tv` refers to. -/
def cmd_newest_session_loop : List (Option session) → Option session → Option session
  | [], snewest => snewest
  | none :: rest, snewest => cmd_newest_session_loop rest snewest
  | some s :: rest, none => cmd_newest_session_loop rest (some s)
  | some s :: rest, some n =>
    if timercmp_gt s.tv n.tv then cmd_newest_session_loop rest (some s)
    else cmd_newest_session_loop rest (some n)

/-- The function `cmd_newest_session(ss)`. -/
def cmd_newest_session (ss : List (Option session)) : Option session :=
  cmd_newest_session_loop ss none

/-- The two inner loops of `cmd_current_session`: whether a pane of a window
of `s` has the tty `path`. -/
def session_has_tty (s : session) (path : CStr) : Bool :=
  s.windows.any (fun wl => wl.window.panes.any (fun wp => wp.tty = path))

/-- The array `ss` built by `cmd_current_session`: the live sessions with a
pane on the tty `path`, in table order. -/
def sessions_on_tty (sessions : List (Option session)) (path : CStr) :
    List (Option session) :=
  sessions.filter (fun o =>
    match o with
    | some s => session_has_tty s path
    | none => false)

/-- The second source of `cmd_current_session`: the newest session holding
the tty of the calling client. -/
def cmd_current_session_tty (S : server) (ctx : cmd_ctx) : Option session :=
  match ctx.cmdclient with
  | none => none
  | some c =>
    match c.tty_path with
    | none => none
    | some path => cmd_newest_session (sessions_on_tty S.sessions path)

/-- The third source of `cmd_current_session`, for a record whose pid is not
-1: the session returned and (ghost) the position at which the session array
is read, if it is read. The index that equals the number of slots passes the
test and the read returns what lies behind the last slot. -/
def cmd_current_session_env (S : server) (data : msg_command_data) :
    Option session × Option Nat :=
  if data.pid ≠ S.pid then (none, none)
  else if data.idx > S.sessions.length then (none, none)
  else (((S.sessions ++ [S.sessions_past])[data.idx]?).join, some data.idx)

/-- The function `cmd_current_session(ctx)`. -/
def cmd_current_session (S : server) (ctx : cmd_ctx) : Option session :=
  match ctx.curclient.bind client.session with
  | some s => some s
  | none =>
    match cmd_current_session_tty S ctx with
    | some s => some s
    | none =>
      match ctx.msgdata with
      | some data =>
        if data.pid ≠ -1 then (cmd_current_session_env S data).1
        else cmd_newest_session S.sessions
      | none => cmd_newest_session S.sessions

/-! ## Clients -/

/-- The loop of `cmd_newest_client` over the slots still to visit. -/
def cmd_newest_client_loop : List (Option client) → Option client → Option client
  | [], cnewest => cnewest
  | none :: rest, cnewest => cmd_newest_client_loop rest cnewest
  | some c :: rest, cnewest =>
    if c.session.isNone then cmd_newest_client_loop rest cnewest
    else
      match cnewest with
      | none => cmd_newest_client_loop rest (some c)
      | some n =>
        if timercmp_gt c.tv n.tv then cmd_newest_client_loop rest (some c)
        else cmd_newest_client_loop rest (some n)

/-- The function `cmd_newest_client()`. -/
def cmd_newest_client (clients : List (Option client)) : Option client :=
  cmd_newest_client_loop clients none

/-- The constant `_PATH_DEV` of `<paths.h>`. -/
def PATH_DEV : CStr := "/dev/".toList

/-- The function `cmd_lookup_client(name)` over the client slots still to
visit. -/
def cmd_lookup_client : List (Option client) → CStr → Option client
  | [], _ => none
  | none :: rest, name => cmd_lookup_client rest name
  | some c :: rest, name =>
    match c.tty_path with
    | none => cmd_lookup_client rest name
    | some path =>
      if name = path then some c
      else if ¬ strncmp_eq path PATH_DEV PATH_DEV.length then cmd_lookup_client rest name
      else if name = path.drop PATH_DEV.length then some c
      else cmd_lookup_client rest name

/-- The copy `tmparg` of a target, with a single trailing colon trimmed. -/
def trim_colon (arg : CStr) : CStr :=
  if arg.getLast? = some ':' then arg.dropLast else arg

/-- The loop of `cmd_find_client` looking for the only client of the session
`s`, with the current `c`: `some c` when the loop runs to the last slot,
`some none` when it is left early by `break`, and `none` when it reaches an
empty slot, whose `session` the test reads through the null pointer. -/
def cmd_find_client_loop (s : session) :
    List (Option client) → Option client → Option (Option client)
  | [], c => some c
  | none :: _, _ => none
  | some o :: rest, c =>
    if o.session = some s then
      if c.isSome then some none else cmd_find_client_loop s rest (some o)
    else cmd_find_client_loop s rest c

/-! ## The functions `cmd_find_*`

Each returns its target together with the messages it sent to the `error`
slot of the context, in order. -/

/-- What `cmd_find_window` leaves behind: the winlink returned, the session
stored through `sp` if one was stored, and the messages sent to `error`. -/
structure window_target where
  wl : Option winlink
  sp : Option session
  errors : List CStr
deriving DecidableEq

/-- What `cmd_find_index` leaves behind. -/
structure index_target where
  idx : Int
  sp : Option session
  errors : List CStr
deriving DecidableEq

/-- What `cmd_find_pane` leaves behind; `wpp` is the pane stored through
`wpp`. -/
structure pane_target where
  wl : Option winlink
  sp : Option session
  wpp : Option window_pane
  errors : List CStr
deriving DecidableEq

/-- The function `cmd_find_client(ctx, arg)`; an absent `arg` is `NULL`. The
result is `none` where the loop over the clients reads through the null
pointer of an empty slot. -/
def cmd_find_client (S : server) (ctx : cmd_ctx) (arg : Option CStr) :
    Option (Option client × List CStr) :=
  match arg with
  | none =>
    match ctx.curclient with
    | some c => some (some c, [])
    | none =>
      match cmd_current_session S ctx with
      | none => some (cmd_newest_client S.clients, [])
      | some s =>
        match cmd_find_client_loop s S.clients none with
        | none => none
        | some (some c) => some (some c, [])
        | some none => some (cmd_newest_client S.clients, [])
  | some arg =>
    match cmd_lookup_client S.clients (trim_colon arg) with
    | some c => some (some c, [])
    | none => some (none, ["client not found: ".toList ++ trim_colon arg])

/-- The function `cmd_find_session(ctx, arg)`. -/
def cmd_find_session (L : libc) (S : server) (ctx : cmd_ctx) (arg : Option CStr) :
    Option session × List CStr :=
  match arg with
  | none => (cmd_current_session S ctx, [])
  | some arg =>
    match (cmd_lookup_session L.fnmatch S.sessions (trim_colon arg)).1 with
    | some s => (some s, [])
    | none =>
      match (cmd_lookup_client S.clients (trim_colon arg)).bind client.session with
      | some s => (some s, [])
      | none =>
        if (cmd_lookup_session L.fnmatch S.sessions (trim_colon arg)).2 then
          (none, ["more than one session: ".toList ++ trim_colon arg])
        else
          (none, ["session not found: ".toList ++ trim_colon arg])

/-- The text of `arg` before its first colon: `sessptr` once the colon found
by `strchr` is overwritten. -/
def before_colon (arg : CStr) : CStr := arg.takeWhile (fun c => c != ':')

/-- The text of `arg` after its first colon: `winptr`. -/
def after_colon (arg : CStr) : CStr := (arg.dropWhile (fun c => c != ':')).drop 1

/-- The label `no_session` of `cmd_find_window`. -/
def no_session_error (arg : CStr) (ambiguous : Bool) : CStr :=
  if ambiguous then "multiple sessions: ".toList ++ arg
  else "session not found: ".toList ++ arg

/-- The label `not_found` of `cmd_find_window`. -/
def not_found_error (arg : CStr) (ambiguous : Bool) : CStr :=
  if ambiguous then "multiple windows: ".toList ++ arg
  else "window not found: ".toList ++ arg

/-- The part of `cmd_find_window` for an argument with a colon, from the
current session `s`. -/
def cmd_find_window_colon (L : libc) (S : server) (s : session) (arg : CStr) :
    window_target :=
  match (if before_colon arg ≠ [] then
      cmd_lookup_session L.fnmatch S.sessions (before_colon arg) else (some s, false)) with
  | (none, ambiguous) => ⟨none, none, [no_session_error arg ambiguous]⟩
  | (some s, _) =>
    if after_colon arg = [] then ⟨some s.curw, some s, []⟩
    else
      match cmd_lookup_window L s (after_colon arg) with
      | (some wl, _) => ⟨some wl, some s, []⟩
      | (none, ambiguous) => ⟨none, some s, [not_found_error arg ambiguous]⟩

/-- The part of `cmd_find_window` under the label `no_colon`. -/
def cmd_find_window_no_colon (L : libc) (S : server) (s : session) (arg : CStr) :
    window_target :=
  match cmd_lookup_window L s arg with
  | (some wl, _) => ⟨some wl, some s, []⟩
  | (none, true) => ⟨none, none, [not_found_error arg true]⟩
  | (none, false) =>
    match cmd_lookup_session L.fnmatch S.sessions arg with
    | (some s, _) => ⟨some s.curw, some s, []⟩
    | (none, ambiguous) => ⟨none, none, [no_session_error arg ambiguous]⟩

/-- The function `cmd_find_window(ctx, arg, sp)`. -/
def cmd_find_window (L : libc) (S : server) (ctx : cmd_ctx) (arg : Option CStr) :
    window_target :=
  match cmd_current_session S ctx with
  | none => ⟨none, none, ["can't establish current session".toList]⟩
  | some s =>
    match arg with
    | none => ⟨some s.curw, some s, []⟩
    | some arg =>
      if arg = [] then ⟨none, none, [not_found_error arg false]⟩
      else if ':' ∈ arg then cmd_find_window_colon L S s arg
      else cmd_find_window_no_colon L S s arg

/-- The part of `cmd_find_index` for an argument with a colon. -/
def cmd_find_index_colon (L : libc) (S : server) (s : session) (arg : CStr) :
    index_target :=
  match (if before_colon arg ≠ [] then
      cmd_lookup_session L.fnmatch S.sessions (before_colon arg) else (some s, false)) with
  | (none, ambiguous) => ⟨-2, none, [no_session_error arg ambiguous]⟩
  | (some s, _) =>
    if after_colon arg = [] then ⟨-1, some s, []⟩
    else if (cmd_lookup_index L s (after_colon arg)).1 = -1 then
      if (cmd_lookup_index L s (after_colon arg)).2 then
        ⟨-2, some s, [not_found_error arg true]⟩
      else
        ⟨-2, some s, ["invalid index: ".toList ++ arg]⟩
    else ⟨(cmd_lookup_index L s (after_colon arg)).1, some s, []⟩

/-- The part of `cmd_find_index` under the label `no_colon`. -/
def cmd_find_index_no_colon (L : libc) (S : server) (s : session) (arg : CStr) :
    index_target :=
  if (cmd_lookup_index L s arg).1 = -1 then
    if (cmd_lookup_index L s arg).2 then ⟨-2, none, [not_found_error arg true]⟩
    else
      match cmd_lookup_session L.fnmatch S.sessions arg with
      | (some s, _) => ⟨-1, some s, []⟩
      | (none, ambiguous) => ⟨-2, none, [no_session_error arg ambiguous]⟩
  else ⟨(cmd_lookup_index L s arg).1, some s, []⟩

/-- The function `cmd_find_index(ctx, arg, sp)`. -/
def cmd_find_index (L : libc) (S : server) (ctx : cmd_ctx) (arg : Option CStr) :
    index_target :=
  match cmd_current_session S ctx with
  | none => ⟨-2, none, ["can't establish current session".toList]⟩
  | some s =>
    match arg with
    | none => ⟨-1, some s, []⟩
    | some arg =>
      if arg = [] then ⟨-2, none, [not_found_error arg false]⟩
      else if ':' ∈ arg then cmd_find_index_colon L S s arg
      else cmd_find_index_no_colon L S s arg

/-- The text of `arg` before its last period: `winptr` of `cmd_find_pane`. -/
def before_period (arg : CStr) : CStr :=
  ((arg.reverse.dropWhile (fun c => c != '.')).drop 1).reverse

/-- The text of `arg` after its last period: `paneptr`. -/
def after_period (arg : CStr) : CStr :=
  (arg.reverse.takeWhile (fun c => c != '.')).reverse

/-- The pane section of `cmd_find_pane`, once the window part is resolved to
`wl`; `sp` is what `sp` holds and `errors` what was sent to `error` so far. -/
def cmd_find_pane_section (L : libc) (wl : winlink) (sp : Option session)
    (errors : List CStr) (paneptr : CStr) : pane_target :=
  if paneptr = [] then ⟨some wl, sp, wl.window.active, errors⟩
  else
    match L.strtonum paneptr with
    | .error errstr =>
      ⟨none, sp, none, errors ++ ["pane ".toList ++ errstr ++ ": ".toList ++ paneptr]⟩
    | .ok idx =>
      match window_pane_at_index wl.window idx with
      | none => ⟨none, sp, none, errors ++ ["no such pane: ".toList ++ (Nat.repr idx).toList]⟩
      | some wp => ⟨some wl, sp, some wp, errors⟩

/-- The part of `cmd_find_pane` for an argument with a period, from the
current session `s`. -/
def cmd_find_pane_period (L : libc) (S : server) (ctx : cmd_ctx) (s : session)
    (arg : CStr) : pane_target :=
  if before_period arg = [] then
    cmd_find_pane_section L s.curw (some s) [] (after_period arg)
  else
    match (cmd_find_window L S ctx (some (before_period arg))).wl with
    | none =>
      ⟨none, ((cmd_find_window L S ctx (some (before_period arg))).sp).orElse
          (fun _ => some s), none,
        (cmd_find_window L S ctx (some (before_period arg))).errors⟩
    | some wl =>
      cmd_find_pane_section L wl
        (((cmd_find_window L S ctx (some (before_period arg))).sp).orElse (fun _ => some s))
        (cmd_find_window L S ctx (some (before_period arg))).errors (after_period arg)

/-- The part of `cmd_find_pane` under the label `lookup_window`. -/
def cmd_find_pane_lookup_window (L : libc) (S : server) (ctx : cmd_ctx) (s : session)
    (arg : CStr) : pane_target :=
  ⟨(cmd_find_window L S ctx (some arg)).wl,
    ((cmd_find_window L S ctx (some arg)).sp).orElse (fun _ => some s),
    (cmd_find_window L S ctx (some arg)).wl.bind (fun wl => wl.window.active),
    (cmd_find_window L S ctx (some arg)).errors⟩

/-- The part of `cmd_find_pane` under the label `no_period`. -/
def cmd_find_pane_no_period (L : libc) (S : server) (ctx : cmd_ctx) (s : session)
    (arg : CStr) : pane_target :=
  match L.strtonum arg with
  | .error _ => cmd_find_pane_lookup_window L S ctx s arg
  | .ok idx =>
    match window_pane_at_index s.curw.window idx with
    | none => cmd_find_pane_lookup_window L S ctx s arg
    | some wp => ⟨some s.curw, some s, some wp, []⟩

/-- The function `cmd_find_pane(ctx, arg, sp, wpp)`. -/
def cmd_find_pane (L : libc) (S : server) (ctx : cmd_ctx) (arg : Option CStr) :
    pane_target :=
  match cmd_current_session S ctx with
  | none => ⟨none, none, none, ["can't establish current session".toList]⟩
  | some s =>
    match arg with
    | none => ⟨some s.curw, some s, s.curw.window.active, []⟩
    | some arg =>
      if '.' ∈ arg then cmd_find_pane_period L S ctx s arg
      else cmd_find_pane_no_period L S ctx s arg

/-! ## Instances and notions for the properties of the resolver -/

/-- Reading a digit string, most significant digit first, onto `acc`; none
when a character is not a decimal digit. -/
def read_digits : List Char → Nat → Option Nat
  | [], acc => some acc
  | c :: cs, acc => if c.isDigit then read_digits cs (10 * acc + (c.toNat - 48)) else none

/-- An instance of `strtonum(s, 0, INT_MAX, &errstr)` for the examples: it
knows plain digit strings only (no blank, no sign). -/
def strtonum_simple (s : CStr) : Except CStr Nat :=
  if s = [] then .error "invalid".toList
  else
    match read_digits s 0 with
    | none => .error "invalid".toList
    | some n => if n ≤ INT_MAX then .ok n else .error "too large".toList

/-- The libc instance of the examples. -/
def libc_simple : libc := ⟨fnmatch_simple, strtonum_simple⟩

/-- What a scan for a single match returns: the match found so far and the
matches still ahead give the element returned and the ambiguous flag. -/
def scan_outcome {α : Type} : Option α → List α → Option α × Bool
  | none, [] => (none, false)
  | none, [a] => (some a, false)
  | some f, [] => (some f, false)
  | _, _ => (none, true)

/-- The winlinks of a session whose window is named exactly `q`. -/
def window_exact_matches (s : session) (q : CStr) : List winlink :=
  s.windows.filter (fun wl => decide (q = wl.window.name))

/-- The winlinks of a session whose window name has `q` as a literal prefix
or matches it as a glob. -/
def window_pattern_matches (fnmatch : CStr → CStr → Bool) (s : session) (q : CStr) :
    List winlink :=
  s.windows.filter (fun wl => decide (q <+: wl.window.name) || fnmatch q wl.window.name)

/-- A window of the given name with a single pane on the given tty, which is
its active pane. -/
def window_named (name tty : String) : window :=
  { name := name.toList, panes := [{ tty := tty.toList }],
    active := some { tty := tty.toList } }

/-- The session `a` of the examples: created at time 1, one window `mail` at
index 0 with a pane on `/dev/ttyp1`. -/
def session_a : session :=
  { name := "a".toList, tv := { tv_sec := 1 },
    windows := [{ idx := 0, window := window_named "mail" "/dev/ttyp1" }],
    curw := { idx := 0, window := window_named "mail" "/dev/ttyp1" } }

/-- The session `b` of the examples: created at time 2, the windows `bash` at
index 2 and `2` at index 5, each with one pane. -/
def session_b : session :=
  { name := "b".toList, tv := { tv_sec := 2 },
    windows := [{ idx := 2, window := window_named "bash" "/dev/ttyp2" },
                { idx := 5, window := window_named "2" "/dev/ttyp3" }],
    curw := { idx := 2, window := window_named "bash" "/dev/ttyp2" } }

/-- The server of the examples: the sessions `a` and `b`, no client, pid 100. -/
def server_ab : server := { sessions := [some session_a, some session_b], pid := 100 }

/-- The session `c` of the examples: the window `zero` at index 0 and the
window `one` at index 1, which has two panes and is the current window. -/
def session_c : session :=
  { name := "c".toList,
    windows := [{ idx := 0, window := window_named "zero" "/dev/ttyp4" },
                { idx := 1, window :=
                    { name := "one".toList,
                      panes := [{ tty := "/dev/ttyp5".toList }, { tty := "/dev/ttyp6".toList }],
                      active := some { tty := "/dev/ttyp5".toList } } }],
    curw := { idx := 1, window :=
                { name := "one".toList,
                  panes := [{ tty := "/dev/ttyp5".toList }, { tty := "/dev/ttyp6".toList }],
                  active := some { tty := "/dev/ttyp5".toList } } } }

/-! ## Key bindings -/

/-- The bit pattern of an `int`, as a number below `2 ^ 32`. -/
def to_u32 (k : Int) : Nat := (k % 4294967296).toNat

/-- The `int` of a bit pattern. -/
def of_u32 (u : Nat) : Int := if u < 2147483648 then (u : Int) else (u : Int) - 4294967296

/-- The C operator `&` on `int`. -/
def int_and (a b : Int) : Int := of_u32 (Nat.land (to_u32 a) (to_u32 b))

/-- The C operator `~` on `int`. -/
def int_not (a : Int) : Int := of_u32 (4294967295 - to_u32 a)

/-- An arithmetic result brought back into the range of `int`, modulo
`2 ^ 32`. -/
def int_wrap (x : Int) : Int := of_u32 (to_u32 x)

/-- A `struct cmd_list`: the commands of one parsed line, in order. -/
abbrev cmd_list := List cmd

/-- A `struct key_binding`. -/
structure key_binding where
  key : Int
  key2 : Int
  has_second_key : Int
  can_repeat : Int
  cmdlist : cmd_list

/-- The function `key_bindings_cmp(bd1, bd2)`; `KEYC_PREFIX` is the constant
of `tmux.h`. -/
def key_bindings_cmp (KEYC_PREFIX : Int) (bd1 bd2 : key_binding) : Int :=
  if int_and bd1.key (int_not KEYC_PREFIX) ≠ int_and bd2.key (int_not KEYC_PREFIX) then
    int_wrap (int_and bd1.key (int_not KEYC_PREFIX) - int_and bd2.key (int_not KEYC_PREFIX))
  else if int_and bd1.key2 (int_not KEYC_PREFIX) ≠ int_and bd2.key2 (int_not KEYC_PREFIX) then
    int_wrap (int_and bd1.key2 (int_not KEYC_PREFIX) - int_and bd2.key2 (int_not KEYC_PREFIX))
  else if (int_and bd1.key KEYC_PREFIX ≠ 0 ∧ ¬ int_and bd2.key KEYC_PREFIX ≠ 0) ∨
      (int_and bd1.key2 KEYC_PREFIX ≠ 0 ∧ ¬ int_and bd2.key2 KEYC_PREFIX ≠ 0) then
    -1
  else if (int_and bd2.key KEYC_PREFIX ≠ 0 ∧ ¬ int_and bd1.key KEYC_PREFIX ≠ 0) ∨
      (int_and bd1.key2 KEYC_PREFIX ≠ 0 ∧ ¬ int_and bd1.key2 KEYC_PREFIX ≠ 0) then
    1
  else
    0

/-- Modelled from the spec: `SPLAY_FIND` of `tree.h`, which is not part of
the sources. The bindings are stored in an ordered table keyed by the
comparison; the table is kept as the list of its nodes, and the node comparing
equal to `elm` is found, if there is one. -/
def splay_find (cmp : key_binding → key_binding → Int) (head : List key_binding)
    (elm : key_binding) : Option key_binding :=
  head.find? (fun n => decide (cmp elm n = 0))

/-- Modelled from the spec: `SPLAY_INSERT` of `tree.h`, which is not part of
the sources. A keyed table holds one node for a key: `elm` is added unless a
node comparing equal to it is in the table already. -/
def splay_insert (cmp : key_binding → key_binding → Int) (head : List key_binding)
    (elm : key_binding) : List key_binding :=
  if (splay_find cmp head elm).isSome then head else head ++ [elm]

/-- Modelled from the spec: `SPLAY_REMOVE` of `tree.h`, which is not part of
the sources. The node comparing equal to `elm` leaves the table. -/
def splay_remove (cmp : key_binding → key_binding → Int) (head : List key_binding)
    (elm : key_binding) : List key_binding :=
  head.eraseP (fun n => decide (cmp elm n = 0))

/-- The two global tables `key_bindings` and `dead_key_bindings`, and (ghost)
the command lists handed to `cmd_list_free` so far, in order. -/
structure key_tables where
  key_bindings : List key_binding
  dead_key_bindings : List key_binding
  freed : List cmd_list

/-- The search record `bd` of `key_bindings_lookup`: only `key` is set. The
field `key2`, which `key_bindings_cmp` reads, keeps the indeterminate value
`junk` it has when the function is entered; the other fields are not read. -/
def search_record (junk key : Int) : key_binding := ⟨key, junk, 0, 0, []⟩

/-- The function `key_bindings_lookup(key)`, with the indeterminate value
`junk` of the unset field of its search record. -/
def key_bindings_lookup (KEYC_PREFIX junk key : Int) (T : key_tables) : Option key_binding :=
  splay_find (key_bindings_cmp KEYC_PREFIX) T.key_bindings (search_record junk key)

/-- The function `key_bindings_remove(key)`. -/
def key_bindings_remove (KEYC_PREFIX junk key : Int) (T : key_tables) : key_tables :=
  match key_bindings_lookup KEYC_PREFIX junk key T with
  | none => T
  | some bd =>
    { key_bindings := splay_remove (key_bindings_cmp KEYC_PREFIX) T.key_bindings bd,
      dead_key_bindings := splay_insert (key_bindings_cmp KEYC_PREFIX) T.dead_key_bindings bd,
      freed := T.freed }

/-- The function `key_bindings_add(key, key2, has_second_key, can_repeat,
cmdlist)`; `junk1` and `junk2` are the indeterminate values met by its two
lookups. -/
def key_bindings_add (KEYC_PREFIX junk1 junk2 key key2 has_second_key can_repeat : Int)
    (cmdlist : cmd_list) (T : key_tables) : key_tables :=
  { key_bindings :=
      splay_insert (key_bindings_cmp KEYC_PREFIX)
        (key_bindings_remove KEYC_PREFIX junk2 key2
          (key_bindings_remove KEYC_PREFIX junk1 key T)).key_bindings
        ⟨key, key2, has_second_key, can_repeat, cmdlist⟩,
    dead_key_bindings :=
      (key_bindings_remove KEYC_PREFIX junk2 key2
        (key_bindings_remove KEYC_PREFIX junk1 key T)).dead_key_bindings,
    freed :=
      (key_bindings_remove KEYC_PREFIX junk2 key2
        (key_bindings_remove KEYC_PREFIX junk1 key T)).freed }

/-- The loop of `key_bindings_clean` over the dead bindings still in the
table: the root is taken out, its command list is freed. -/
def key_bindings_clean_loop : List key_binding → List cmd_list → List cmd_list
  | [], freed => freed
  | bd :: rest, freed => key_bindings_clean_loop rest (freed ++ [bd.cmdlist])

/-- The function `key_bindings_clean()`. -/
def key_bindings_clean (T : key_tables) : key_tables :=
  { key_bindings := T.key_bindings,
    dead_key_bindings := [],
    freed := key_bindings_clean_loop T.dead_key_bindings T.freed }

/-- A command list of one command, of an entry of the given name. -/
def one_command (name : String) : cmd_list := [⟨plain_entry name none "", none⟩]

/-- The names of the commands of the lists freed. -/
def freed_names (T : key_tables) : List (List String) :=
  T.freed.map (fun l => l.map (fun c => String.mk c.entry.name))

/-! ## Configuration loader (`cfg.c`) -/

/-- The three message callbacks of a `struct cmd_ctx`. -/
inductive sink where
  | print
  | error
  | info
deriving DecidableEq

/-- What `cmd_string_parse(buf, &cmdlist, cause)` leaves behind: a non-zero
return with `*cause` null or set, or a zero return with `cmdlist` null or
set. -/
inductive parse_outcome where
  | failed (cause : Option CStr)
  | parsed (cmdlist : Option cmd_list)

/-- The two functions of the command layer that `load_cfg` calls and that are
not part of these sources: `cmd_string_parse`, a function of the line, and
`cmd_list_exec`, which runs on the server state `σ` and hands messages to the
callbacks of the context, listed here in the order of the calls. -/
structure cfg_env (σ : Type) where
  cmd_string_parse : CStr → parse_outcome
  cmd_list_exec : cmd_list → cmd_ctx → σ → σ × List (sink × CStr)

/-- Ghost record of the calls `load_cfg` makes, with the value of `n` at the
call. -/
inductive cfg_event where
  | parse (n : Nat) (buf : CStr)
  | exec (n : Nat) (cmdlist : cmd_list)

/-- The variable `cfg_cause` after the callbacks received `msgs`: `cfg_print`,
installed as `print` and as `info`, has an empty body; `cfg_error` stores its
message, overwriting the one before. -/
def cfg_cause (msgs : List (sink × CStr)) : Option CStr :=
  ((msgs.filter (fun m => decide (m.1 = sink.error))).map (fun m => m.2)).getLast?

/-- The string `buf` that `load_cfg` hands to the parser for the line
`(buf, len)` returned by `fgetln`: a final newline is overwritten with NUL,
otherwise the line is copied into `line` with a NUL after it and `buf` is set
to the copy. -/
def cfg_line (l : List Char) : CStr :=
  (if l.getLast? = some '\n' then l.dropLast else l).takeWhile (fun c => decide (c ≠ NUL))

/-- The decimal digits printed by `%u`. -/
def utoa (n : Nat) : CStr := (Nat.repr n).toList

/-- The message built at the label `error`. -/
def cfg_error_cause (path cause : CStr) (n : Nat) : CStr :=
  path ++ ": ".toList ++ cause ++ " at line ".toList ++ utoa n

/-- Result of `load_cfg`: the return value, `*cause`, the counter `n`, the
server state and the ghost record of the calls. -/
structure cfg_result (σ : Type) where
  ret : Int
  cause : Option CStr
  n : Nat
  state : σ
  trace : List cfg_event

/-- Puts the events of one line before those of the lines after it. -/
def cfg_after {σ : Type} (evs : List cfg_event) (r : cfg_result σ) : cfg_result σ :=
  { r with trace := evs ++ r.trace }

/-- The `while` loop of `load_cfg` over the lines that `fgetln` returns, `n`
being an `u_int`. -/
def load_cfg_loop {σ : Type} (E : cfg_env σ) (path : CStr) (ctx : cmd_ctx) :
    List (List Char) → Nat → σ → cfg_result σ
  | [], n, s => ⟨0, none, n, s, []⟩
  | l :: rest, n, s =>
    match E.cmd_string_parse (cfg_line l) with
    | .failed none =>
      cfg_after [.parse ((n + 1) % 4294967296) (cfg_line l)]
        (load_cfg_loop E path ctx rest ((n + 1) % 4294967296) s)
    | .failed (some cause) =>
      ⟨1, some (cfg_error_cause path cause ((n + 1) % 4294967296)),
        (n + 1) % 4294967296, s, [.parse ((n + 1) % 4294967296) (cfg_line l)]⟩
    | .parsed none =>
      cfg_after [.parse ((n + 1) % 4294967296) (cfg_line l)]
        (load_cfg_loop E path ctx rest ((n + 1) % 4294967296) s)
    | .parsed (some cmdlist) =>
      match cfg_cause (E.cmd_list_exec cmdlist ctx s).2 with
      | some cause =>
        ⟨1, some (cfg_error_cause path cause ((n + 1) % 4294967296)),
          (n + 1) % 4294967296, (E.cmd_list_exec cmdlist ctx s).1,
          [.parse ((n + 1) % 4294967296) (cfg_line l),
           .exec ((n + 1) % 4294967296) cmdlist]⟩
      | none =>
        cfg_after [.parse ((n + 1) % 4294967296) (cfg_line l),
            .exec ((n + 1) % 4294967296) cmdlist]
          (load_cfg_loop E path ctx rest ((n + 1) % 4294967296)
            (E.cmd_list_exec cmdlist ctx s).1)

/-- The function `load_cfg(path, ctxin, cause)`. The file is given by what
`fopen` and `fgetln` deliver: the message of `strerror(errno)` when it cannot
be opened, else its lines. -/
def load_cfg {σ : Type} (E : cfg_env σ) (path : CStr)
    (file : Except CStr (List (List Char))) (ctxin : Option cmd_ctx) (s : σ) :
    cfg_result σ :=
  match file with
  | .error e => ⟨1, some (path ++ ": ".toList ++ e), 0, s, []⟩
  | .ok lines => load_cfg_loop E path (ctxin.getD ⟨none, none, none⟩) lines 0 s

/-- The command lists executed, with their line numbers, in order. -/
def cfg_executed (tr : List cfg_event) : List (Nat × cmd_list) :=
  tr.filterMap (fun e => match e with
    | .exec n c => some (n, c)
    | .parse _ _ => none)

/-- The strings handed to the parser, with their line numbers, in order. -/
def cfg_parsed (tr : List cfg_event) : List (Nat × CStr) :=
  tr.filterMap (fun e => match e with
    | .parse n b => some (n, b)
    | .exec _ _ => none)

/-- The command list, if any, that the line numbered `n` parses to. -/
def cfg_line_cmdlist {σ : Type} (E : cfg_env σ) (nl : Nat × List Char) :
    Option (Nat × cmd_list) :=
  match E.cmd_string_parse (cfg_line nl.2) with
  | .parsed (some c) => some (nl.1, c)
  | _ => none

/-- Numbers the lines from `n + 1`. -/
def cfg_numbered : List (List Char) → Nat → List (Nat × List Char)
  | [], _ => []
  | l :: rest, n => (n + 1, l) :: cfg_numbered rest (n + 1)

/-- Splits a string at its blanks: `cur` is the word being read. -/
def split_blanks_loop : CStr → CStr → List CStr
  | [], cur => if cur = [] then [] else [cur]
  | c :: rest, cur =>
    if c = ' ' then
      if cur = [] then split_blanks_loop rest [] else cur :: split_blanks_loop rest []
    else split_blanks_loop rest (cur ++ [c])

/-- The words of a string. -/
def split_blanks (s : CStr) : List CStr := split_blanks_loop s []

/-- An instance for the examples: a line that is empty or starts with `#`
gives no command list, any other line is split at its blanks and parsed by
`cmd_parse` over the lock commands. Running a command list says nothing and
counts the commands run. -/
def cfg_env_simple : cfg_env Nat where
  cmd_string_parse := fun buf =>
    match split_blanks buf with
    | [] => .parsed none
    | w :: ws =>
      if w.head? = some '#' then .parsed none
      else match cmd_parse 8192 lock_table (w :: ws) with
        | .ok c => .parsed (some [c])
        | .error e => .failed (some e)
  cmd_list_exec := fun cmdlist _ s => (s + cmdlist.length, [])

/-- As `cfg_env_simple`, with a command layer that prints one line per
command and sends one note to `info`. -/
def cfg_env_chatty : cfg_env Nat where
  cmd_string_parse := cfg_env_simple.cmd_string_parse
  cmd_list_exec := fun cmdlist _ s =>
    (s + cmdlist.length, [(sink.print, "0: ksh".toList), (sink.info, "done".toList)])

/-- As `cfg_env_simple`, with a command layer that reports two errors around
a printed line. -/
def cfg_env_failing : cfg_env Nat where
  cmd_string_parse := cfg_env_simple.cmd_string_parse
  cmd_list_exec := fun cmdlist _ s =>
    (s + cmdlist.length, [(sink.error, "no current client".toList),
      (sink.print, "0: ksh".toList), (sink.error, "server locked".toList)])

/-- The command that the line `lock-server` parses to. -/
def lock_server_cmd : cmd := ⟨plain_entry "lock-server" (some "lock") "", none⟩

/-! ## The commands `choose-session`, `choose-tree` and `list-windows` -/

/-- A `struct cmd_target_data`: the target given with `-t` and the optional
argument. -/
structure cmd_target_data where
  target : Option CStr := none
  arg : Option CStr := none
deriving DecidableEq

/-- The kinds of list that `window_choose_item_data` builds. -/
inductive win_choose where
  | WIN_CHOOSE_SESSIONS
  | WIN_CHOOSE_WINDOWS_SESSIONS
deriving DecidableEq

/-- The functions of the window layer that the three commands call and that
are not part of these sources: `window_pane_set_mode` (its return value for
the choose mode), `window_choose_item_data` (the item it returns) and
`layout_dump`. -/
structure window_env where
  window_pane_set_mode : Option window_pane → Int
  window_choose_item_data : cmd_ctx → winlink → win_choose → Nat
  layout_dump : window → CStr

/-- A `struct cmd_choose_session_data`. -/
structure cmd_choose_session_data where
  client : client
  template : CStr
deriving DecidableEq

/-- A `struct cmd_choose_tree_data`. -/
structure cmd_choose_tree_data where
  client : client
  session : session
  window_template : CStr
  session_template : CStr
deriving DecidableEq

/-- The arguments of a call of `window_choose_ready`: the pane, the current
item and the data handed to the callbacks. -/
structure choose_ready (α : Type) where
  wp : Option window_pane
  cur : Nat
  cdata : α
deriving DecidableEq

/-- What a call of one of the two `choose` commands leaves: the return value,
the messages sent to `ctx->error`, the client `ctx->curclient` points to as
the call leaves it, and the call of `window_choose_ready` made, if any. -/
structure choose_result (α : Type) where
  ret : Int
  errors : List CStr
  curclient : Option client
  ready : Option (choose_ready α)
deriving DecidableEq

/-- The function `cmd_choose_session_exec(self, ctx)`, `data` being
`self->data`. -/
def cmd_choose_session_exec (L : libc) (W : window_env) (S : server)
    (data : cmd_target_data) (ctx : cmd_ctx) : choose_result cmd_choose_session_data :=
  match ctx.curclient with
  | none => ⟨-1, ["must be run interactively".toList], none, none⟩
  | some c =>
    match (cmd_find_window L S ctx data.target).wl with
    | none => ⟨-1, (cmd_find_window L S ctx data.target).errors, some c, none⟩
    | some wl =>
      if W.window_pane_set_mode wl.window.active ≠ 0 then
        ⟨0, (cmd_find_window L S ctx data.target).errors, some c, none⟩
      else
        ⟨0, (cmd_find_window L S ctx data.target).errors,
          some { c with references := c.references + 1 },
          some ⟨wl.window.active,
            W.window_choose_item_data ctx wl win_choose.WIN_CHOOSE_SESSIONS,
            ⟨{ c with references := c.references + 1 },
              match data.arg with
              | some arg => arg
              | none => "switch-client -t \x27%%\x27".toList⟩⟩⟩

/-- The function `cmd_choose_tree_exec(self, ctx)`, `data` being `self->data`.
The result is `none` where the code dereferences the null `session` of the
current client. -/
def cmd_choose_tree_exec (L : libc) (W : window_env) (S : server)
    (data : cmd_target_data) (ctx : cmd_ctx) :
    Option (choose_result cmd_choose_tree_data) :=
  match ctx.curclient with
  | none => some ⟨-1, ["must be run interactively".toList], none, none⟩
  | some c =>
    match (cmd_find_window L S ctx data.target).wl with
    | none => some ⟨-1, (cmd_find_window L S ctx data.target).errors, some c, none⟩
    | some wl =>
      if W.window_pane_set_mode wl.window.active ≠ 0 then
        some ⟨0, (cmd_find_window L S ctx data.target).errors, some c, none⟩
      else
        match c.session with
        | none => none
        | some s =>
          some ⟨0, (cmd_find_window L S ctx data.target).errors,
            some { c with references := c.references + 1,
                          session := some { s with references := s.references + 1 } },
            some ⟨wl.window.active,
              W.window_choose_item_data ctx wl win_choose.WIN_CHOOSE_WINDOWS_SESSIONS,
              ⟨{ c with references := c.references + 1,
                        session := some { s with references := s.references + 1 } },
                { s with references := s.references + 1 },
                "select-window -t \x27%%\x27".toList, "switch-client -t \x27%%\x27".toList⟩⟩⟩

/-- What `cmd_list_windows_exec` leaves: the return value and the messages
sent to `ctx->error` and to `ctx->print`. -/
structure list_windows_result where
  ret : Int
  errors : List CStr
  printed : List CStr
deriving DecidableEq

/-- The line printed for a winlink of the session `s`. -/
def cmd_list_windows_line (W : window_env) (s : session) (wl : winlink) : CStr :=
  utoa wl.idx ++ ": ".toList ++ wl.window.name ++ " [".toList ++ utoa wl.window.sx ++
    "x".toList ++ utoa wl.window.sy ++ "] [layout ".toList ++ W.layout_dump wl.window ++
    "]".toList ++ (if wl = s.curw then " (active)".toList else [])

/-- The function `cmd_list_windows_exec(self, ctx)`, `data` being
`self->data`. -/
def cmd_list_windows_exec (L : libc) (W : window_env) (S : server)
    (data : cmd_target_data) (ctx : cmd_ctx) : list_windows_result :=
  match (cmd_find_session L S ctx data.target).1 with
  | none => ⟨-1, (cmd_find_session L S ctx data.target).2, []⟩
  | some s =>
    ⟨0, (cmd_find_session L S ctx data.target).2,
      s.windows.map (cmd_list_windows_line W s)⟩

/-- The values of `enum msgtype` that the client loop tells apart; the other
ones fall to `default`. -/
inductive msgtype where
  | MSG_EXIT
  | MSG_SHUTDOWN
  | MSG_ERROR
  | MSG_PRINT
  | MSG_READY
  | other (code : Nat)
deriving DecidableEq

/-- A `struct hdr`. -/
structure hdr where
  type : msgtype
  size : Nat
deriving DecidableEq

/-- The layout facts of the header file that the loop uses: `sizeof hdr`,
`sizeof printdata` (the record holds the array `msg` alone) and the value of
a `struct hdr` copied by `memcpy` from `sizeof hdr` bytes. -/
structure wire where
  hdr_size : Nat
  print_size : Nat
  read_hdr : List Char → hdr

/-- Where the loop stands: back at `poll`, at the label `out`, or ended by
`fatalx` with a message. -/
inductive loop_status where
  | polling
  | out
  | fatal (msg : CStr)
deriving DecidableEq

/-- The state of the client loop: the bytes of `cctx.srv_in` (none once the
loop is left), `retcode`, and the ghost list of the messages dispatched, each
with the text logged for it. -/
structure client_loop where
  srv_in : List Char
  retcode : Int
  handled : List (msgtype × CStr)
  status : loop_status
deriving DecidableEq

/-- The text logged for a print record read from the front of `buf`: the last
byte of `msg` is overwritten with NUL. -/
def print_text (W : wire) (buf : List Char) : CStr :=
  ((buf.take W.print_size).take (W.print_size - 1)).takeWhile (fun c => decide (c ≠ NUL))

/-- Modelled from the spec: the check of `buffer_read`, which is not part of
the sources. A read of more bytes than are buffered finds a truncated payload,
which is fatal to the connection. -/
abbrev buffer_underflow (b : List Char) (size : Nat) : Prop := b.length < size

/-- The loop from the label `restart` until it goes back to `poll` or leaves;
`client_main` is the value the function of that name returns, and the first
argument bounds the number of messages decoded. The buffer is the list of the
bytes in it: `BUFFER_USED` is its length, `buffer_remove` and `buffer_read`
take bytes off its front. -/
def client_restart (W : wire) (client_main : Int) : Nat → client_loop → client_loop
  | 0, st => st
  | fuel + 1, st =>
    if st.srv_in.length < W.hdr_size then st
    else if st.srv_in.length <
        (W.hdr_size + (W.read_hdr (st.srv_in.take W.hdr_size)).size) % SIZE_MOD then st
    else
      match (W.read_hdr (st.srv_in.take W.hdr_size)).type with
      | .MSG_EXIT => ⟨[], st.retcode, st.handled ++ [(.MSG_EXIT, [])], .out⟩
      | .MSG_SHUTDOWN => ⟨[], st.retcode, st.handled ++ [(.MSG_SHUTDOWN, [])], .out⟩
      | .MSG_ERROR =>
        if (W.read_hdr (st.srv_in.take W.hdr_size)).size < W.print_size then
          ⟨[], 1, st.handled, .fatal "bad MSG_PRINT size".toList⟩
        else if buffer_underflow (st.srv_in.drop W.hdr_size) W.print_size then
          ⟨[], 1, st.handled, .fatal "underflow".toList⟩
        else
          client_restart W client_main fuel
            ⟨(st.srv_in.drop W.hdr_size).drop W.print_size, 1,
              st.handled ++ [(.MSG_ERROR, print_text W (st.srv_in.drop W.hdr_size))],
              st.status⟩
      | .MSG_PRINT =>
        if (W.read_hdr (st.srv_in.take W.hdr_size)).size < W.print_size then
          ⟨[], st.retcode, st.handled, .fatal "bad MSG_PRINT size".toList⟩
        else if buffer_underflow (st.srv_in.drop W.hdr_size) W.print_size then
          ⟨[], st.retcode, st.handled, .fatal "underflow".toList⟩
        else
          client_restart W client_main fuel
            ⟨(st.srv_in.drop W.hdr_size).drop W.print_size, st.retcode,
              st.handled ++ [(.MSG_PRINT, print_text W (st.srv_in.drop W.hdr_size))],
              st.status⟩
      | .MSG_READY => ⟨[], client_main, st.handled ++ [(.MSG_READY, [])], .out⟩
      | .other _ => ⟨[], st.retcode, st.handled, .fatal "unexpected command".toList⟩

/-- One pass of the decode step on the buffer as it stands. -/
def client_decode (W : wire) (client_main : Int) (st : client_loop) : client_loop :=
  client_restart W client_main (st.srv_in.length + 1) st

/-- One turn of the `for` loop: `buffer_poll` appends the bytes read to
`srv_in`, or fails (`none`) and the loop leaves; then the decode step. -/
def client_wake (W : wire) (client_main : Int) (chunk : Option (List Char))
    (st : client_loop) : client_loop :=
  match st.status with
  | .polling =>
    match chunk with
    | none => ⟨[], st.retcode, st.handled, .out⟩
    | some bytes => client_decode W client_main { st with srv_in := st.srv_in ++ bytes }
  | _ => st

/-- The loop over the successive results of `buffer_poll`. -/
def client_loop_run (W : wire) (client_main : Int) :
    List (Option (List Char)) → client_loop → client_loop
  | [], st => st
  | chunk :: rest, st => client_loop_run W client_main rest (client_wake W client_main chunk st)

/-- The state in which the loop is entered: `retcode = 0`, nothing read. -/
def client_start : client_loop := ⟨[], 0, [], .polling⟩

/-- The types of the messages dispatched. -/
def handled_types (st : client_loop) : List msgtype := st.handled.map (fun m => m.1)

/-- A message on the wire: the bytes of its header and of its payload. -/
structure message where
  header : List Char
  payload : List Char
deriving DecidableEq

/-- The bytes of a sequence of messages. -/
def wire_bytes : List message → List Char
  | [] => []
  | m :: ms => m.header ++ m.payload ++ wire_bytes ms

/-- A well-formed message: the header has the size of a `struct hdr` and
declares the length of the payload, the two lengths add up within `size_t`,
and a print or error message is not longer than the print record. -/
def well_formed (W : wire) (m : message) : Prop :=
  m.header.length = W.hdr_size ∧
  (W.read_hdr m.header).size = m.payload.length ∧
  W.hdr_size + m.payload.length < SIZE_MOD ∧
  (((W.read_hdr m.header).type = .MSG_PRINT ∨ (W.read_hdr m.header).type = .MSG_ERROR) →
    m.payload.length ≤ W.print_size)

instance (W : wire) (m : message) : Decidable (well_formed W m) := by
  unfold well_formed; infer_instance

/-- The number written in base 256, lowest byte first. -/
def le_value : List Char → Nat
  | [] => 0
  | c :: cs => c.toNat + 256 * le_value cs

/-- The `n` lowest bytes of `v`, lowest first. -/
def le_bytes : Nat → Nat → List Char
  | 0, _ => []
  | n + 1, v => Char.ofNat (v % 256) :: le_bytes n (v / 256)

/-- The message types of the examples. -/
def msgtype_of_code : Nat → msgtype
  | 0 => .MSG_EXIT
  | 1 => .MSG_SHUTDOWN
  | 2 => .MSG_ERROR
  | 3 => .MSG_PRINT
  | 4 => .MSG_READY
  | n => .other n

/-- An instance for the examples: a header of nine bytes, the type and the
eight bytes of the size, and a print record of four bytes. -/
def wire_simple : wire where
  hdr_size := 9
  print_size := 4
  read_hdr := fun bytes => ⟨msgtype_of_code (bytes.headD NUL).toNat, le_value (bytes.drop 1)⟩

/-- The header of the examples for a type code and a size. -/
def hdr_bytes (code size : Nat) : List Char := Char.ofNat code :: le_bytes 8 size

/-- A message of the examples. -/
def simple_message (code : Nat) (payload : String) : message :=
  ⟨hdr_bytes code payload.length, payload.toList⟩

/-- What one decode from the label `restart` does: the loop goes back to
`poll` with the state untouched, leaves in the state given, or jumps to
`restart` in the state given. -/
inductive decode_outcome where
  | wait
  | stop (st : client_loop)
  | next (st : client_loop)

/-- One decode from the label `restart`, as an outcome. -/
def client_step (W : wire) (client_main : Int) (st : client_loop) : decode_outcome :=
  if st.srv_in.length < W.hdr_size then .wait
  else if st.srv_in.length <
      (W.hdr_size + (W.read_hdr (st.srv_in.take W.hdr_size)).size) % SIZE_MOD then .wait
  else
    match (W.read_hdr (st.srv_in.take W.hdr_size)).type with
    | .MSG_EXIT => .stop ⟨[], st.retcode, st.handled ++ [(.MSG_EXIT, [])], .out⟩
    | .MSG_SHUTDOWN => .stop ⟨[], st.retcode, st.handled ++ [(.MSG_SHUTDOWN, [])], .out⟩
    | .MSG_ERROR =>
      if (W.read_hdr (st.srv_in.take W.hdr_size)).size < W.print_size then
        .stop ⟨[], 1, st.handled, .fatal "bad MSG_PRINT size".toList⟩
      else if buffer_underflow (st.srv_in.drop W.hdr_size) W.print_size then
        .stop ⟨[], 1, st.handled, .fatal "underflow".toList⟩
      else
        .next ⟨(st.srv_in.drop W.hdr_size).drop W.print_size, 1,
          st.handled ++ [(.MSG_ERROR, print_text W (st.srv_in.drop W.hdr_size))], st.status⟩
    | .MSG_PRINT =>
      if (W.read_hdr (st.srv_in.take W.hdr_size)).size < W.print_size then
        .stop ⟨[], st.retcode, st.handled, .fatal "bad MSG_PRINT size".toList⟩
      else if buffer_underflow (st.srv_in.drop W.hdr_size) W.print_size then
        .stop ⟨[], st.retcode, st.handled, .fatal "underflow".toList⟩
      else
        .next ⟨(st.srv_in.drop W.hdr_size).drop W.print_size, st.retcode,
          st.handled ++ [(.MSG_PRINT, print_text W (st.srv_in.drop W.hdr_size))], st.status⟩
    | .MSG_READY => .stop ⟨[], client_main, st.handled ++ [(.MSG_READY, [])], .out⟩
    | .other _ => .stop ⟨[], st.retcode, st.handled, .fatal "unexpected command".toList⟩

/-- The state with the bytes `c` appended to `srv_in`. -/
def client_fed (st : client_loop) (c : List Char) : client_loop :=
  { st with srv_in := st.srv_in ++ c }

/-- The bytes of a sequence of chunks. -/
def chunk_bytes : List (List Char) → List Char
  | [] => []
  | c :: cs => c ++ chunk_bytes cs

/-- The value `main` returns from the label `out`, by the messages
dispatched. -/
def retcode_of (client_main : Int) (types : List msgtype) : Int :=
  if msgtype.MSG_READY ∈ types then client_main
  else if msgtype.MSG_ERROR ∈ types then 1 else 0

/-- Example stream: a print message, an error message and an exit
message. -/
def example_stream : List message :=
  [simple_message 3 "hi\x00\x00", simple_message 2 "no\x00\x00", simple_message 0 ""]

/-! ## `cmd_template_replace` -/

/-- The `while` loop of `cmd_template_replace` over the characters from `ptr`
on, with `replaced` and the content of `buf` (`len` is its length): the test
on the character after a `%`, the `break` that lets the `%` be copied, and the
`strlcat` of `s`. -/
def cmd_template_replace_loop (s : CStr) (idx : Int) : List Char → Bool → CStr → CStr
  | [], _, buf => buf
  | [ch], _, buf => buf ++ [ch]
  | ch :: nxt :: rest, replaced, buf =>
    if ch = '%' then
      if nxt.toNat < '1'.toNat ∨ nxt.toNat > '9'.toNat ∨ (nxt.toNat : Int) - '0'.toNat ≠ idx then
        if nxt ≠ '%' ∨ replaced = true then
          cmd_template_replace_loop s idx (nxt :: rest) replaced (buf ++ [ch])
        else
          cmd_template_replace_loop s idx rest true
            (strlcat buf s (buf.length + s.length + 1)).1
      else
        cmd_template_replace_loop s idx rest replaced
          (strlcat buf s (buf.length + s.length + 1)).1
    else
      cmd_template_replace_loop s idx (nxt :: rest) replaced (buf ++ [ch])

/-- The function `cmd_template_replace(template, s, idx)`. -/
def cmd_template_replace (template s : CStr) (idx : Int) : CStr :=
  if '%' ∉ template then template
  else cmd_template_replace_loop s idx template false []

/-- The pieces a template is written with: a text, the marker `%<idx>`, the
marker `%%`, and a `%` that belongs to no marker. -/
inductive template_piece where
  | text (t : CStr)
  | arg
  | percents
  | percent
deriving DecidableEq

/-- The digit of an index from 1 to 9. -/
def idx_digit (idx : Nat) : Char := Char.ofNat ('0'.toNat + idx)

/-- The characters of a template written as pieces. -/
def template_of (idx : Nat) : List template_piece → CStr
  | [] => []
  | .text t :: ps => t ++ template_of idx ps
  | .arg :: ps => '%' :: idx_digit idx :: template_of idx ps
  | .percents :: ps => '%' :: '%' :: template_of idx ps
  | .percent :: ps => '%' :: template_of idx ps

/-- The pieces with `s` in the place of every marker `%<idx>` and of the first
marker `%%`, every other character as it is; `replaced` tells that a `%%`
was met before. -/
def template_substituted (s : CStr) : Bool → List template_piece → CStr
  | _, [] => []
  | r, .text t :: ps => t ++ template_substituted s r ps
  | r, .arg :: ps => s ++ template_substituted s r ps
  | false, .percents :: ps => s ++ template_substituted s true ps
  | true, .percents :: ps => '%' :: '%' :: template_substituted s true ps
  | r, .percent :: ps => '%' :: template_substituted s r ps

/-- The pieces are the markers of the template read from left to right: no
text holds a `%`, no `%%` after the first is followed at once by the digit of
the index, and a `%` that belongs to no marker is followed neither by the
digit of the index nor, as long as no `%%` was met, by a `%`. -/
def template_clear (idx : Nat) : Bool → List template_piece → Bool
  | _, [] => true
  | r, .text t :: ps => decide ('%' ∉ t) && template_clear idx r ps
  | r, .arg :: ps => template_clear idx r ps
  | false, .percents :: ps => template_clear idx true ps
  | true, .percents :: ps =>
    decide ((template_of idx ps).head? ≠ some (idx_digit idx)) && template_clear idx true ps
  | r, .percent :: ps =>
    decide ((template_of idx ps).head? ≠ some (idx_digit idx)) &&
      (r || decide ((template_of idx ps).head? ≠ some '%')) && template_clear idx r ps

/-- The pieces of a template read from left to right: after a `%`, the digit
of the index makes a marker `%<idx>`, a `%` makes the marker `%%` as long as
none was met, and otherwise the `%` stands alone. -/
def template_reading (idx : Nat) : Bool → List Char → List template_piece
  | _, [] => []
  | _, [c] => if c = '%' then [.percent] else [.text [c]]
  | r, c :: nxt :: rest =>
    if c = '%' then
      if nxt = idx_digit idx then .arg :: template_reading idx r rest
      else if nxt = '%' ∧ r = false then .percents :: template_reading idx true rest
      else .percent :: template_reading idx r (nxt :: rest)
    else .text [c] :: template_reading idx r (nxt :: rest)

/-! ## The callbacks of the two `choose` commands -/

/-- What a callback of a `choose` command leaves: (ghost) the position at
which the session array is read, the string handed to `cmd_string_parse`, the
text handed to `status_message_set`, the list and the context handed to
`cmd_list_exec`, the messages of the commands run, the server state, and the
captured data as the statements of the callback leave them. -/
structure callback_result (σ α : Type) where
  read : Option Int
  parsed : Option CStr
  status : Option CStr
  executed : Option (Option cmd_list × cmd_ctx)
  messages : List (sink × CStr)
  state : σ
  cdata : α

/-- A return of the callback before anything is done. -/
def callback_nothing {σ α : Type} (st : σ) (cdata : α) : callback_result σ α :=
  ⟨none, none, none, none, [], st, cdata⟩

/-- The text `cause` with `toupper` applied to its first character. -/
def capitalised (cause : CStr) : CStr :=
  match cause with
  | [] => []
  | c :: cs => c.toUpper :: cs

/-- The part of both callbacks from `cmd_string_parse` on: a failed parse
sets the status message when it gave a cause; a parsed list, null or not, is
handed to `cmd_list_exec` with the captured client as current client. -/
def callback_run {σ α : Type} (E : cfg_env σ) (c : client) (template : CStr)
    (read : Option Int) (st : σ) (cdata : α) : callback_result σ α :=
  match E.cmd_string_parse template with
  | .failed cause => ⟨read, some template, cause.map capitalised, none, [], st, cdata⟩
  | .parsed none =>
    ⟨read, some template, none, some (none, ⟨some c, none, none⟩), [], st, cdata⟩
  | .parsed (some cmdlist) =>
    ⟨read, some template, none, some (some cmdlist, ⟨some c, none, none⟩),
      (E.cmd_list_exec cmdlist ⟨some c, none, none⟩ st).2,
      (E.cmd_list_exec cmdlist ⟨some c, none, none⟩ st).1, cdata⟩

/-- The function `cmd_choose_session_callback(data, idx)`; `CLIENT_DEAD` is
the flag of the absent header, `ARRAY_LENGTH(&sessions) - 1` is computed in
`u_int`, and a read past the last slot yields no session here. -/
def cmd_choose_session_callback {σ : Type} (E : cfg_env σ) (CLIENT_DEAD : Nat) (S : server)
    (cdata : cmd_choose_session_data) (idx : Int) (st : σ) :
    callback_result σ cmd_choose_session_data :=
  if idx = -1 then callback_nothing st cdata
  else if cdata.client.flags &&& CLIENT_DEAD ≠ 0 then callback_nothing st cdata
  else if to_u32 idx > (S.sessions.length + 4294967296 - 1) % 4294967296 then
    callback_nothing st cdata
  else
    match (if 0 ≤ idx then (S.sessions[idx.toNat]?).join else none) with
    | none => ⟨some idx, none, none, none, [], st, cdata⟩
    | some s =>
      callback_run E cdata.client (cmd_template_replace cdata.template s.name 1)
        (some idx) st cdata

/-- The digits printed by `%d`. -/
def itoa (n : Int) : CStr :=
  if n < 0 then '-' :: utoa (-n).toNat else utoa n.toNat

/-- The function `cmd_choose_tree_callback(data, idx)`; `CLIENT_DEAD` and
`SESSION_DEAD` are the flags of the absent header. -/
def cmd_choose_tree_callback {σ : Type} (E : cfg_env σ) (CLIENT_DEAD SESSION_DEAD : Nat)
    (cdata : cmd_choose_tree_data) (idx : Int) (st : σ) :
    callback_result σ cmd_choose_tree_data :=
  if idx = -1 then callback_nothing st cdata
  else if cdata.client.flags &&& CLIENT_DEAD ≠ 0 then callback_nothing st cdata
  else if cdata.session.flags &&& SESSION_DEAD ≠ 0 then callback_nothing st cdata
  else if cdata.client.session ≠ some cdata.session then callback_nothing st cdata
  else
    callback_run E cdata.client
      (cmd_template_replace cdata.window_template
        (cdata.session.name ++ ":".toList ++ itoa idx) 1)
      none st cdata

/-- A command layer for the examples that parses every line to the command
`lock-server` and runs it silently. -/
def cfg_env_lock : cfg_env Nat where
  cmd_string_parse := fun _ => .parsed (some [lock_server_cmd])
  cmd_list_exec := fun cmdlist _ s => (s + cmdlist.length, [])

/-- The libc test `strcmp(a, b) < 0` on string contents, the order in which
the entries of `cmd_table` are written. -/
def strcmp_lt : CStr → CStr → Bool
  | [], [] => false
  | [], _ :: _ => true
  | _ :: _, [] => false
  | a :: as, b :: bs =>
    if a.toNat < b.toNat then true else if a = b then strcmp_lt as bs else false

/-- Modelled from the spec: the server state after the lines given, where
each line that parses to a command list is executed at once, in the order of
the file, on the state the lines before it left, and nothing is rolled
back. -/
def cfg_state_after {σ : Type} (E : cfg_env σ) (ctx : cmd_ctx) : List (List Char) → σ → σ
  | [], s => s
  | l :: rest, s =>
    match E.cmd_string_parse (cfg_line l) with
    | .parsed (some c) => cfg_state_after E ctx rest (E.cmd_list_exec c ctx s).1
    | _ => cfg_state_after E ctx rest s

/-- None of the lines given, taken in order from the state `s`, gives a parse
message, and none has a command list whose execution sends a message to the
error callback. -/
def cfg_clean {σ : Type} (E : cfg_env σ) (ctx : cmd_ctx) : List (List Char) → σ → Bool
  | [], _ => true
  | l :: rest, s =>
    match E.cmd_string_parse (cfg_line l) with
    | .failed (some _) => false
    | .failed none => cfg_clean E ctx rest s
    | .parsed none => cfg_clean E ctx rest s
    | .parsed (some c) =>
      (E.cmd_list_exec c ctx s).2.all (fun x => decide (x.1 ≠ sink.error)) &&
        cfg_clean E ctx rest (E.cmd_list_exec c ctx s).1

/-! ## Memory lemmas -/

theorem size_sub_eq (a b : Nat) (hb : b ≤ a) (ha : a < SIZE_MOD) : size_sub a b = a - b := by
  unfold size_sub
  have hb2 : b % SIZE_MOD = b := Nat.mod_eq_of_lt (by omega)
  rw [hb2]
  have h : a + SIZE_MOD - b = (a - b) + SIZE_MOD := by omega
  rw [h, Nat.add_mod_right]
  exact Nat.mod_eq_of_lt (by omega)

theorem write_length (cs : List Char) : ∀ (mem : List Char) (off : Nat),
    (write mem off cs).length = mem.length := by
  induction cs with
  | nil => intro mem off; rfl
  | cons c cs ih => intro mem off; simp [write, ih]

/-- Writing over a segment replaces exactly that segment. -/
theorem write_append (cs : List Char) : ∀ (p old q : List Char),
    old.length = cs.length → write (p ++ old ++ q) p.length cs = p ++ cs ++ q := by
  induction cs with
  | nil =>
    intro p old q h
    have : old = [] := List.length_eq_zero.mp h
    subst this
    simp [write]
  | cons c cs ih =>
    intro p old q h
    cases old with
    | nil => simp at h
    | cons o old =>
      simp only [List.length_cons, Nat.add_right_cancel_iff] at h
      simp only [write]
      have hset : (p ++ o :: old ++ q).set p.length c = (p ++ [c]) ++ old ++ q := by
        rw [List.append_assoc, List.set_append_right _ _ (Nat.le_refl _)]
        simp
      rw [hset]
      have hlen : p.length + 1 = (p ++ [c]).length := by simp
      rw [hlen, ih (p ++ [c]) old q h]
      simp

theorem write_eq (cs : List Char) (mem : List Char) (off : Nat)
    (h : off + cs.length ≤ mem.length) :
    write mem off cs = mem.take off ++ cs ++ mem.drop (off + cs.length) := by
  have hsplit : mem = mem.take off ++ (mem.drop off).take cs.length
      ++ mem.drop (off + cs.length) := by
    rw [List.append_assoc, ← List.drop_drop, List.take_append_drop, List.take_append_drop]
  have hl : (mem.take off).length = off := by
    rw [List.length_take]; omega
  have hl2 : ((mem.drop off).take cs.length).length = cs.length := by
    rw [List.length_take, List.length_drop]; omega
  have := write_append cs (mem.take off) ((mem.drop off).take cs.length)
    (mem.drop (off + cs.length)) hl2
  rw [hl, ← hsplit] at this
  exact this

/-! ## Packing -/

theorem encoded_size_eq_length (argv : List CStr) :
    encoded_size argv = (encode_argv argv).length := by
  induction argv with
  | nil => rfl
  | cons a rest ih => simp [encoded_size, encode_argv, ih]; omega

/-- Return value and capacity counter of the packing loop. -/
theorem cmd_pack_argv_loop_ret (argv : List CStr) : ∀ (mem : List Char) (buf len : Nat),
    len < SIZE_MOD →
    (cmd_pack_argv_loop argv mem buf len).ret = (if len < encoded_size argv then -1 else 0) ∧
    ∀ p ∈ (cmd_pack_argv_loop argv mem buf len).subs, p.2 ≤ p.1 := by
  induction argv with
  | nil => intro mem buf len _; simp [cmd_pack_argv_loop, encoded_size]
  | cons a rest ih =>
    intro mem buf len hlen
    simp only [cmd_pack_argv_loop, strlcpy, encoded_size]
    by_cases h : a.length ≥ len
    · simp only [h, if_true]
      constructor
      · rw [if_pos (by omega)]
      · simp
    · simp only [h, if_false]
      have hal : (a.length + 1) % SIZE_MOD = a.length + 1 := Nat.mod_eq_of_lt (by omega)
      have hsub : size_sub len (a.length + 1) = len - (a.length + 1) :=
        size_sub_eq _ _ (by omega) hlen
      rw [hal, hsub]
      obtain ⟨h1, h2⟩ := ih (if len = 0 then mem else write mem buf (a.take (len - 1) ++ [NUL]))
        (buf + (a.length + 1)) (len - (a.length + 1)) (by omega)
      constructor
      · rw [h1]
        by_cases h3 : len < a.length + 1 + encoded_size rest
        · rw [if_pos h3, if_pos (by omega)]
        · rw [if_neg h3, if_neg (by omega)]
      · intro p hp
        rcases List.mem_cons.mp hp with hp | hp
        · subst hp; simp; omega
        · exact h2 p hp

/-- Memory written by the packing loop when everything fits. -/
theorem cmd_pack_argv_loop_buf (argv : List CStr) : ∀ (mem : List Char) (buf len : Nat),
    len < SIZE_MOD → encoded_size argv ≤ len → buf + len ≤ mem.length →
    (cmd_pack_argv_loop argv mem buf len).buf =
      mem.take buf ++ encode_argv argv ++ mem.drop (buf + encoded_size argv) := by
  induction argv with
  | nil => intro mem buf len _ _ _; simp [cmd_pack_argv_loop, encode_argv, encoded_size]
  | cons a rest ih =>
    intro mem buf len hlen hfit hmem
    simp only [encoded_size] at hfit
    simp only [cmd_pack_argv_loop, strlcpy, encoded_size, encode_argv]
    have h : ¬ a.length ≥ len := by omega
    simp only [h, if_false]
    have hal : (a.length + 1) % SIZE_MOD = a.length + 1 := Nat.mod_eq_of_lt (by omega)
    have hsub : size_sub len (a.length + 1) = len - (a.length + 1) :=
      size_sub_eq _ _ (by omega) hlen
    have hne : ¬ len = 0 := by omega
    have htake : a.take (len - 1) = a := List.take_of_length_le (by omega)
    rw [hal, hsub, if_neg hne, htake]
    have hw : write mem buf (a ++ [NUL]) =
        (mem.take buf ++ (a ++ [NUL])) ++ mem.drop (buf + (a.length + 1)) := by
      have := write_eq (a ++ [NUL]) mem buf (by simp; omega)
      simpa using this
    have hpl : (mem.take buf ++ (a ++ [NUL])).length = buf + (a.length + 1) := by
      simp [List.length_take]; omega
    rw [ih _ (buf + (a.length + 1)) (len - (a.length + 1)) (by omega) (by omega)
      (by rw [write_length]; omega)]
    rw [hw]
    have e1 : List.take (buf + (a.length + 1))
        ((mem.take buf ++ (a ++ [NUL])) ++ mem.drop (buf + (a.length + 1))) =
        mem.take buf ++ (a ++ [NUL]) := List.take_left' hpl
    have e2 : List.drop (buf + (a.length + 1) + encoded_size rest)
        ((mem.take buf ++ (a ++ [NUL])) ++ mem.drop (buf + (a.length + 1))) =
        mem.drop (buf + (a.length + 1 + encoded_size rest)) := by
      rw [← hpl, List.drop_append, List.drop_drop, hpl]
      congr 1
      omega
    rw [e1, e2]
    simp

/-! ## Unpacking -/

theorem cstrings_from_append (s : List Char) (hs : ∀ c ∈ s, c ≠ NUL) :
    ∀ (cur ys : List Char),
      cstrings_from (s ++ NUL :: ys) cur = (cur.reverse ++ s) :: cstrings ys := by
  induction s with
  | nil => intro cur ys; simp [cstrings_from, cstrings]
  | cons c s ih =>
    intro cur ys
    have hc : c ≠ NUL := hs c (List.mem_cons_self _ _)
    have hs2 : ∀ d ∈ s, d ≠ NUL := fun d hd => hs d (List.mem_cons_of_mem _ hd)
    have e : cstrings_from (c :: (s ++ NUL :: ys)) cur =
        cstrings_from (s ++ NUL :: ys) (c :: cur) := by
      rw [cstrings_from, if_neg hc]
    rw [List.cons_append, e, ih hs2]
    simp

theorem cstrings_append (s : List Char) (hs : ∀ c ∈ s, c ≠ NUL) (ys : List Char) :
    cstrings (s ++ NUL :: ys) = s :: cstrings ys := by
  have := cstrings_from_append s hs [] ys
  simpa [cstrings] using this

theorem takeWhile_no_nul (l : List Char) :
    ∀ c ∈ l.takeWhile (fun c => c != NUL), c ≠ NUL := by
  intro c hc
  have := List.mem_takeWhile_imp hc
  simpa using this

/-- A buffer with a NUL at offset `k - 1` starts with a string shorter than `k`. -/
theorem split_at_nul (l : List Char) : ∀ (k : Nat), k ≠ 0 → l[k - 1]? = some NUL →
    ∃ r, l = l.takeWhile (fun c => c != NUL) ++ NUL :: r ∧
      (l.takeWhile (fun c => c != NUL)).length < k := by
  induction l with
  | nil => intro k _ h; simp at h
  | cons c cs ih =>
    intro k hk h
    by_cases hc : c = NUL
    · subst hc
      refine ⟨cs, ?_, ?_⟩
      · simp
      · simp; omega
    · have hk1 : k - 1 ≠ 0 := by
        intro h0
        rw [h0] at h
        simp at h
        exact hc h
      have h2 : cs[k - 1 - 1]? = some NUL := by
        obtain ⟨m, hm⟩ : ∃ m, k - 1 = m + 1 := ⟨k - 1 - 1, by omega⟩
        rw [hm] at h
        simpa [hm] using h
      obtain ⟨r, hr1, hr2⟩ := ih (k - 1) hk1 h2
      have htw : (c :: cs).takeWhile (fun c => c != NUL) =
          c :: cs.takeWhile (fun c => c != NUL) := by
        simp [List.takeWhile_cons, hc]
      refine ⟨r, ?_, ?_⟩
      · rw [htw, List.cons_append, ← hr1]
      · rw [htw, List.length_cons]
        omega

/-- The unpacking loop reads the NUL-terminated strings of the `len` bytes
ahead of the read pointer, as long as the last of those bytes is a NUL. -/
theorem cmd_unpack_argv_loop_spec (mem : List Char) : ∀ (n off len : Nat),
    len < SIZE_MOD → len ≤ (mem.drop off).length →
    (len ≠ 0 → (mem.drop off)[len - 1]? = some NUL) →
    (cmd_unpack_argv_loop mem n off len).ret =
        (if (cstrings ((mem.drop off).take len)).length < n then -1 else 0) ∧
    (cmd_unpack_argv_loop mem n off len).argv =
        (if (cstrings ((mem.drop off).take len)).length < n then []
         else (cstrings ((mem.drop off).take len)).take n) ∧
    (∀ p ∈ (cmd_unpack_argv_loop mem n off len).subs, p.2 ≤ p.1) := by
  intro n
  induction n with
  | zero => intro off len _ _ _; simp [cmd_unpack_argv_loop]
  | succ n ih =>
    intro off len hlen hle hnul
    by_cases h0 : len = 0
    · subst h0; simp [cmd_unpack_argv_loop, cstrings, cstrings_from]
    · obtain ⟨r, hr1, hr2⟩ := split_at_nul (mem.drop off) len h0 (hnul h0)
      have hs : strlen mem off = ((mem.drop off).takeWhile (fun c => c != NUL)).length := rfl
      have hx : xstrdup mem off = (mem.drop off).takeWhile (fun c => c != NUL) := rfl
      have hsn := takeWhile_no_nul (mem.drop off)
      generalize (mem.drop off).takeWhile (fun c => c != NUL) = s at hr1 hr2 hx hs hsn
      have hal : (s.length + 1) % SIZE_MOD = s.length + 1 := Nat.mod_eq_of_lt (by omega)
      have hsub : size_sub len (s.length + 1) = len - (s.length + 1) :=
        size_sub_eq _ _ (by omega) hlen
      have hsplit : s ++ NUL :: r = (s ++ [NUL]) ++ r := by simp
      have hl1 : (s ++ [NUL]).length = s.length + 1 := by simp
      have hdrop : mem.drop (off + (s.length + 1)) = r := by
        rw [← List.drop_drop, hr1, hsplit]
        exact List.drop_left' hl1
      have htake : (mem.drop off).take len = s ++ NUL :: r.take (len - (s.length + 1)) := by
        rw [hr1, hsplit, List.take_append_eq_append_take, hl1,
          List.take_of_length_le (by rw [hl1]; omega)]
        simp
      have hstrs : cstrings ((mem.drop off).take len) =
          s :: cstrings (r.take (len - (s.length + 1))) := by
        rw [htake, cstrings_append s hsn]
      have hle2 : len - (s.length + 1) ≤ (mem.drop (off + (s.length + 1))).length := by
        rw [hdrop]
        rw [hr1] at hle
        simp at hle
        omega
      have hnul2 : len - (s.length + 1) ≠ 0 →
          (mem.drop (off + (s.length + 1)))[len - (s.length + 1) - 1]? = some NUL := by
        intro hne
        rw [hdrop]
        have h1 := hnul h0
        rw [hr1, hsplit, List.getElem?_append_right (by rw [hl1]; omega), hl1] at h1
        have : len - 1 - (s.length + 1) = len - (s.length + 1) - 1 := by omega
        rw [this] at h1
        exact h1
      obtain ⟨i1, i2, i3⟩ := ih (off + (s.length + 1)) (len - (s.length + 1)) (by omega)
        hle2 hnul2
      rw [hdrop] at i1 i2
      simp only [cmd_unpack_argv_loop, if_neg h0, hs, hx, hal, hsub, hstrs, List.length_cons]
      refine ⟨?_, ?_, ?_⟩
      · rw [i1]
        by_cases hc : (cstrings (r.take (len - (s.length + 1)))).length < n
        · rw [if_pos hc, if_pos (by omega)]
        · rw [if_neg hc, if_neg (by omega)]
      · rw [i1, i2]
        by_cases hc : (cstrings (r.take (len - (s.length + 1)))).length < n
        · have hc2 : (cstrings (r.take (len - (s.length + 1)))).length + 1 < n + 1 := by omega
          simp [hc, hc2]
        · have hc2 : ¬ (cstrings (r.take (len - (s.length + 1)))).length + 1 < n + 1 := by
            omega
          simp [hc, hc2]
      · intro p hp
        rcases List.mem_cons.mp hp with hp | hp
        · subst hp; simp; omega
        · exact i3 p hp

theorem cmd_unpack_argv_loop_buf (mem : List Char) (n off len : Nat) :
    (cmd_unpack_argv_loop mem n off len).buf = mem := by
  cases n with
  | zero => rfl
  | succ n =>
    simp only [cmd_unpack_argv_loop]
    split <;> rfl

theorem cstrings_encode_argv (argv : List CStr) (hnul : ∀ a ∈ argv, ∀ c ∈ a, c ≠ NUL)
    (ys : List Char) : cstrings (encode_argv argv ++ ys) = argv ++ cstrings ys := by
  induction argv with
  | nil => simp [encode_argv]
  | cons a rest ih =>
    have ha : ∀ c ∈ a, c ≠ NUL := hnul a (List.mem_cons_self _ _)
    have hr : ∀ b ∈ rest, ∀ c ∈ b, c ≠ NUL := fun b hb => hnul b (List.mem_cons_of_mem _ hb)
    have e : encode_argv (a :: rest) ++ ys = a ++ NUL :: (encode_argv rest ++ ys) := by
      simp [encode_argv]
    rw [e, cstrings_append a ha, ih hr]
    simp

theorem encode_argv_ends_with_nul (argv : List CStr) (h : argv ≠ []) :
    ∃ init, encode_argv argv = init ++ [NUL] := by
  induction argv with
  | nil => exact absurd rfl h
  | cons a rest ih =>
    cases rest with
    | nil => exact ⟨a, by simp [encode_argv]⟩
    | cons b rest =>
      obtain ⟨init, hi⟩ := ih (by simp)
      exact ⟨a ++ NUL :: init, by rw [encode_argv, hi]; simp⟩

/-- Forcing a NUL at offset `len - 1` leaves a packed argv that fits `len`
bytes in place. -/
theorem set_last_after_encode (argv : List CStr) (h : argv ≠ []) (rest : List Char)
    (len : Nat) (hfit : encoded_size argv ≤ len) :
    ∃ rest2, (encode_argv argv ++ rest).set (len - 1) NUL = encode_argv argv ++ rest2 ∧
      rest2.length = rest.length := by
  rw [encoded_size_eq_length] at hfit
  by_cases hc : (encode_argv argv).length ≤ len - 1
  · exact ⟨rest.set (len - 1 - (encode_argv argv).length) NUL,
      List.set_append_right _ _ hc, by simp⟩
  · obtain ⟨init, hi⟩ := encode_argv_ends_with_nul argv h
    refine ⟨rest, ?_, rfl⟩
    have hl : len - 1 = init.length := by
      rw [hi] at hc hfit
      simp at hc hfit
      omega
    rw [hl, hi, List.append_assoc, List.set_append_right _ _ (Nat.le_refl _)]
    simp

/-! ## The wire packing of argv: C1, C2, C3 -/

/-- C1. Round trip: when no argument holds a NUL, `len` is at least 1 and the
total encoded size of `argv` is at most `len` (a `size_t` not larger than the
destination), `cmd_pack_argv` returns 0 and `cmd_unpack_argv` on the packed
buffer with `argc` the number of arguments returns 0 and yields exactly
`argv`. -/
theorem cmd_pack_unpack_roundtrip (argv : List CStr) (mem : List Char) (len : Nat)
    (hnul : ∀ a ∈ argv, ∀ c ∈ a, c ≠ NUL) (h1 : 1 ≤ len) (hlen : len < SIZE_MOD)
    (hmem : len ≤ mem.length) (hfit : encoded_size argv ≤ len) :
    (cmd_pack_argv argv mem len).ret = 0 ∧
    (cmd_unpack_argv (cmd_pack_argv argv mem len).buf len argv.length).ret = 0 ∧
    (cmd_unpack_argv (cmd_pack_argv argv mem len).buf len argv.length).argv = argv := by
  have hret : (cmd_pack_argv argv mem len).ret = 0 := by
    have := (cmd_pack_argv_loop_ret argv (mem.set 0 NUL) 0 len hlen).1
    rw [if_neg (by omega)] at this
    exact this
  refine ⟨hret, ?_⟩
  by_cases hne : argv = []
  · subst hne
    simp [cmd_unpack_argv]
  · have hbuf : (cmd_pack_argv argv mem len).buf =
        encode_argv argv ++ (mem.set 0 NUL).drop (encoded_size argv) := by
      have := cmd_pack_argv_loop_buf argv (mem.set 0 NUL) 0 len hlen hfit (by simp; omega)
      simpa [cmd_pack_argv] using this
    have hargc : argv.length ≠ 0 := by
      intro h; exact hne (List.length_eq_zero.mp h)
    have hsz : size_sub len 1 = len - 1 := size_sub_eq _ _ h1 hlen
    obtain ⟨rest2, hset, hrl⟩ := set_last_after_encode argv hne
      ((mem.set 0 NUL).drop (encoded_size argv)) len hfit
    have hcall : cmd_unpack_argv (cmd_pack_argv argv mem len).buf len argv.length =
        cmd_unpack_argv_loop (encode_argv argv ++ rest2) argv.length 0 len := by
      simp only [cmd_unpack_argv, if_neg hargc, hsz, hbuf, hset]
    have hlen2 : (encode_argv argv ++ rest2).length = mem.length := by
      rw [List.length_append, hrl, ← encoded_size_eq_length]
      simp
      omega
    have hlast : (encode_argv argv ++ rest2)[len - 1]? = some NUL := by
      have hlt : len - 1 <
          (encode_argv argv ++ (mem.set 0 NUL).drop (encoded_size argv)).length := by
        have e := congrArg List.length hset
        rw [List.length_set] at e
        rw [e, hlen2]; omega
      rw [← hset, List.getElem?_set_self hlt]
    obtain ⟨s1, s2, _⟩ := cmd_unpack_argv_loop_spec (encode_argv argv ++ rest2) argv.length 0 len
      hlen (by rw [List.drop_zero, hlen2]; exact hmem) (fun _ => by rw [List.drop_zero]; exact hlast)
    have htake : (encode_argv argv ++ rest2).take len =
        encode_argv argv ++ rest2.take (len - encoded_size argv) := by
      rw [List.take_append_eq_append_take, ← encoded_size_eq_length,
        List.take_of_length_le (by rw [← encoded_size_eq_length]; exact hfit)]
    rw [List.drop_zero, htake, cstrings_encode_argv argv hnul] at s1 s2
    have hnot : ¬ (argv ++ cstrings (rest2.take (len - encoded_size argv))).length
        < argv.length := by
      simp
    rw [if_neg hnot] at s1 s2
    rw [hcall]
    refine ⟨s1, ?_⟩
    rw [s2]
    simp

/-- Witness for C1: two arguments packed into six of eight bytes come back. -/
theorem cmd_pack_unpack_roundtrip_witness :
    (cmd_pack_argv ["ls".toList, "-a".toList] (List.replicate 8 (Char.ofNat 120)) 6).ret = 0 ∧
    (cmd_unpack_argv
      (cmd_pack_argv ["ls".toList, "-a".toList] (List.replicate 8 (Char.ofNat 120)) 6).buf
      6 2).ret = 0 ∧
    (cmd_unpack_argv
      (cmd_pack_argv ["ls".toList, "-a".toList] (List.replicate 8 (Char.ofNat 120)) 6).buf
      6 2).argv = ["ls".toList, "-a".toList] :=
  cmd_pack_unpack_roundtrip ["ls".toList, "-a".toList] (List.replicate 8 (Char.ofNat 120)) 6
    (by decide) (by decide) (by decide) (by decide) (by decide)

/-- C2. For a capacity `len` that is a `size_t`, `cmd_pack_argv` returns -1
exactly when the total encoded size of `argv` exceeds `len` and returns 0 in
every other case (an empty `argv` included), and no `len -= arglen` it
performs subtracts more than `len` holds. -/
theorem cmd_pack_argv_fails_iff_overflow (argv : List CStr) (mem : List Char) (len : Nat)
    (hlen : len < SIZE_MOD) :
    ((cmd_pack_argv argv mem len).ret = -1 ↔ len < encoded_size argv) ∧
    ((cmd_pack_argv argv mem len).ret = 0 ↔ encoded_size argv ≤ len) ∧
    (∀ p ∈ (cmd_pack_argv argv mem len).subs, p.2 ≤ p.1) := by
  obtain ⟨h1, h2⟩ := cmd_pack_argv_loop_ret argv (mem.set 0 NUL) 0 len hlen
  refine ⟨?_, ?_, h2⟩
  · show (cmd_pack_argv_loop argv (mem.set 0 NUL) 0 len).ret = -1 ↔ _
    rw [h1]
    by_cases h : len < encoded_size argv <;> simp [h]
  · show (cmd_pack_argv_loop argv (mem.set 0 NUL) 0 len).ret = 0 ↔ _
    rw [h1]
    by_cases h : len < encoded_size argv
    · simp [h]
    · simp [h]; omega

/-- Witness for C2: "ab" does not fit two bytes, nothing at all fits zero. -/
theorem cmd_pack_argv_fails_iff_overflow_witness :
    (cmd_pack_argv ["ab".toList] (List.replicate 4 (Char.ofNat 120)) 2).ret = -1 ∧
    (cmd_pack_argv [] (List.replicate 4 (Char.ofNat 120)) 0).ret = 0 :=
  ⟨(cmd_pack_argv_fails_iff_overflow ["ab".toList] (List.replicate 4 (Char.ofNat 120)) 2
      (by decide)).1.mpr (by decide),
   (cmd_pack_argv_fails_iff_overflow [] (List.replicate 4 (Char.ofNat 120)) 0
      (by decide)).2.1.mpr (by decide)⟩

/-- C3. On a buffer of `len >= 1` bytes, `cmd_unpack_argv` with `argc > 0`
leaves the buffer with its last byte forced to NUL, returns -1 exactly when
the buffer so terminated holds fewer than `argc` NUL-terminated strings, and
otherwise returns 0 with the first `argc` of them; with `argc = 0` it returns
0 and produces nothing. -/
theorem cmd_unpack_argv_spec (mem : List Char) (len argc : Nat)
    (h1 : 1 ≤ len) (hlen : len < SIZE_MOD) (hmem : len ≤ mem.length) :
    (argc ≠ 0 → (cmd_unpack_argv mem len argc).buf = mem.set (len - 1) NUL) ∧
    ((cmd_unpack_argv mem len argc).ret = -1 ↔
      (cstrings ((mem.set (len - 1) NUL).take len)).length < argc) ∧
    (argc ≤ (cstrings ((mem.set (len - 1) NUL).take len)).length →
      (cmd_unpack_argv mem len argc).ret = 0 ∧
      (cmd_unpack_argv mem len argc).argv =
        (cstrings ((mem.set (len - 1) NUL).take len)).take argc) ∧
    (argc = 0 → (cmd_unpack_argv mem len argc).ret = 0 ∧
      (cmd_unpack_argv mem len argc).argv = []) := by
  have hsz : size_sub len 1 = len - 1 := size_sub_eq _ _ h1 hlen
  by_cases h0 : argc = 0
  · subst h0
    simp [cmd_unpack_argv]
  · have hcall : cmd_unpack_argv mem len argc =
        cmd_unpack_argv_loop (mem.set (len - 1) NUL) argc 0 len := by
      simp only [cmd_unpack_argv, if_neg h0, hsz]
    have hlast : (mem.set (len - 1) NUL)[len - 1]? = some NUL := by
      exact List.getElem?_set_self (by omega)
    obtain ⟨s1, s2, _⟩ := cmd_unpack_argv_loop_spec (mem.set (len - 1) NUL) argc 0 len
      hlen (by simp; exact hmem) (fun _ => by rw [List.drop_zero]; exact hlast)
    rw [List.drop_zero] at s1 s2
    rw [hcall]
    refine ⟨fun _ => cmd_unpack_argv_loop_buf _ _ _ _, ?_, ?_, fun h => absurd h h0⟩
    · rw [s1]
      by_cases h : (cstrings ((mem.set (len - 1) NUL).take len)).length < argc <;> simp [h]
    · intro h
      have hn : ¬ (cstrings ((mem.set (len - 1) NUL).take len)).length < argc := by omega
      rw [s1, s2, if_neg hn, if_neg hn]
      exact ⟨rfl, rfl⟩

/-- Witness for C3: the four bytes `a NUL b c` hold one string once the last
byte is forced to NUL, so asking for two strings fails. -/
theorem cmd_unpack_argv_spec_witness :
    (cmd_unpack_argv [Char.ofNat 97, NUL, Char.ofNat 98, Char.ofNat 99] 4 3).ret = -1 ∧
    (cmd_unpack_argv [Char.ofNat 97, NUL, Char.ofNat 98, Char.ofNat 99] 4 2).ret = 0 :=
  ⟨(cmd_unpack_argv_spec [Char.ofNat 97, NUL, Char.ofNat 98, Char.ofNat 99] 4 3
      (by decide) (by decide) (by decide)).2.1.mpr (by decide),
   ((cmd_unpack_argv_spec [Char.ofNat 97, NUL, Char.ofNat 98, Char.ofNat 99] 4 2
      (by decide) (by decide) (by decide)).2.2.1 (by decide)).1⟩

/-! ## Name resolution in `cmd_parse` -/

theorem strncmp_eq_iff_starts (a p : CStr) :
    strncmp_eq a p p.length = true ↔ p <+: a := by
  unfold strncmp_eq
  rw [List.take_length, beq_iff_eq, List.prefix_iff_eq_take]
  exact eq_comm

theorem strncmp_eq_symm (a b : CStr) (n : Nat) : strncmp_eq a b n = strncmp_eq b a n := by
  unfold strncmp_eq
  rw [Bool.eq_iff_iff]
  simp only [beq_iff_eq]
  exact eq_comm

/-- Entries that match neither by alias nor by name leave the lookup loop
where it was. -/
theorem cmd_parse_lookup_kept (p : CStr) (e : cmd_entry) :
    ∀ (tbl : List cmd_entry),
      (∀ x ∈ tbl, x.alias_ = some p → x = e) → (∀ x ∈ tbl, ¬ p <+: x.name) →
      cmd_parse_lookup p tbl (some e) false = (some e, false) := by
  intro tbl
  induction tbl with
  | nil => intro _ _; rfl
  | cons x rest ih =>
    intro ha hp
    have hpx : ¬ p <+: x.name := hp x (List.mem_cons_self _ _)
    have hsx : ¬ strncmp_eq x.name p p.length = true := by
      rw [strncmp_eq_iff_starts]; exact hpx
    by_cases hax : x.alias_ = some p
    · have : x = e := ha x (List.mem_cons_self _ _) hax
      subst this
      simp [cmd_parse_lookup, hax]
    · simp only [cmd_parse_lookup, if_neg hax, hsx, not_false_eq_true, if_true]
      exact ih (fun y hy => ha y (List.mem_cons_of_mem _ hy))
        (fun y hy => hp y (List.mem_cons_of_mem _ hy))

/-- The lookup loop on a name that is a strict prefix of one entry only. -/
theorem cmd_parse_lookup_unique (p : CStr) (e : cmd_entry) :
    ∀ (tbl : List cmd_entry),
      strict_matches p tbl = [e] → (∀ x ∈ tbl, x.name ≠ p) →
      (∀ x ∈ tbl, x.alias_ = some p → x = e) →
      cmd_parse_lookup p tbl none false = (some e, false) := by
  intro tbl
  induction tbl with
  | nil => intro h _ _; simp [strict_matches] at h
  | cons x rest ih =>
    intro hm hn ha
    have hnx : x.name ≠ p := hn x (List.mem_cons_self _ _)
    have hn2 : ∀ y ∈ rest, y.name ≠ p := fun y hy => hn y (List.mem_cons_of_mem _ hy)
    have ha2 : ∀ y ∈ rest, y.alias_ = some p → y = e :=
      fun y hy => ha y (List.mem_cons_of_mem _ hy)
    by_cases hax : x.alias_ = some p
    · have : x = e := ha x (List.mem_cons_self _ _) hax
      subst this
      simp [cmd_parse_lookup, hax]
    · by_cases hpx : p <+: x.name
      · have hsx : strncmp_eq x.name p p.length = true := (strncmp_eq_iff_starts _ _).mpr hpx
        have hstrict : decide (p <+: x.name ∧ p ≠ x.name) = true := by
          simp only [decide_eq_true_eq]
          exact ⟨hpx, fun h => hnx h.symm⟩
        have hm2 : x :: strict_matches p rest = [e] := by
          have : strict_matches p (x :: rest) = x :: strict_matches p rest := by
            simp only [strict_matches]
            exact List.filter_cons_of_pos hstrict
          rw [← this]; exact hm
        have hxe : x = e := by injection hm2
        have hrest : strict_matches p rest = [] := by injection hm2
        have hnone : ∀ y ∈ rest, ¬ p <+: y.name := by
          intro y hy hpy
          have : y ∈ strict_matches p rest := by
            simp only [strict_matches, List.mem_filter, decide_eq_true_eq]
            exact ⟨hy, hpy, fun h => hn2 y hy h.symm⟩
          rw [hrest] at this
          exact absurd this (List.not_mem_nil _)
        subst hxe
        simp only [cmd_parse_lookup, if_neg hax, hsx, not_true_eq_false, if_false,
          Option.isSome_none, Bool.false_eq_true, if_neg hnx]
        exact cmd_parse_lookup_kept p x rest ha2 hnone
      · have hsx : ¬ strncmp_eq x.name p p.length = true := by
          rw [strncmp_eq_iff_starts]; exact hpx
        have hnot : ¬ decide (p <+: x.name ∧ p ≠ x.name) = true := by
          simp only [decide_eq_true_eq]
          exact fun h => hpx h.1
        have hm2 : strict_matches p rest = [e] := by
          have : strict_matches p (x :: rest) = strict_matches p rest := by
            simp only [strict_matches]
            exact List.filter_cons_of_neg hnot
          rw [← this]; exact hm
        simp only [cmd_parse_lookup, if_neg hax, hsx, not_false_eq_true, if_true]
        exact ih hm2 hn2 ha2

/-- The lookup loop stops at the first entry carrying the alias asked for,
when no entry before it has that string as its full name. -/
theorem cmd_parse_lookup_alias (p : CStr) (e : cmd_entry) (post : List cmd_entry)
    (he : e.alias_ = some p) :
    ∀ (pre : List cmd_entry), (∀ x ∈ pre, x.alias_ ≠ some p ∧ x.name ≠ p) →
      ∀ (entry : Option cmd_entry) (ambiguous : Bool),
        cmd_parse_lookup p (pre ++ e :: post) entry ambiguous = (some e, false) := by
  intro pre
  induction pre with
  | nil => intro _ entry ambiguous; simp [cmd_parse_lookup, he]
  | cons x pre ih =>
    intro h entry ambiguous
    obtain ⟨hax, hnx⟩ := h x (List.mem_cons_self _ _)
    have h2 : ∀ y ∈ pre, y.alias_ ≠ some p ∧ y.name ≠ p :=
      fun y hy => h y (List.mem_cons_of_mem _ hy)
    simp only [List.cons_append, cmd_parse_lookup, if_neg hax, if_neg hnx]
    split
    · exact ih h2 _ _
    · exact ih h2 _ _

theorem prefix_matches_cons_of_pos (p : CStr) (x : cmd_entry) (rest : List cmd_entry)
    (h : p <+: x.name) : prefix_matches p (x :: rest) = x :: prefix_matches p rest := by
  simp only [prefix_matches]
  exact List.filter_cons_of_pos (by simpa using h)

theorem prefix_matches_cons_of_neg (p : CStr) (x : cmd_entry) (rest : List cmd_entry)
    (h : ¬ p <+: x.name) : prefix_matches p (x :: rest) = prefix_matches p rest := by
  simp only [prefix_matches]
  exact List.filter_cons_of_neg (by simpa using h)

/-- When the name asked for is no alias and no full name, the lookup loop
leaves `ambiguous` set exactly when it was set before, or a second entry
matched by prefix. -/
theorem cmd_parse_lookup_ambiguous (p : CStr) :
    ∀ (tbl : List cmd_entry), (∀ x ∈ tbl, x.alias_ ≠ some p ∧ x.name ≠ p) →
      ∀ (entry : Option cmd_entry) (ambiguous : Bool),
        ((cmd_parse_lookup p tbl entry ambiguous).2 = true ↔
          ambiguous = true ∨ (entry.isSome = true ∧ prefix_matches p tbl ≠ []) ∨
            2 ≤ (prefix_matches p tbl).length) := by
  intro tbl
  induction tbl with
  | nil => intro _ entry ambiguous; simp [cmd_parse_lookup, prefix_matches]
  | cons x rest ih =>
    intro h entry ambiguous
    obtain ⟨hax, hnx⟩ := h x (List.mem_cons_self _ _)
    have h2 : ∀ y ∈ rest, y.alias_ ≠ some p ∧ y.name ≠ p :=
      fun y hy => h y (List.mem_cons_of_mem _ hy)
    by_cases hpx : p <+: x.name
    · have hsx : strncmp_eq x.name p p.length = true := (strncmp_eq_iff_starts _ _).mpr hpx
      rw [prefix_matches_cons_of_pos p x rest hpx]
      simp only [cmd_parse_lookup, if_neg hax, hsx, not_true_eq_false, if_false, if_neg hnx]
      rw [ih h2]
      cases entry with
      | none =>
        simp only [Option.isSome_none, Bool.false_eq_true, if_false, Option.isSome_some,
          true_and, false_and, false_or, List.length_cons]
        constructor
        · rintro (h | h | h)
          · exact Or.inl h
          · right
            have : 0 < (prefix_matches p rest).length := List.length_pos.mpr h
            omega
          · right; omega
        · rintro (h | h)
          · exact Or.inl h
          · right; left
            apply List.ne_nil_of_length_pos
            omega
      | some f => simp
    · have hsx : ¬ strncmp_eq x.name p p.length = true := by
        rw [strncmp_eq_iff_starts]; exact hpx
      rw [prefix_matches_cons_of_neg p x rest hpx]
      simp only [cmd_parse_lookup, if_neg hax, hsx, not_false_eq_true, if_true]
      exact ih h2 entry ambiguous

theorem listed_names_length (m : List cmd_entry) :
    (listed_names m).length = (m.map (fun e => e.name.length + 2)).sum := by
  induction m with
  | nil => rfl
  | cons e rest ih => simp [listed_names, ih]; omega

theorem strlcat_fits (s t : CStr) (size : Nat) (h : s.length + t.length < size) :
    strlcat s t size = (s ++ t, s.length + t.length) := by
  unfold strlcat
  rw [if_neg (by omega), List.take_of_length_le (by omega)]

/-- The `ambiguous` loop when every name and separator fits the buffer. -/
theorem cmd_parse_ambiguous_loop_fits (BUFSIZ : Nat) (p : CStr) :
    ∀ (tbl : List cmd_entry) (s : CStr),
      s.length + (listed_names (prefix_matches p tbl)).length < BUFSIZ →
      cmd_parse_ambiguous_loop BUFSIZ p tbl s = s ++ listed_names (prefix_matches p tbl) := by
  intro tbl
  induction tbl with
  | nil => intro s _; simp [cmd_parse_ambiguous_loop, prefix_matches, listed_names]
  | cons x rest ih =>
    intro s hfit
    by_cases hpx : p <+: x.name
    · have hsx : strncmp_eq x.name p p.length = true := (strncmp_eq_iff_starts _ _).mpr hpx
      rw [prefix_matches_cons_of_pos p x rest hpx] at hfit ⊢
      simp only [listed_names, List.length_append] at hfit
      have hc : (", ".toList : CStr).length = 2 := rfl
      have e1 : strlcat s x.name BUFSIZ = (s ++ x.name, s.length + x.name.length) :=
        strlcat_fits _ _ _ (by omega)
      have e2 : strlcat (s ++ x.name) ", ".toList BUFSIZ =
          (s ++ x.name ++ ", ".toList, (s ++ x.name).length + (", ".toList : CStr).length) :=
        strlcat_fits _ _ _ (by rw [List.length_append]; omega)
      simp only [cmd_parse_ambiguous_loop, hsx, not_true_eq_false, if_false, e1, e2]
      rw [if_neg (by omega), if_neg (by rw [List.length_append]; omega)]
      rw [ih (s ++ x.name ++ ", ".toList) (by simp only [List.length_append]; omega)]
      simp [listed_names]
    · have hsx : ¬ strncmp_eq x.name p p.length = true := by
        rw [strncmp_eq_iff_starts]; exact hpx
      rw [prefix_matches_cons_of_neg p x rest hpx] at hfit ⊢
      simp only [cmd_parse_ambiguous_loop, hsx, not_false_eq_true, if_true]
      exact ih s hfit

theorem listed_names_eq_intercalate (m : List cmd_entry) (h : m ≠ []) :
    listed_names m = ", ".toList.intercalate (m.map cmd_entry.name) ++ ", ".toList := by
  induction m with
  | nil => exact absurd rfl h
  | cons e rest ih =>
    cases rest with
    | nil => simp [listed_names, List.intercalate]
    | cons f rest =>
      rw [listed_names, ih (by simp)]
      simp [List.intercalate]

/-! ## Command name resolution: C4, C5, C6, C7, C8 -/

theorem cmd_parse_entry_ok (e : cmd_entry) (argv : List CStr) (c : cmd)
    (h : cmd_parse_entry e argv = .ok c) : c.entry = e := by
  unfold cmd_parse_entry at h
  split at h
  · split at h
    · cases h
    · split at h
      · cases h
      · cases h; rfl
  · split at h
    · cases h; rfl
    · cases h

theorem cmd_parse_of_lookup (BUFSIZ : Nat) (tbl : List cmd_entry) (p : CStr)
    (rest : List CStr) (e : cmd_entry)
    (h : cmd_parse_lookup p tbl none false = (some e, false)) :
    cmd_parse BUFSIZ tbl (p :: rest) = cmd_parse_entry e (p :: rest) := by
  simp [cmd_parse, h]

/-- C4, counterexample: a table in which the longer sibling
`lock-server-all` stands before `lock-server`: asked for the full name
`lock-server`, `cmd_parse` fails as ambiguous; with the two entries in the
other order it returns the command of `lock-server`. -/
theorem cmd_parse_exact_name_after_sibling :
    cmd_parse 1024
        [plain_entry "lock-server-all" none "",
         plain_entry "lock-server" none ""]
        ["lock-server".toList] =
      .error "ambiguous command: lock-server, could be: lock-server-all, lock-server".toList ∧
    cmd_parse 1024
        [plain_entry "lock-server" none "",
         plain_entry "lock-server-all" none ""]
        ["lock-server".toList] =
      .ok ⟨plain_entry "lock-server" none "", none⟩ := by
  constructor <;> rfl

/-- The lookup loop stops at the entry named as asked, with `ambiguous` clear,
when no entry before it carries the string as alias or has a name that starts
with it. -/
theorem cmd_parse_lookup_exact (p : CStr) (e : cmd_entry) (post : List cmd_entry)
    (he : e.name = p) :
    ∀ (pre : List cmd_entry), (∀ x ∈ pre, x.alias_ ≠ some p ∧ ¬ p <+: x.name) →
      cmd_parse_lookup p (pre ++ e :: post) none false = (some e, false) := by
  intro pre
  induction pre with
  | nil =>
    intro _
    have hs : strncmp_eq e.name p p.length = true := by
      rw [strncmp_eq_iff_starts, he]
    by_cases ha : e.alias_ = some p
    · simp [cmd_parse_lookup, ha]
    · rw [List.nil_append, cmd_parse_lookup, if_neg ha, if_neg (not_not.mpr hs)]
      simp [he]
  | cons x pre ih =>
    intro h
    obtain ⟨hax, hpx⟩ := h x (List.mem_cons_self _ _)
    have hsx : ¬ strncmp_eq x.name p p.length = true := by
      rw [strncmp_eq_iff_starts]; exact hpx
    simp only [List.cons_append, cmd_parse_lookup, if_neg hax, hsx, not_false_eq_true,
      if_true]
    exact ih (fun y hy => h y (List.mem_cons_of_mem _ hy))

/-- A name is not below, in the order of `strcmp`, a string it starts
with. -/
theorem strcmp_lt_of_starts (p : CStr) : ∀ (q : CStr), p <+: q → strcmp_lt q p = false := by
  induction p with
  | nil => intro q _; cases q <;> rfl
  | cons a p ih =>
    intro q h
    obtain ⟨t, ht⟩ := h
    cases q with
    | nil => cases ht
    | cons b q =>
      rw [List.cons_append, List.cons.injEq] at ht
      obtain ⟨hab, hq⟩ := ht
      subst hab
      rw [strcmp_lt, if_neg (Nat.lt_irrefl _), if_pos rfl]
      exact ih q ⟨t, hq⟩

/-- In a table written in the order of `strcmp`, no entry before the one
named `p` has a name that starts with `p`. -/
theorem sorted_before_not_starting (p : CStr) (pre : List cmd_entry)
    (h : ∀ x ∈ pre, strcmp_lt x.name p = true) : ∀ x ∈ pre, ¬ p <+: x.name := by
  intro x hx hp
  have h1 := h x hx
  rw [strcmp_lt_of_starts p x.name hp] at h1
  cases h1

/-- C4, amended. When `argv[0]` is the full name of the entry `e`, and no entry
standing before `e` in the table carries it as alias or has a full name that
starts with it (no longer sibling stands before `e`, as in a table written in
the order of the names), `cmd_parse` selects `e` and the lookup ends with
`ambiguous` clear, whatever longer names starting with `argv[0]` stand after
it. -/
theorem cmd_parse_exact_name_first (BUFSIZ : Nat) (pre post : List cmd_entry)
    (e : cmd_entry) (p : CStr) (rest : List CStr) (he : e.name = p)
    (hpre : ∀ x ∈ pre, x.alias_ ≠ some p ∧ ¬ p <+: x.name) :
    cmd_parse_lookup p (pre ++ e :: post) none false = (some e, false) ∧
    cmd_parse BUFSIZ (pre ++ e :: post) (p :: rest) = cmd_parse_entry e (p :: rest) ∧
    ∀ c, cmd_parse BUFSIZ (pre ++ e :: post) (p :: rest) = .ok c → c.entry = e := by
  have hl := cmd_parse_lookup_exact p e post he pre hpre
  have hp := cmd_parse_of_lookup BUFSIZ (pre ++ e :: post) p rest e hl
  refine ⟨hl, hp, ?_⟩
  intro c hc
  rw [hp] at hc
  exact cmd_parse_entry_ok e _ c hc

/-- C4, witness: `lock` stands behind `list-keys` and before its longer
siblings `lock-client` and `lock-server`; asked for `lock`, `cmd_parse`
returns the command of `lock`. -/
theorem cmd_parse_exact_name_first_witness :
    (prefix_matches "lock".toList
      [plain_entry "list-keys" (some "lsk") "", plain_entry "lock" none "",
       plain_entry "lock-client" (some "lockc") "", plain_entry "lock-server" none ""]).length
      = 3 ∧
    cmd_parse 1024
      ([plain_entry "list-keys" (some "lsk") ""] ++ plain_entry "lock" none "" ::
        [plain_entry "lock-client" (some "lockc") "", plain_entry "lock-server" none ""])
      ["lock".toList] = .ok ⟨plain_entry "lock" none "", none⟩ :=
  ⟨by decide,
   ((cmd_parse_exact_name_first 1024 [plain_entry "list-keys" (some "lsk") ""]
      [plain_entry "lock-client" (some "lockc") "", plain_entry "lock-server" none ""]
      (plain_entry "lock" none "") "lock".toList [] rfl (by decide)).2.1).trans rfl⟩

/-- C5 fails as stated. `sw` is a strict prefix of one registered full name
only, `swap-pane`, and `cmd_parse` selects `select-window`, whose alias it is;
`show` is a strict prefix of one registered full name only, `show-options`,
and `cmd_parse` selects the entry named `show`. -/
theorem cmd_parse_strict_prefix_counterexample :
    ((strict_matches "sw".toList
        [plain_entry "select-window" (some "sw") "",
         plain_entry "swap-pane" none ""]).map cmd_entry.name
        = ["swap-pane".toList] ∧
      ∃ c, cmd_parse 1024
        [plain_entry "select-window" (some "sw") "",
         plain_entry "swap-pane" none ""] ["sw".toList] = .ok c ∧
        c.entry.name = "select-window".toList) ∧
    ((strict_matches "show".toList
        [plain_entry "show" none "",
         plain_entry "show-options" none ""]).map cmd_entry.name
        = ["show-options".toList] ∧
      ∃ c, cmd_parse 1024
        [plain_entry "show" none "",
         plain_entry "show-options" none ""] ["show".toList] = .ok c ∧
        c.entry.name = "show".toList) :=
  ⟨⟨by decide, _, rfl, by decide⟩, ⟨by decide, _, rfl, by decide⟩⟩

/-- C5, amended. When `p` is a strict prefix of the full name of exactly one
entry `e` of the table, is not itself a registered full name and is not the
alias of another entry, `cmd_parse` with `argv[0] = p` selects `e`: it goes on
with the argument parsing of `e`, and a command it returns belongs to `e`. -/
theorem cmd_parse_strict_prefix_unique (BUFSIZ : Nat) (tbl : List cmd_entry) (p : CStr)
    (rest : List CStr) (e : cmd_entry)
    (hm : strict_matches p tbl = [e]) (hn : ∀ x ∈ tbl, x.name ≠ p)
    (ha : ∀ x ∈ tbl, x.alias_ = some p → x = e) :
    cmd_parse_lookup p tbl none false = (some e, false) ∧
    cmd_parse BUFSIZ tbl (p :: rest) = cmd_parse_entry e (p :: rest) ∧
    ∀ c, cmd_parse BUFSIZ tbl (p :: rest) = .ok c → c.entry = e := by
  have hl := cmd_parse_lookup_unique p e tbl hm hn ha
  have hp := cmd_parse_of_lookup BUFSIZ tbl p rest e hl
  refine ⟨hl, hp, ?_⟩
  intro c hc
  rw [hp] at hc
  exact cmd_parse_entry_ok e _ c hc

/-- Witness for C5: `lock-c` resolves to `lock-client` in the lock table. -/
theorem cmd_parse_strict_prefix_unique_witness :
    cmd_parse 1024 lock_table ["lock-c".toList] =
      .ok ⟨plain_entry "lock-client" (some "lockc") "[-t target-client]", none⟩ :=
  ((cmd_parse_strict_prefix_unique 1024 lock_table "lock-c".toList []
    (plain_entry "lock-client" (some "lockc") "[-t target-client]")
    rfl (by decide)
    (fun x hx h => absurd h
      ((by decide : ∀ y ∈ lock_table, y.alias_ ≠ some "lock-c".toList) x hx))).2.1).trans rfl

/-- C6. When `argv[0]` is a prefix of the full names of two or more entries,
equals no registered full name and is no alias, and the matching names, each
followed by its separator, fit the scratch buffer of `BUFSIZ` bytes (a
`size_t`), `cmd_parse` returns no command and the cause is
`ambiguous command: <argv[0]>, could be: ` followed by the full name of every
entry that has `argv[0]` as a prefix, each once, in table order, joined by a
comma and a blank. -/
theorem cmd_parse_ambiguous_cause (BUFSIZ : Nat) (tbl : List cmd_entry) (p : CStr)
    (rest : List CStr) (hsz : BUFSIZ ≤ SIZE_MOD)
    (hm : 2 ≤ (prefix_matches p tbl).length)
    (hn : ∀ x ∈ tbl, x.name ≠ p) (ha : ∀ x ∈ tbl, x.alias_ ≠ some p)
    (hfit : ((prefix_matches p tbl).map (fun e => e.name.length + 2)).sum < BUFSIZ) :
    cmd_parse BUFSIZ tbl (p :: rest) =
      .error ("ambiguous command: ".toList ++ p ++ ", could be: ".toList ++
        ", ".toList.intercalate ((prefix_matches p tbl).map cmd_entry.name)) := by
  have hflag : (cmd_parse_lookup p tbl none false).2 = true :=
    (cmd_parse_lookup_ambiguous p tbl (fun x hx => ⟨ha x hx, hn x hx⟩) none false).mpr
      (Or.inr (Or.inr hm))
  have hne : prefix_matches p tbl ≠ [] := by
    apply List.ne_nil_of_length_pos
    omega
  rw [← listed_names_length] at hfit
  have hloop := cmd_parse_ambiguous_loop_fits BUFSIZ p tbl [] (by simpa using hfit)
  rw [List.nil_append] at hloop
  have hj := listed_names_eq_intercalate (prefix_matches p tbl) hne
  have hlen2 : 2 ≤ (listed_names (prefix_matches p tbl)).length := by
    rw [hj, List.length_append]
    have : (", ".toList : CStr).length = 2 := rfl
    omega
  have hsub : size_sub (listed_names (prefix_matches p tbl)).length 2 =
      (listed_names (prefix_matches p tbl)).length - 2 :=
    size_sub_eq _ _ hlen2 (by omega)
  have htake : (listed_names (prefix_matches p tbl)).take
      ((listed_names (prefix_matches p tbl)).length - 2) =
      ", ".toList.intercalate ((prefix_matches p tbl).map cmd_entry.name) := by
    have hl : (listed_names (prefix_matches p tbl)).length - 2 =
        (", ".toList.intercalate ((prefix_matches p tbl).map cmd_entry.name)).length := by
      rw [hj, List.length_append]
      have : (", ".toList : CStr).length = 2 := rfl
      omega
    rw [hl]
    nth_rewrite 1 [hj]
    exact List.take_left' rfl
  simp only [cmd_parse, hflag, if_true, cmd_parse_ambiguous, hloop, hsub, htake]

/-- Witness for C6: `loc` in the lock table. -/
theorem cmd_parse_ambiguous_cause_witness :
    cmd_parse 1024 lock_table ["loc".toList] =
      .error
        "ambiguous command: loc, could be: lock-client, lock-server, lock-session".toList :=
  (cmd_parse_ambiguous_cause 1024 lock_table "loc".toList [] (by decide) (by decide)
    (by decide) (by decide) (by decide)).trans (congrArg Except.error (by decide))

/-- C7 fails as stated. `lock` is the alias of `lock-server`; behind an entry
whose full name is `lock`, `cmd_parse` selects that entry, which carries no
alias, and behind `lock-all` and `lock` it reports an ambiguous command. -/
theorem cmd_parse_alias_counterexample :
    (∃ c, cmd_parse 1024
        [plain_entry "lock" none "",
         plain_entry "lock-server" (some "lock") ""] ["lock".toList] = .ok c ∧
        c.entry.alias_ = none) ∧
    cmd_parse 1024
        [plain_entry "lock-all" none "",
         plain_entry "lock" none "",
         plain_entry "lock-server" (some "lock") ""] ["lock".toList] =
      .error "ambiguous command: lock, could be: lock-all, lock, lock-server".toList :=
  ⟨⟨_, rfl, rfl⟩, rfl⟩

/-- C7, amended. When `argv[0]` equals the alias of an entry and no entry
standing before the first entry `e` that carries this alias has `argv[0]` as
its full name, `cmd_parse` selects `e` and leaves the lookup with `ambiguous`
clear, whatever full names `argv[0]` is a prefix of. -/
theorem cmd_parse_alias_wins (BUFSIZ : Nat) (pre post : List cmd_entry) (e : cmd_entry)
    (p : CStr) (rest : List CStr) (he : e.alias_ = some p)
    (hpre : ∀ x ∈ pre, x.alias_ ≠ some p ∧ x.name ≠ p) :
    cmd_parse_lookup p (pre ++ e :: post) none false = (some e, false) ∧
    cmd_parse BUFSIZ (pre ++ e :: post) (p :: rest) = cmd_parse_entry e (p :: rest) ∧
    ∀ c, cmd_parse BUFSIZ (pre ++ e :: post) (p :: rest) = .ok c → c.entry = e := by
  have hl := cmd_parse_lookup_alias p e post he pre hpre none false
  have hp := cmd_parse_of_lookup BUFSIZ (pre ++ e :: post) p rest e hl
  refine ⟨hl, hp, ?_⟩
  intro c hc
  rw [hp] at hc
  exact cmd_parse_entry_ok e _ c hc

/-- Witness for C7: `lock` is a prefix of the three full names of the lock
table and resolves to `lock-server`, whose alias it is. -/
theorem cmd_parse_alias_wins_witness :
    (prefix_matches "lock".toList lock_table).length = 3 ∧
    cmd_parse 1024 lock_table ["lock".toList] =
      .ok ⟨plain_entry "lock-server" (some "lock") "", none⟩ :=
  ⟨by decide,
   ((cmd_parse_alias_wins 1024
      [plain_entry "lock-client" (some "lockc") "[-t target-client]"]
      [plain_entry "lock-session" (some "locks") "[-t target-session]"]
      (plain_entry "lock-server" (some "lock") "") "lock".toList []
      rfl (by decide)).2.1).trans rfl⟩

theorem getopt_empty_optind (argv0 a : CStr) (rest : List CStr) (ha : a ≠ "--".toList)
    (h : (getopt_empty (argv0 :: a :: rest)).opt = -1) :
    (getopt_empty (argv0 :: a :: rest)).optind = 1 := by
  simp only [getopt_empty, List.drop_succ_cons, List.drop_zero, if_neg ha] at h ⊢
  split
  · rename_i c d r
    by_cases hc : c = '-'
    · simp [hc] at h
    · simp [hc]
  · rfl

/-- C8 fails as stated. `lock-server` has no parser; followed by the
argument `--` it is returned as a command all the same. -/
theorem cmd_parse_terminator_counterexample :
    ∃ c, cmd_parse 1024 lock_table ["lock-server".toList, "--".toList] = .ok c ∧
      c.entry.name = "lock-server".toList ∧ c.entry.parse.isNone = true :=
  ⟨_, rfl, by decide, rfl⟩

/-- C8, amended. For a resolved entry without parser, `cmd_parse` returns a
command exactly when nothing follows the command name or the option
terminator `--` alone follows it; any other flag or argument after `argv[0]`
makes it return no command, with the cause `usage: <name> <usage>`. -/
theorem cmd_parse_no_parse_slot (BUFSIZ : Nat) (tbl : List cmd_entry) (e : cmd_entry)
    (argv0 : CStr) (rest : List CStr) (hparse : e.parse = none)
    (hl : cmd_parse_lookup argv0 tbl none false = (some e, false)) :
    cmd_parse BUFSIZ tbl (argv0 :: rest) =
      if rest = [] ∨ rest = ["--".toList] then .ok ⟨e, none⟩
      else .error ("usage: ".toList ++ e.name ++ " ".toList ++ e.usage) := by
  rw [cmd_parse_of_lookup BUFSIZ tbl argv0 rest e hl]
  unfold cmd_parse_entry
  rw [hparse]
  simp only [cmd_parse_usage]
  cases rest with
  | nil => simp [getopt_empty]
  | cons a rest =>
    by_cases ha : a = "--".toList
    · subst ha
      cases rest with
      | nil => simp [getopt_empty]
      | cons b rest =>
        simp [getopt_empty]
        omega
    · have hne : ¬ (a :: rest = [] ∨ a :: rest = ["--".toList]) := by
        rintro (h | h)
        · cases h
        · injection h with h1 _
          exact ha h1
      rw [if_neg hne]
      by_cases hopt : (getopt_empty (argv0 :: a :: rest)).opt ≠ -1
      · rw [if_pos hopt]
      · have hind := getopt_empty_optind argv0 a rest ha (not_not.mp hopt)
        rw [if_neg hopt, hind, if_pos]
        simp only [List.length_cons]
        omega

/-- Witness for C8: `lock-server` alone is a command, `lock-server -x` is a
usage error. -/
theorem cmd_parse_no_parse_slot_witness :
    cmd_parse 1024 lock_table ["lock-server".toList] =
      .ok ⟨plain_entry "lock-server" (some "lock") "", none⟩ ∧
    cmd_parse 1024 lock_table ["lock-server".toList, "-x".toList] =
      .error "usage: lock-server ".toList :=
  ⟨(cmd_parse_no_parse_slot 1024 lock_table
      (plain_entry "lock-server" (some "lock") "") "lock-server".toList []
      rfl rfl).trans rfl,
   (cmd_parse_no_parse_slot 1024 lock_table
      (plain_entry "lock-server" (some "lock") "") "lock-server".toList
      ["-x".toList] rfl rfl).trans rfl⟩

/-! ## Session lookup by name: C9, C10 -/

theorem session_candidates_none (fnmatch : CStr → CStr → Bool) (rest : List (Option session))
    (name : CStr) :
    session_candidates fnmatch (none :: rest) name = session_candidates fnmatch rest name := by
  simp [session_candidates]

theorem session_candidates_some (fnmatch : CStr → CStr → Bool) (s : session)
    (rest : List (Option session)) (name : CStr) :
    session_candidates fnmatch (some s :: rest) name =
      if strncmp_eq name s.name name.length || fnmatch name s.name
      then s :: session_candidates fnmatch rest name
      else session_candidates fnmatch rest name := by
  have hp : decide (name <+: s.name) = strncmp_eq name s.name name.length := by
    rw [strncmp_eq_symm, Bool.eq_iff_iff, strncmp_eq_iff_starts]
    simp
  have hf : List.filterMap id (some s :: rest) = s :: List.filterMap id rest := by simp
  simp only [session_candidates]
  rw [hf, List.filter_cons, hp]

theorem cmd_lookup_session_loop_outcome (fnmatch : CStr → CStr → Bool) (name : CStr) :
    ∀ (sessions : List (Option session)), (∀ s, some s ∈ sessions → s.name ≠ name) →
      ∀ (sfound : Option session),
        cmd_lookup_session_loop fnmatch name sessions sfound =
          lookup_outcome sfound (session_candidates fnmatch sessions name) := by
  intro sessions
  induction sessions with
  | nil => intro _ sfound; cases sfound <;> rfl
  | cons o rest ih =>
    intro h sfound
    have h2 : ∀ s, some s ∈ rest → s.name ≠ name := fun s hs => h s (List.mem_cons_of_mem _ hs)
    cases o with
    | none =>
      rw [session_candidates_none]
      simp only [cmd_lookup_session_loop]
      exact ih h2 sfound
    | some s =>
      have hne : ¬ name = s.name := fun e => h s (List.mem_cons_self _ _) e.symm
      rw [session_candidates_some]
      simp only [cmd_lookup_session_loop, if_neg hne]
      by_cases hc : (strncmp_eq name s.name name.length || fnmatch name s.name) = true
      · rw [if_pos hc, if_pos hc]
        cases sfound with
        | some f => simp [lookup_outcome]
        | none =>
          simp only [Option.isSome_none, Bool.false_eq_true, if_false]
          rw [ih h2 (some s)]
          cases session_candidates fnmatch rest name with
          | nil => rfl
          | cons t ts => rfl
      · rw [if_neg hc, if_neg hc]
        exact ih h2 sfound

/-- C9, at the failing input. With the sessions `workshop`, `workbench` and
`work` created in this order, `cmd_lookup_session` asked for `work` returns no
session and sets the ambiguous flag, whatever `fnmatch` answers, although a
live session is named exactly `work`; with `work` in the first slot it is
returned. -/
theorem cmd_lookup_session_exact_after_two (fnmatch : CStr → CStr → Bool) :
    cmd_lookup_session fnmatch [live "workshop", live "workbench", live "work"]
        "work".toList = (none, true) ∧
    cmd_lookup_session fnmatch [live "work", live "workshop", live "workbench"]
        "work".toList = (live "work", false) :=
  ⟨rfl, rfl⟩

/-- C10. When no live session is named exactly `name`, `cmd_lookup_session`
returns the one candidate (a live session whose name has `name` as a literal
prefix or matches it as a glob) with the ambiguous flag clear when there is
exactly one, no session with the flag set when there are several, and no
session with the flag clear when there is none. -/
theorem cmd_lookup_session_no_exact (fnmatch : CStr → CStr → Bool)
    (sessions : List (Option session)) (name : CStr)
    (hno : ∀ s ∈ sessions.filterMap id, s.name ≠ name) :
    (∀ s, session_candidates fnmatch sessions name = [s] →
      cmd_lookup_session fnmatch sessions name = (some s, false)) ∧
    (1 < (session_candidates fnmatch sessions name).length →
      cmd_lookup_session fnmatch sessions name = (none, true)) ∧
    (session_candidates fnmatch sessions name = [] →
      cmd_lookup_session fnmatch sessions name = (none, false)) := by
  have h := cmd_lookup_session_loop_outcome fnmatch name sessions
    (fun s hs => hno s (List.mem_filterMap.mpr ⟨some s, hs, rfl⟩)) none
  unfold cmd_lookup_session
  rw [h]
  refine ⟨?_, ?_, ?_⟩
  · intro s hs; rw [hs]; rfl
  · intro hl
    match hc : session_candidates fnmatch sessions name with
    | [] => rw [hc] at hl; simp at hl
    | [_] => rw [hc] at hl; simp at hl
    | _ :: _ :: _ => rfl
  · intro hs; rw [hs]; rfl

/-- Witness for C10: among `workshop`, an empty slot and `work`, the name
`wo` is ambiguous, the glob `*shop` finds `workshop`, and `x` finds nothing. -/
theorem cmd_lookup_session_no_exact_witness :
    cmd_lookup_session fnmatch_simple [live "workshop", none, live "work"] "wo".toList
      = (none, true) ∧
    cmd_lookup_session fnmatch_simple [live "workshop", none, live "work"] "*shop".toList
      = (live "workshop", false) ∧
    cmd_lookup_session fnmatch_simple [live "workshop", none, live "work"] "x".toList
      = (none, false) :=
  ⟨(cmd_lookup_session_no_exact fnmatch_simple [live "workshop", none, live "work"]
      "wo".toList (by decide)).2.1 (by decide),
   (cmd_lookup_session_no_exact fnmatch_simple [live "workshop", none, live "work"]
      "*shop".toList (by decide)).1 _ (by decide),
   (cmd_lookup_session_no_exact fnmatch_simple [live "workshop", none, live "work"]
      "x".toList (by decide)).2.2 (by decide)⟩

/-! ## The newest session -/

theorem timercmp_gt_iff (a b : timeval) :
    timercmp_gt a b = true ↔
      a.tv_sec > b.tv_sec ∨ (a.tv_sec = b.tv_sec ∧ a.tv_usec > b.tv_usec) := by
  unfold timercmp_gt
  by_cases h : a.tv_sec = b.tv_sec
  · simp [h]
  · simp [h]

theorem timercmp_gt_irrefl (a : timeval) : ¬ timercmp_gt a a = true := by
  rw [timercmp_gt_iff]; omega

theorem timercmp_gt_trans (a b c : timeval) (h1 : timercmp_gt a b = true)
    (h2 : timercmp_gt b c = true) : timercmp_gt a c = true := by
  rw [timercmp_gt_iff] at *; omega

theorem timercmp_gt_asymm (a b : timeval) (h : timercmp_gt a b = true) :
    ¬ timercmp_gt b a = true := by
  rw [timercmp_gt_iff] at *; omega

theorem timercmp_gt_of_not (a b c : timeval) (h1 : timercmp_gt a b = true)
    (h2 : ¬ timercmp_gt c b = true) : timercmp_gt a c = true := by
  rw [timercmp_gt_iff] at *; omega

/-- The loop of `cmd_newest_session` started with a session in hand returns
that session or a strictly newer one found further on. -/
theorem cmd_newest_session_loop_some (rest : List (Option session)) :
    ∀ (n : session), ∃ s, cmd_newest_session_loop rest (some n) = some s ∧
      ((s = n ∧ ∀ t, some t ∈ rest → ¬ timercmp_gt t.tv n.tv = true) ∨
       (∃ pre post, rest = pre ++ some s :: post ∧ timercmp_gt s.tv n.tv = true ∧
          (∀ t, some t ∈ pre → timercmp_gt s.tv t.tv = true) ∧
          (∀ t, some t ∈ post → ¬ timercmp_gt t.tv s.tv = true))) := by
  induction rest with
  | nil =>
    intro n
    exact ⟨n, rfl, Or.inl ⟨rfl, fun t ht => absurd ht (List.not_mem_nil _)⟩⟩
  | cons o rest ih =>
    intro n
    cases o with
    | none =>
      obtain ⟨s, hs, h⟩ := ih n
      refine ⟨s, by rw [cmd_newest_session_loop]; exact hs, ?_⟩
      rcases h with ⟨h1, h2⟩ | ⟨pre, post, h1, h2, h3, h4⟩
      · left
        refine ⟨h1, fun t ht => ?_⟩
        rcases List.mem_cons.mp ht with ht | ht
        · cases ht
        · exact h2 t ht
      · right
        refine ⟨none :: pre, post, by rw [h1]; rfl, h2, fun t ht => ?_, h4⟩
        rcases List.mem_cons.mp ht with ht | ht
        · cases ht
        · exact h3 t ht
    | some h =>
      by_cases hg : timercmp_gt h.tv n.tv = true
      · obtain ⟨s, hs, hh⟩ := ih h
        refine ⟨s, by rw [cmd_newest_session_loop, if_pos hg]; exact hs, Or.inr ?_⟩
        rcases hh with ⟨h1, h2⟩ | ⟨pre, post, h1, h2, h3, h4⟩
        · subst h1
          exact ⟨[], rest, rfl, hg, fun t ht => absurd ht (List.not_mem_nil _), h2⟩
        · refine ⟨some h :: pre, post, by rw [h1]; rfl,
            timercmp_gt_trans _ _ _ h2 hg, fun t ht => ?_, h4⟩
          rcases List.mem_cons.mp ht with ht | ht
          · cases ht; exact h2
          · exact h3 t ht
      · obtain ⟨s, hs, hh⟩ := ih n
        refine ⟨s, by rw [cmd_newest_session_loop, if_neg hg]; exact hs, ?_⟩
        rcases hh with ⟨h1, h2⟩ | ⟨pre, post, h1, h2, h3, h4⟩
        · left
          refine ⟨h1, fun t ht => ?_⟩
          rcases List.mem_cons.mp ht with ht | ht
          · cases ht; exact hg
          · exact h2 t ht
        · right
          refine ⟨some h :: pre, post, by rw [h1]; rfl, h2, fun t ht => ?_, h4⟩
          rcases List.mem_cons.mp ht with ht | ht
          · cases ht; exact timercmp_gt_of_not _ _ _ h2 hg
          · exact h3 t ht

/-- The newest session of an array: none when no slot is live, and else a
live session that is strictly newer than every live session before it and
not older than any live session after it. -/
theorem cmd_newest_session_split (ss : List (Option session)) :
    (cmd_newest_session ss = none ↔ ∀ o ∈ ss, o = none) ∧
    (∀ s, cmd_newest_session ss = some s →
      ∃ pre post, ss = pre ++ some s :: post ∧
        (∀ t, some t ∈ pre → timercmp_gt s.tv t.tv = true) ∧
        (∀ t, some t ∈ post → ¬ timercmp_gt t.tv s.tv = true)) := by
  unfold cmd_newest_session
  induction ss with
  | nil => simp [cmd_newest_session_loop]
  | cons o rest ih =>
    cases o with
    | none =>
      rw [cmd_newest_session_loop]
      obtain ⟨ih1, ih2⟩ := ih
      constructor
      · rw [ih1]; simp
      · intro s hs
        obtain ⟨pre, post, h1, h2, h3⟩ := ih2 s hs
        refine ⟨none :: pre, post, by rw [h1]; rfl, fun t ht => ?_, h3⟩
        rcases List.mem_cons.mp ht with ht | ht
        · cases ht
        · exact h2 t ht
    | some h =>
      rw [cmd_newest_session_loop]
      obtain ⟨s, hs, hh⟩ := cmd_newest_session_loop_some rest h
      constructor
      · rw [hs]; simp
      · intro s2 hs2
        rw [hs] at hs2
        cases hs2
        rcases hh with ⟨h1, h2⟩ | ⟨pre, post, h1, h2, h3, h4⟩
        · subst h1
          exact ⟨[], rest, rfl, fun t ht => absurd ht (List.not_mem_nil _), h2⟩
        · refine ⟨some h :: pre, post, by rw [h1]; rfl, fun t ht => ?_, h4⟩
          rcases List.mem_cons.mp ht with ht | ht
          · cases ht; exact h2
          · exact h3 t ht

/-- C18. `cmd_newest_session` returns none exactly when the array has no live
entry; otherwise it returns a live session, at a position `i` of the array,
whose timestamp no live session exceeds and which is strictly newer than every
live session at a position before `i` (the first of the newest wins). -/
theorem cmd_newest_session_spec (ss : List (Option session)) :
    (cmd_newest_session ss = none ↔ ∀ o ∈ ss, o = none) ∧
    (∀ s, cmd_newest_session ss = some s →
      ∃ i : Nat, ss[i]? = some (some s) ∧
        (∀ t, some t ∈ ss → ¬ timercmp_gt t.tv s.tv = true) ∧
        (∀ (j : Nat) (t : session), j < i → ss[j]? = some (some t) →
          timercmp_gt s.tv t.tv = true)) := by
  obtain ⟨h1, h2⟩ := cmd_newest_session_split ss
  refine ⟨h1, fun s hs => ?_⟩
  obtain ⟨pre, post, hsplit, hpre, hpost⟩ := h2 s hs
  refine ⟨pre.length, ?_, ?_, ?_⟩
  · rw [hsplit, List.getElem?_append_right (Nat.le_refl _)]
    simp
  · intro t ht
    rw [hsplit] at ht
    rcases List.mem_append.mp ht with ht | ht
    · exact timercmp_gt_asymm _ _ (hpre t ht)
    · rcases List.mem_cons.mp ht with ht | ht
      · cases ht; exact timercmp_gt_irrefl _
      · exact hpost t ht
  · intro j t hj hjt
    rw [hsplit, List.getElem?_append_left hj] at hjt
    exact hpre t (List.getElem?_mem hjt)

/-- Witness for C18: an array of dead slots has no newest session; in the
server of the examples the newest session is `b`. -/
theorem cmd_newest_session_spec_witness :
    cmd_newest_session [none, none] = none ∧
    ∃ i : Nat, server_ab.sessions[i]? = some (some session_b) ∧
      (∀ t, some t ∈ server_ab.sessions → ¬ timercmp_gt t.tv session_b.tv = true) ∧
      (∀ (j : Nat) (t : session), j < i → server_ab.sessions[j]? = some (some t) →
        timercmp_gt session_b.tv t.tv = true) :=
  ⟨(cmd_newest_session_spec [none, none]).1.mpr (by decide),
   (cmd_newest_session_spec server_ab.sessions).2 session_b (by decide)⟩

/-! ## The current session -/

theorem sessions_on_tty_live (sessions : List (Option session)) (path : CStr) :
    ∀ o ∈ sessions_on_tty sessions path, o ≠ none := by
  intro o ho
  simp only [sessions_on_tty, List.mem_filter] at ho
  intro h
  subst h
  simp at ho

theorem cmd_newest_session_on_tty (sessions : List (Option session)) (path : CStr) :
    cmd_newest_session (sessions_on_tty sessions path) = none ↔
      sessions_on_tty sessions path = [] := by
  rw [(cmd_newest_session_split _).1]
  constructor
  · intro h
    apply List.eq_nil_iff_forall_not_mem.mpr
    intro o ho
    exact sessions_on_tty_live sessions path o ho (h o ho)
  · intro h o ho
    rw [h] at ho
    exact absurd ho (List.not_mem_nil _)

/-- C17. The four sources of `cmd_current_session`, in order: (1) the session
of the current client of the context, when it has one; (2) otherwise, when the
calling client has a tty path that is the tty of a pane of some session, the
newest of the sessions holding such a pane; (3) otherwise, for an environment
record (present, with a pid other than -1) whose pid is the pid of the server,
the session in the slot of the record's index; (4) otherwise, when there is no
such record, the newest session of the whole table. -/
theorem cmd_current_session_sources (S : server) (ctx : cmd_ctx) :
    (∀ c s, ctx.curclient = some c → c.session = some s →
      cmd_current_session S ctx = some s) ∧
    (ctx.curclient.bind client.session = none →
      ∀ c path, ctx.cmdclient = some c → c.tty_path = some path →
        sessions_on_tty S.sessions path ≠ [] →
        cmd_current_session S ctx = cmd_newest_session (sessions_on_tty S.sessions path) ∧
        cmd_current_session S ctx ≠ none) ∧
    (ctx.curclient.bind client.session = none →
      (∀ c path, ctx.cmdclient = some c → c.tty_path = some path →
        sessions_on_tty S.sessions path = []) →
      ∀ data, ctx.msgdata = some data → data.pid ≠ -1 → data.pid = S.pid →
        data.idx < S.sessions.length →
        cmd_current_session S ctx = (S.sessions[data.idx]?).join) ∧
    (ctx.curclient.bind client.session = none →
      (∀ c path, ctx.cmdclient = some c → c.tty_path = some path →
        sessions_on_tty S.sessions path = []) →
      (∀ data, ctx.msgdata = some data → data.pid = -1) →
        cmd_current_session S ctx = cmd_newest_session S.sessions) := by
  have htty : (∀ c path, ctx.cmdclient = some c → c.tty_path = some path →
      sessions_on_tty S.sessions path = []) → cmd_current_session_tty S ctx = none := by
    intro h
    cases hc : ctx.cmdclient with
    | none => simp only [cmd_current_session_tty, hc]
    | some c =>
      cases hp : c.tty_path with
      | none => simp only [cmd_current_session_tty, hc, hp]
      | some path =>
        simp only [cmd_current_session_tty, hc, hp]
        exact (cmd_newest_session_on_tty _ _).mpr (h c path hc hp)
  refine ⟨?_, ?_, ?_, ?_⟩
  · intro c s hc hs
    simp [cmd_current_session, hc, hs]
  · intro h1 c path hc hp hne
    have hn : cmd_newest_session (sessions_on_tty S.sessions path) ≠ none :=
      fun h => hne ((cmd_newest_session_on_tty _ _).mp h)
    have h2 : cmd_current_session_tty S ctx =
        cmd_newest_session (sessions_on_tty S.sessions path) := by
      simp [cmd_current_session_tty, hc, hp]
    have h3 : cmd_current_session S ctx =
        cmd_newest_session (sessions_on_tty S.sessions path) := by
      unfold cmd_current_session
      rw [h1, h2]
      cases hr : cmd_newest_session (sessions_on_tty S.sessions path) with
      | none => exact absurd hr hn
      | some s => rfl
    exact ⟨h3, by rw [h3]; exact hn⟩
  · intro h1 h2 data hd hpid hpid2 hidx
    unfold cmd_current_session
    rw [h1, htty h2, hd]
    simp only []
    rw [if_pos hpid, cmd_current_session_env, if_neg (not_not.mpr hpid2),
      if_neg (by omega), List.getElem?_append_left hidx]
  · intro h1 h2 h3
    unfold cmd_current_session
    rw [h1, htty h2]
    cases hd : ctx.msgdata with
    | none => rfl
    | some data =>
      have := h3 data hd
      simp [this]

/-- Witness for C17: in the server of the examples, a current client attached
to `a` gives `a`; a calling client on the tty of `a` gives `a`, although `b`
is newer; a record of the server's pid with index 0 gives `a`; nothing of all
that gives the newest session, `b`. -/
theorem cmd_current_session_sources_witness :
    cmd_current_session server_ab { curclient := some { session := some session_a } }
      = some session_a ∧
    cmd_current_session server_ab
      { cmdclient := some { tty_path := some "/dev/ttyp1".toList } } = some session_a ∧
    cmd_current_session server_ab { msgdata := some ⟨100, 0⟩ } = some session_a ∧
    cmd_current_session server_ab {} = some session_b :=
  ⟨(cmd_current_session_sources server_ab
      { curclient := some { session := some session_a } }).1 _ _ rfl rfl,
   (((cmd_current_session_sources server_ab
      { cmdclient := some { tty_path := some "/dev/ttyp1".toList } }).2.1 rfl _ _ rfl rfl
      (by decide)).1).trans (by decide),
   ((cmd_current_session_sources server_ab { msgdata := some ⟨100, 0⟩ }).2.2.1 rfl
      (fun _ _ h => nomatch h) _ rfl (by decide) rfl (by decide)).trans (by decide),
   ((cmd_current_session_sources server_ab {}).2.2.2 rfl
      (fun _ _ h => nomatch h) (fun _ h => nomatch h)).trans (by decide)⟩

/-! ## Window lookup: C11, C12 -/

theorem cmd_lookup_window_exact_outcome (q : CStr) :
    ∀ (wls : List winlink) (wlfound : Option winlink),
      cmd_lookup_window_exact q wls wlfound =
        scan_outcome wlfound (wls.filter (fun wl => decide (q = wl.window.name))) := by
  intro wls
  induction wls with
  | nil => intro wlfound; cases wlfound <;> rfl
  | cons wl rest ih =>
    intro wlfound
    by_cases h : q = wl.window.name
    · rw [List.filter_cons_of_pos (by simpa using h)]
      simp only [cmd_lookup_window_exact, if_pos h]
      cases wlfound with
      | some f => simp [scan_outcome]
      | none =>
        simp only [Option.isSome_none, Bool.false_eq_true, if_false]
        rw [ih (some wl)]
        cases List.filter (fun wl => decide (q = wl.window.name)) rest with
        | nil => rfl
        | cons t ts => rfl
    · rw [List.filter_cons_of_neg (by simpa using h)]
      simp only [cmd_lookup_window_exact, if_neg h]
      exact ih wlfound

theorem cmd_lookup_window_pattern_outcome (fnmatch : CStr → CStr → Bool) (q : CStr) :
    ∀ (wls : List winlink) (wlfound : Option winlink),
      cmd_lookup_window_pattern fnmatch q wls wlfound =
        scan_outcome wlfound
          (wls.filter (fun wl => decide (q <+: wl.window.name) || fnmatch q wl.window.name)) := by
  intro wls
  induction wls with
  | nil => intro wlfound; cases wlfound <;> rfl
  | cons wl rest ih =>
    intro wlfound
    have hp : decide (q <+: wl.window.name) = strncmp_eq q wl.window.name q.length := by
      rw [strncmp_eq_symm, Bool.eq_iff_iff, strncmp_eq_iff_starts]
      simp
    by_cases h : (strncmp_eq q wl.window.name q.length || fnmatch q wl.window.name) = true
    · rw [List.filter_cons_of_pos (by rw [hp]; exact h)]
      simp only [cmd_lookup_window_pattern, if_pos h]
      cases wlfound with
      | some f => simp [scan_outcome]
      | none =>
        simp only [Option.isSome_none, Bool.false_eq_true, if_false]
        rw [ih (some wl)]
        cases List.filter
            (fun wl => decide (q <+: wl.window.name) || fnmatch q wl.window.name) rest with
        | nil => rfl
        | cons t ts => rfl
    · rw [List.filter_cons_of_neg (by rw [hp]; exact h)]
      simp only [cmd_lookup_window_pattern, if_neg h]
      exact ih wlfound

/-- The two name phases of `cmd_lookup_window` in terms of the exact and the
pattern matches of the query. -/
theorem cmd_lookup_window_names_outcome (fnmatch : CStr → CStr → Bool) (s : session)
    (q : CStr) :
    cmd_lookup_window_names fnmatch s q =
      match window_exact_matches s q with
      | [] => scan_outcome none (window_pattern_matches fnmatch s q)
      | [wl] => (some wl, false)
      | _ => (none, true) := by
  unfold cmd_lookup_window_names
  rw [cmd_lookup_window_exact_outcome, cmd_lookup_window_pattern_outcome]
  unfold window_exact_matches window_pattern_matches
  cases List.filter (fun wl => decide (q = wl.window.name)) s.windows with
  | nil => simp [scan_outcome]
  | cons a rest =>
    cases rest with
    | nil => simp [scan_outcome]
    | cons b rest => simp [scan_outcome]

/-- C11. Index before name: when the query reads as a number `v` (in the
range of `strtonum(.., 0, INT_MAX, ..)`) and the session has a winlink at
index `v`, `cmd_lookup_window` returns that winlink, whatever the names of
the windows; when it has none, the result is the one of the name phases, so
that a window named as the query is returned when it is the only exact
match. -/
theorem cmd_lookup_window_index_first (L : libc) (s : session) (q : CStr) (v : Nat)
    (hq : L.strtonum q = .ok v) :
    (∀ wl, winlink_find_by_index s.windows v = some wl →
      cmd_lookup_window L s q = (some wl, false)) ∧
    (winlink_find_by_index s.windows v = none →
      cmd_lookup_window L s q = cmd_lookup_window_names L.fnmatch s q ∧
      ∀ wl, window_exact_matches s q = [wl] → cmd_lookup_window L s q = (some wl, false)) := by
  constructor
  · intro wl h
    simp only [cmd_lookup_window, hq, h]
  · intro h
    have e : cmd_lookup_window L s q = cmd_lookup_window_names L.fnmatch s q := by
      simp only [cmd_lookup_window, hq, h]
    refine ⟨e, fun wl hwl => ?_⟩
    rw [e, cmd_lookup_window_names_outcome, hwl]

/-- Witness for C11: in session `b`, whose window at index 5 is named `2`,
the query `2` gives the window at index 2; in a session with the window named
`2` alone, at index 5, the query `2` gives that window. -/
theorem cmd_lookup_window_index_first_witness :
    cmd_lookup_window libc_simple session_b "2".toList =
      (some { idx := 2, window := window_named "bash" "/dev/ttyp2" }, false) ∧
    cmd_lookup_window libc_simple
      { name := "c".toList, windows := [{ idx := 5, window := window_named "2" "/dev/ttyp3" }] }
      "2".toList =
      (some { idx := 5, window := window_named "2" "/dev/ttyp3" }, false) :=
  ⟨(cmd_lookup_window_index_first libc_simple session_b "2".toList 2 rfl).1 _
      (by decide),
   ((cmd_lookup_window_index_first libc_simple
      { name := "c".toList, windows := [{ idx := 5, window := window_named "2" "/dev/ttyp3" }] }
      "2".toList 2 rfl).2 (by decide)).2 _ (by decide)⟩

/-- C12. For a query not resolved by index, `cmd_lookup_window` has two
phases: one window named exactly as the query is returned, whatever matches
by prefix or glob; two or more give none with the ambiguous flag set; only
when no name equals the query do the prefix and glob matches count, the
single one being returned, several giving none with the flag set, and none
giving none with the flag clear. -/
theorem cmd_lookup_window_two_phases (L : libc) (s : session) (q : CStr)
    (hidx : ∀ v, L.strtonum q = .ok v → winlink_find_by_index s.windows v = none) :
    (∀ wl, window_exact_matches s q = [wl] → cmd_lookup_window L s q = (some wl, false)) ∧
    (2 ≤ (window_exact_matches s q).length → cmd_lookup_window L s q = (none, true)) ∧
    (window_exact_matches s q = [] →
      (∀ wl, window_pattern_matches L.fnmatch s q = [wl] →
        cmd_lookup_window L s q = (some wl, false)) ∧
      (2 ≤ (window_pattern_matches L.fnmatch s q).length →
        cmd_lookup_window L s q = (none, true)) ∧
      (window_pattern_matches L.fnmatch s q = [] →
        cmd_lookup_window L s q = (none, false))) := by
  have e : cmd_lookup_window L s q = cmd_lookup_window_names L.fnmatch s q := by
    unfold cmd_lookup_window
    cases hq : L.strtonum q with
    | error err => rfl
    | ok v => simp only [hidx v hq]
  rw [e, cmd_lookup_window_names_outcome]
  refine ⟨fun wl h => by rw [h], fun h => ?_, fun h => ?_⟩
  · match hm : window_exact_matches s q with
    | [] => rw [hm] at h; simp at h
    | [_] => rw [hm] at h; simp at h
    | _ :: _ :: _ => rfl
  · rw [h]
    refine ⟨fun wl hp => by rw [hp]; rfl, fun hp => ?_, fun hp => by rw [hp]; rfl⟩
    match hm : window_pattern_matches L.fnmatch s q with
    | [] => rw [hm] at hp; simp at hp
    | [_] => rw [hm] at hp; simp at hp
    | _ :: _ :: _ => rfl

/-- Witness for C12: in session `b` (windows `bash` and `2`), the query
`bash` finds its window by name, `ba` finds it by prefix and `*` is
ambiguous. -/
theorem cmd_lookup_window_two_phases_witness :
    cmd_lookup_window libc_simple session_b "bash".toList =
      (some { idx := 2, window := window_named "bash" "/dev/ttyp2" }, false) ∧
    cmd_lookup_window libc_simple session_b "ba".toList =
      (some { idx := 2, window := window_named "bash" "/dev/ttyp2" }, false) ∧
    cmd_lookup_window libc_simple session_b "*".toList = (none, true) :=
  ⟨(cmd_lookup_window_two_phases libc_simple session_b "bash".toList
      (fun _ h => by cases h)).1 _
      (by decide),
   ((cmd_lookup_window_two_phases libc_simple session_b "ba".toList
      (fun _ h => by cases h)).2.2
      (by decide)).1 _ (by decide),
   ((cmd_lookup_window_two_phases libc_simple session_b "*".toList
      (fun _ h => by cases h)).2.2
      (by decide)).2.1 (by decide)⟩

/-! ## Targets with a colon and without: C13, C14 -/

theorem before_colon_append (sess win : CStr) (h : ':' ∉ sess) :
    before_colon (sess ++ ':' :: win) = sess := by
  unfold before_colon
  induction sess with
  | nil => simp
  | cons c cs ih =>
    have hc : c ≠ ':' := fun e => h (by rw [e]; exact List.mem_cons_self _ _)
    have hcs : ':' ∉ cs := fun e => h (List.mem_cons_of_mem _ e)
    simp only [List.cons_append]
    rw [List.takeWhile_cons_of_pos (by simpa using hc), ih hcs]

theorem after_colon_append (sess win : CStr) (h : ':' ∉ sess) :
    after_colon (sess ++ ':' :: win) = win := by
  unfold after_colon
  induction sess with
  | nil => simp
  | cons c cs ih =>
    have hc : c ≠ ':' := fun e => h (by rw [e]; exact List.mem_cons_self _ _)
    have hcs : ':' ∉ cs := fun e => h (List.mem_cons_of_mem _ e)
    simp only [List.cons_append]
    rw [List.dropWhile_cons_of_pos (by simpa using hc), ih hcs]

/-- A target with a colon goes through the colon part of `cmd_find_window`,
split at the first colon. -/
theorem cmd_find_window_with_colon (L : libc) (S : server) (ctx : cmd_ctx) (s : session)
    (sess win : CStr) (hcur : cmd_current_session S ctx = some s) :
    cmd_find_window L S ctx (some (sess ++ ':' :: win)) =
      cmd_find_window_colon L S s (sess ++ ':' :: win) := by
  have hne : sess ++ ':' :: win ≠ [] := by simp
  have hmem : ':' ∈ sess ++ ':' :: win := by simp
  simp only [cmd_find_window, hcur, if_neg hne, if_pos hmem]

/-- C13 fails as stated. With the sessions `a` (one window, named `b:c`) and
`a:b` (one window, named `c`), the target `a:b:c` resolves to the window `b:c`
of session `a`: the split is at the first colon. And an empty part is not
looked up: from the current session `b`, `:bash` is the window `bash` of `b`
although the empty name is ambiguous among the sessions, and `b:` is the
current window of `b` although the empty name is ambiguous among its
windows. -/
theorem cmd_find_window_colon_counterexample :
    cmd_find_window libc_simple
      { sessions :=
          [some { name := "a".toList,
                  windows := [{ idx := 0, window := window_named "b:c" "/dev/ttyp1" }] },
           some { name := "a:b".toList,
                  windows := [{ idx := 0, window := window_named "c" "/dev/ttyp2" }] }] }
      {} (some "a:b:c".toList) =
      ⟨some { idx := 0, window := window_named "b:c" "/dev/ttyp1" },
       some { name := "a".toList,
              windows := [{ idx := 0, window := window_named "b:c" "/dev/ttyp1" }] }, []⟩ ∧
    (cmd_lookup_session fnmatch_simple server_ab.sessions [] = (none, true) ∧
      cmd_find_window libc_simple server_ab {} (some ":bash".toList) =
        ⟨some { idx := 2, window := window_named "bash" "/dev/ttyp2" }, some session_b, []⟩) ∧
    (cmd_lookup_window libc_simple session_b [] = (none, true) ∧
      cmd_find_window libc_simple server_ab {} (some "b:".toList) =
        ⟨some session_b.curw, some session_b, []⟩) := by
  decide

/-- C13, amended. For a target `sess:win` whose part `sess` holds no colon
(the split is at the first colon), from the current session `s`: a non-empty
`sess` is resolved with `cmd_lookup_session`, an empty one stands for `s`; when
no session is found the call fails with the `multiple sessions` or
`session not found` message; in the session found, an empty `win` stands for
its current window and a non-empty `win` is resolved with `cmd_lookup_window`,
whose failure gives the `multiple windows` or `window not found` message. -/
theorem cmd_find_window_first_colon (L : libc) (S : server) (ctx : cmd_ctx) (s : session)
    (sess win : CStr) (hcur : cmd_current_session S ctx = some s) (hsess : ':' ∉ sess) :
    (sess ≠ [] → ∀ amb, cmd_lookup_session L.fnmatch S.sessions sess = (none, amb) →
      cmd_find_window L S ctx (some (sess ++ ':' :: win)) =
        ⟨none, none, [no_session_error (sess ++ ':' :: win) amb]⟩) ∧
    (∀ t, (sess = [] ∧ t = s) ∨
        (sess ≠ [] ∧ (cmd_lookup_session L.fnmatch S.sessions sess).1 = some t) →
      (win = [] →
        cmd_find_window L S ctx (some (sess ++ ':' :: win)) = ⟨some t.curw, some t, []⟩) ∧
      (win ≠ [] → ∀ wl, (cmd_lookup_window L t win).1 = some wl →
        cmd_find_window L S ctx (some (sess ++ ':' :: win)) = ⟨some wl, some t, []⟩) ∧
      (win ≠ [] → ∀ amb, cmd_lookup_window L t win = (none, amb) →
        cmd_find_window L S ctx (some (sess ++ ':' :: win)) =
          ⟨none, some t, [not_found_error (sess ++ ':' :: win) amb]⟩)) := by
  have hb := before_colon_append sess win hsess
  have ha := after_colon_append sess win hsess
  rw [cmd_find_window_with_colon L S ctx s sess win hcur]
  unfold cmd_find_window_colon
  rw [hb, ha]
  constructor
  · intro hne amb hl
    rw [if_pos hne, hl]
  · intro t ht
    have hres : (if sess ≠ [] then cmd_lookup_session L.fnmatch S.sessions sess
        else (some s, false)) =
        (some t, (if sess ≠ [] then cmd_lookup_session L.fnmatch S.sessions sess
        else (some s, false)).2) := by
      rcases ht with ⟨h1, h2⟩ | ⟨h1, h2⟩
      · subst h2
        simp [h1]
      · rw [if_pos h1]
        rw [← h2]
    rw [hres]
    refine ⟨fun hw => ?_, fun hw wl hwl => ?_, fun hw amb hwl => ?_⟩
    · simp only [if_pos hw]
    · simp only [if_neg hw]
      have : cmd_lookup_window L t win = (some wl, (cmd_lookup_window L t win).2) := by
        rw [← hwl]
      rw [this]
    · simp only [if_neg hw]
      rw [hwl]

/-- Witness for C13: in the server of the examples, `b:2` is the window at
index 2 of session `b`, and `b:nothing` is reported as not found. -/
theorem cmd_find_window_first_colon_witness :
    cmd_find_window libc_simple server_ab {} (some "b:2".toList) =
      ⟨some { idx := 2, window := window_named "bash" "/dev/ttyp2" }, some session_b, []⟩ ∧
    cmd_find_window libc_simple server_ab {} (some "b:nothing".toList) =
      ⟨none, some session_b, ["window not found: b:nothing".toList]⟩ :=
  ⟨((cmd_find_window_first_colon libc_simple server_ab {} session_b "b".toList "2".toList
      (by decide) (by decide)).2 session_b (Or.inr ⟨by decide, by decide⟩)).2.1
      (by decide) _ (by decide),
   (((cmd_find_window_first_colon libc_simple server_ab {} session_b "b".toList
      "nothing".toList (by decide) (by decide)).2 session_b
      (Or.inr ⟨by decide, by decide⟩)).2.2 (by decide) false (by decide)).trans (by decide)⟩

/-- C14. For a non-empty target `q` without colon, from the current session
`s`: a window found for `q` in `s` is returned, with `s`; an ambiguous window
lookup fails with `multiple windows`, whatever the sessions are; only when the
window lookup finds nothing without ambiguity is `q` looked up as a session,
whose current window is returned with it, or which fails with
`session not found` or `multiple sessions`. -/
theorem cmd_find_window_without_colon (L : libc) (S : server) (ctx : cmd_ctx) (s : session)
    (q : CStr) (hcur : cmd_current_session S ctx = some s) (hne : q ≠ []) (hq : ':' ∉ q) :
    (∀ wl, (cmd_lookup_window L s q).1 = some wl →
      cmd_find_window L S ctx (some q) = ⟨some wl, some s, []⟩) ∧
    (cmd_lookup_window L s q = (none, true) →
      cmd_find_window L S ctx (some q) = ⟨none, none, ["multiple windows: ".toList ++ q]⟩) ∧
    (cmd_lookup_window L s q = (none, false) →
      (∀ t, (cmd_lookup_session L.fnmatch S.sessions q).1 = some t →
        cmd_find_window L S ctx (some q) = ⟨some t.curw, some t, []⟩) ∧
      (cmd_lookup_session L.fnmatch S.sessions q = (none, false) →
        cmd_find_window L S ctx (some q) =
          ⟨none, none, ["session not found: ".toList ++ q]⟩) ∧
      (cmd_lookup_session L.fnmatch S.sessions q = (none, true) →
        cmd_find_window L S ctx (some q) =
          ⟨none, none, ["multiple sessions: ".toList ++ q]⟩)) := by
  have e : cmd_find_window L S ctx (some q) = cmd_find_window_no_colon L S s q := by
    simp only [cmd_find_window, hcur, if_neg hne, if_neg hq]
  rw [e]
  unfold cmd_find_window_no_colon
  refine ⟨fun wl hwl => ?_, fun hw => ?_, fun hw => ⟨fun t ht => ?_, fun hs => ?_, fun hs => ?_⟩⟩
  · have : cmd_lookup_window L s q = (some wl, (cmd_lookup_window L s q).2) := by
      rw [← hwl]
    rw [this]
  · rw [hw]; rfl
  · have : cmd_lookup_session L.fnmatch S.sessions q =
        (some t, (cmd_lookup_session L.fnmatch S.sessions q).2) := by
      rw [← ht]
    rw [hw]
    simp only []
    rw [this]
  · rw [hw]
    simp only []
    rw [hs]
    rfl
  · rw [hw]
    simp only []
    rw [hs]
    rfl

/-- Witness for C14: with session `b` current in the server of the examples,
`bash` is its window, `*` is ambiguous among its windows, `a` is no window of
`b` and resolves to session `a` and its current window, and `zz` is neither. -/
theorem cmd_find_window_without_colon_witness :
    cmd_find_window libc_simple server_ab {} (some "bash".toList) =
      ⟨some { idx := 2, window := window_named "bash" "/dev/ttyp2" }, some session_b, []⟩ ∧
    cmd_find_window libc_simple server_ab {} (some "*".toList) =
      ⟨none, none, ["multiple windows: *".toList]⟩ ∧
    cmd_find_window libc_simple server_ab {} (some "a".toList) =
      ⟨some session_a.curw, some session_a, []⟩ ∧
    cmd_find_window libc_simple server_ab {} (some "zz".toList) =
      ⟨none, none, ["session not found: zz".toList]⟩ :=
  ⟨(cmd_find_window_without_colon libc_simple server_ab {} session_b "bash".toList
      (by decide) (by decide) (by decide)).1 _ (by decide),
   ((cmd_find_window_without_colon libc_simple server_ab {} session_b "*".toList
      (by decide) (by decide) (by decide)).2.1 (by decide)).trans (by decide),
   ((cmd_find_window_without_colon libc_simple server_ab {} session_b "a".toList
      (by decide) (by decide) (by decide)).2.2 (by decide)).1 _ (by decide),
   (((cmd_find_window_without_colon libc_simple server_ab {} session_b "zz".toList
      (by decide) (by decide) (by decide)).2.2 (by decide)).2.1 (by decide)).trans
      (by decide)⟩

/-! ## Failures are reported: the case of `cmd_find_window` -/

theorem cmd_find_window_colon_reports (L : libc) (S : server) (s : session) (arg : CStr) :
    ((cmd_find_window_colon L S s arg).wl = none →
      (cmd_find_window_colon L S s arg).errors ≠ []) ∧
    ((cmd_find_window_colon L S s arg).wl ≠ none →
      (cmd_find_window_colon L S s arg).errors = []) := by
  unfold cmd_find_window_colon
  split
  · simp
  · split
    · simp
    · split <;> simp

theorem cmd_find_window_no_colon_reports (L : libc) (S : server) (s : session)
    (arg : CStr) :
    ((cmd_find_window_no_colon L S s arg).wl = none →
      (cmd_find_window_no_colon L S s arg).errors ≠ []) ∧
    ((cmd_find_window_no_colon L S s arg).wl ≠ none →
      (cmd_find_window_no_colon L S s arg).errors = []) := by
  unfold cmd_find_window_no_colon
  split
  · simp
  · simp
  · split <;> simp

/-- `cmd_find_window` sends a message to `error` exactly when it returns no
winlink. -/
theorem cmd_find_window_reports (L : libc) (S : server) (ctx : cmd_ctx)
    (arg : Option CStr) :
    ((cmd_find_window L S ctx arg).wl = none → (cmd_find_window L S ctx arg).errors ≠ []) ∧
    ((cmd_find_window L S ctx arg).wl ≠ none → (cmd_find_window L S ctx arg).errors = []) := by
  unfold cmd_find_window
  split
  · simp
  · split
    · simp
    · split
      · simp
      · split
        · exact cmd_find_window_colon_reports L S _ _
        · exact cmd_find_window_no_colon_reports L S _ _

/-! ## Targets with a period and without: C15, C16 -/

theorem reverse_split_period (winpart panepart : CStr) :
    (winpart ++ '.' :: panepart).reverse = panepart.reverse ++ '.' :: winpart.reverse := by
  simp

theorem before_period_append (winpart panepart : CStr) (h : '.' ∉ panepart) :
    before_period (winpart ++ '.' :: panepart) = winpart := by
  unfold before_period
  rw [reverse_split_period]
  have hall : ∀ c ∈ panepart.reverse, (fun c => c != '.') c = true := by
    intro c hc
    have : c ≠ '.' := fun e => h (by rw [← e]; exact List.mem_reverse.mp hc)
    simpa using this
  rw [List.dropWhile_append_of_pos hall]
  simp

theorem after_period_append (winpart panepart : CStr) (h : '.' ∉ panepart) :
    after_period (winpart ++ '.' :: panepart) = panepart := by
  unfold after_period
  rw [reverse_split_period]
  have hall : ∀ c ∈ panepart.reverse, (fun c => c != '.') c = true := by
    intro c hc
    have : c ≠ '.' := fun e => h (by rw [← e]; exact List.mem_reverse.mp hc)
    simpa using this
  rw [List.takeWhile_append_of_pos hall]
  simp

/-- C15. For a target `winpart.panepart` whose part `panepart` holds no
period (the split is at the last period), from the current session `s` and
with the window part resolved to the winlink `wl` (the current window of `s`
when `winpart` is empty, the winlink `cmd_find_window` returns for it
otherwise): an empty `panepart` selects the active pane of `wl`; a `panepart`
that `strtonum(.., 0, INT_MAX, ..)` rejects with `err` makes the call fail
with the message `pane <err>: <panepart>`; an index read from it selects the
pane at that index of the window of `wl`, or fails with `no such pane: <idx>`
when there is none. -/
theorem cmd_find_pane_with_period (L : libc) (S : server) (ctx : cmd_ctx) (s : session)
    (winpart panepart : CStr) (wl : winlink)
    (hcur : cmd_current_session S ctx = some s) (hpane : '.' ∉ panepart)
    (hwl : (winpart = [] ∧ wl = s.curw) ∨
      (winpart ≠ [] ∧ (cmd_find_window L S ctx (some winpart)).wl = some wl)) :
    (panepart = [] →
      (cmd_find_pane L S ctx (some (winpart ++ '.' :: panepart))).wl = some wl ∧
      (cmd_find_pane L S ctx (some (winpart ++ '.' :: panepart))).wpp = wl.window.active ∧
      (cmd_find_pane L S ctx (some (winpart ++ '.' :: panepart))).errors = []) ∧
    (panepart ≠ [] → ∀ err, L.strtonum panepart = .error err →
      (cmd_find_pane L S ctx (some (winpart ++ '.' :: panepart))).wl = none ∧
      (cmd_find_pane L S ctx (some (winpart ++ '.' :: panepart))).errors =
        ["pane ".toList ++ err ++ ": ".toList ++ panepart]) ∧
    (panepart ≠ [] → ∀ idx, L.strtonum panepart = .ok idx →
      (∀ wp, window_pane_at_index wl.window idx = some wp →
        (cmd_find_pane L S ctx (some (winpart ++ '.' :: panepart))).wl = some wl ∧
        (cmd_find_pane L S ctx (some (winpart ++ '.' :: panepart))).wpp = some wp ∧
        (cmd_find_pane L S ctx (some (winpart ++ '.' :: panepart))).errors = []) ∧
      (window_pane_at_index wl.window idx = none →
        (cmd_find_pane L S ctx (some (winpart ++ '.' :: panepart))).wl = none ∧
        (cmd_find_pane L S ctx (some (winpart ++ '.' :: panepart))).errors =
          ["no such pane: ".toList ++ (Nat.repr idx).toList])) := by
  have hmem : '.' ∈ winpart ++ '.' :: panepart := by simp
  have hb := before_period_append winpart panepart hpane
  have ha := after_period_append winpart panepart hpane
  obtain ⟨sp, hsec⟩ : ∃ sp, cmd_find_pane L S ctx (some (winpart ++ '.' :: panepart)) =
      cmd_find_pane_section L wl sp [] panepart := by
    simp only [cmd_find_pane, hcur, if_pos hmem, cmd_find_pane_period, hb, ha]
    rcases hwl with ⟨h1, h2⟩ | ⟨h1, h2⟩
    · rw [if_pos h1, h2]
      exact ⟨_, rfl⟩
    · rw [if_neg h1]
      have herr := (cmd_find_window_reports L S ctx (some winpart)).2 (by rw [h2]; simp)
      simp only [h2, herr]
      exact ⟨_, rfl⟩
  rw [hsec]
  unfold cmd_find_pane_section
  refine ⟨fun hp => ?_, fun hp err herr => ?_, fun hp idx hidx => ⟨fun wp hwp => ?_, fun hwp => ?_⟩⟩
  · simp [hp]
  · simp [hp, herr]
  · simp [hp, hidx, hwp]
  · simp [hp, hidx, hwp]

/-- Witness for C15: with session `b` current, `.` is its current window and
active pane, `a:mail.0` is pane 0 of the window `mail` of session `a`,
`a:mail.x` is an invalid pane and `a:mail.7` is no pane. -/
theorem cmd_find_pane_with_period_witness :
    (cmd_find_pane libc_simple server_ab {} (some ".".toList)).wl = some session_b.curw ∧
    (cmd_find_pane libc_simple server_ab {} (some "a:mail.0".toList)).wpp =
      some { tty := "/dev/ttyp1".toList } ∧
    (cmd_find_pane libc_simple server_ab {} (some "a:mail.x".toList)).errors =
      ["pane invalid: x".toList] ∧
    (cmd_find_pane libc_simple server_ab {} (some "a:mail.7".toList)).errors =
      ["no such pane: 7".toList] :=
  ⟨((cmd_find_pane_with_period libc_simple server_ab {} session_b [] [] session_b.curw
      (by decide) (by decide) (Or.inl ⟨rfl, rfl⟩)).1 rfl).1,
   (((cmd_find_pane_with_period libc_simple server_ab {} session_b "a:mail".toList
      "0".toList session_a.curw (by decide) (by decide)
      (Or.inr ⟨by decide, by decide⟩)).2.2 (by decide) 0 rfl).1 _ (by decide)).2.1,
   (((cmd_find_pane_with_period libc_simple server_ab {} session_b "a:mail".toList
      "x".toList session_a.curw (by decide) (by decide)
      (Or.inr ⟨by decide, by decide⟩)).2.1 (by decide) _ rfl).2).trans (by decide),
   ((((cmd_find_pane_with_period libc_simple server_ab {} session_b "a:mail".toList
      "7".toList session_a.curw (by decide) (by decide)
      (Or.inr ⟨by decide, by decide⟩)).2.2 (by decide) 7 rfl).2 (by decide)).2).trans
      (by decide)⟩

/-- C16. For a target `q` without period, from the current session `s`: when
`q` reads as a pane index and the current window has a pane at that index, the
current window and that pane are returned, whatever the windows of `s` are;
only when `q` is no number or the current window has no such pane is `q`
resolved by `cmd_find_window`, the active pane of the window found being
returned. -/
theorem cmd_find_pane_without_period (L : libc) (S : server) (ctx : cmd_ctx) (s : session)
    (q : CStr) (hcur : cmd_current_session S ctx = some s) (hq : '.' ∉ q) :
    (∀ idx wp, L.strtonum q = .ok idx → window_pane_at_index s.curw.window idx = some wp →
      cmd_find_pane L S ctx (some q) = ⟨some s.curw, some s, some wp, []⟩) ∧
    ((∀ idx, L.strtonum q = .ok idx → window_pane_at_index s.curw.window idx = none) →
      (cmd_find_pane L S ctx (some q)).wl = (cmd_find_window L S ctx (some q)).wl ∧
      (cmd_find_pane L S ctx (some q)).wpp =
        (cmd_find_window L S ctx (some q)).wl.bind (fun wl => wl.window.active) ∧
      (cmd_find_pane L S ctx (some q)).errors = (cmd_find_window L S ctx (some q)).errors) := by
  have e : cmd_find_pane L S ctx (some q) = cmd_find_pane_no_period L S ctx s q := by
    simp only [cmd_find_pane, hcur, if_neg hq]
  rw [e]
  unfold cmd_find_pane_no_period
  constructor
  · intro idx wp hidx hwp
    simp only [hidx, hwp]
  · intro h
    cases hs : L.strtonum q with
    | error err => exact ⟨rfl, rfl, rfl⟩
    | ok idx =>
      simp only [h idx hs]
      exact ⟨rfl, rfl, rfl⟩

/-- Witness for C16: in session `c`, whose windows are `zero` at index 0 and
`one` at index 1, the current one, with two panes, the target `1` is pane 1
of the current window although a window has the index 1; with session `b`
current, `bash` is the window of that name with its active pane. -/
theorem cmd_find_pane_without_period_witness :
    cmd_find_pane libc_simple { sessions := [some session_c] } {} (some "1".toList) =
      ⟨some session_c.curw, some session_c, some { tty := "/dev/ttyp6".toList }, []⟩ ∧
    (cmd_find_pane libc_simple server_ab {} (some "bash".toList)).wpp =
      some { tty := "/dev/ttyp2".toList } :=
  ⟨(cmd_find_pane_without_period libc_simple { sessions := [some session_c] } {} session_c
      "1".toList (by decide) (by decide)).1 1 _ rfl (by decide),
   (((cmd_find_pane_without_period libc_simple server_ab {} session_b "bash".toList
      (by decide) (by decide)).2 (fun _ h => by cases h)).2.1).trans (by decide)⟩

/-! ## Failures and the error slot: C19 -/

theorem cmd_lookup_index_not_minus_two (L : libc) (s : session) (name : CStr) :
    (cmd_lookup_index L s name).1 ≠ -2 := by
  unfold cmd_lookup_index
  split
  · simp only []; omega
  · split
    · simp
    · split
      · simp only []; omega
      · simp

/-- `cmd_find_index` sends a message to `error` exactly when it returns -2. -/
theorem cmd_find_index_reports (L : libc) (S : server) (ctx : cmd_ctx)
    (arg : Option CStr) :
    ((cmd_find_index L S ctx arg).idx = -2 → (cmd_find_index L S ctx arg).errors ≠ []) ∧
    ((cmd_find_index L S ctx arg).idx ≠ -2 → (cmd_find_index L S ctx arg).errors = []) := by
  unfold cmd_find_index
  split
  · simp
  · split
    · simp
    · split
      · simp
      · split
        · unfold cmd_find_index_colon
          split
          · simp
          · split
            · simp
            · split
              · split <;> simp
              · have := cmd_lookup_index_not_minus_two L
                simp [this]
        · unfold cmd_find_index_no_colon
          split
          · split
            · simp
            · split <;> simp
          · have := cmd_lookup_index_not_minus_two L
            simp [this]

theorem cmd_find_pane_section_reports (L : libc) (wl : winlink) (sp : Option session)
    (paneptr : CStr) :
    ((cmd_find_pane_section L wl sp [] paneptr).wl = none →
      (cmd_find_pane_section L wl sp [] paneptr).errors ≠ []) ∧
    ((cmd_find_pane_section L wl sp [] paneptr).wl ≠ none →
      (cmd_find_pane_section L wl sp [] paneptr).errors = []) := by
  unfold cmd_find_pane_section
  split
  · simp
  · split
    · simp
    · split <;> simp

/-- `cmd_find_pane` sends a message to `error` exactly when it returns no
winlink. -/
theorem cmd_find_pane_reports (L : libc) (S : server) (ctx : cmd_ctx)
    (arg : Option CStr) :
    ((cmd_find_pane L S ctx arg).wl = none → (cmd_find_pane L S ctx arg).errors ≠ []) ∧
    ((cmd_find_pane L S ctx arg).wl ≠ none → (cmd_find_pane L S ctx arg).errors = []) := by
  unfold cmd_find_pane
  split
  · simp
  · split
    · simp
    · rename_i s _ arg
      split
      · unfold cmd_find_pane_period
        split
        · exact cmd_find_pane_section_reports L _ _ _
        · have hw := cmd_find_window_reports L S ctx (some (before_period arg))
          split
          · rename_i hnone
            simp only [ne_eq, not_true_eq_false, false_implies, and_true]
            exact fun _ => hw.1 hnone
          · rename_i wl hsome
            have herr := hw.2 (by rw [hsome]; simp)
            rw [herr]
            exact cmd_find_pane_section_reports L _ _ _
      · have hw := cmd_find_window_reports L S ctx (some arg)
        unfold cmd_find_pane_no_period
        split
        · exact hw
        · split
          · exact hw
          · simp

/-- With a target given, `cmd_find_session` and `cmd_find_client` return, and
send a message to `error` exactly when they return nothing. -/
theorem cmd_find_session_reports_target (L : libc) (S : server) (ctx : cmd_ctx)
    (arg : CStr) :
    (((cmd_find_session L S ctx (some arg)).1 = none ↔
        (cmd_find_session L S ctx (some arg)).2 ≠ []) ∧
     ∃ r, cmd_find_client S ctx (some arg) = some r ∧ (r.1 = none ↔ r.2 ≠ [])) := by
  constructor
  · unfold cmd_find_session
    simp only []
    split
    · simp
    · split
      · simp
      · split <;> simp
  · unfold cmd_find_client
    simp only []
    cases cmd_lookup_client S.clients (trim_colon arg) with
    | none => exact ⟨_, rfl, by simp⟩
    | some c => exact ⟨_, rfl, by simp⟩

/-- Without target and without current client, in a current session, the
loop of `cmd_find_client` that meets an empty client slot reads through its
null pointer. -/
theorem cmd_find_client_empty_slot :
    cmd_find_client { sessions := [some session_a], clients := [none] } {} none = none := by
  decide

/-- C19, at the failing input. In a server without session and without
client, for a context without client (the one of a configuration file) and an
absent target, `cmd_find_session` and `cmd_find_client` return nothing and
send nothing to `error`. -/
theorem cmd_find_absent_target_silent (L : libc) :
    cmd_find_session L {} {} none = (none, []) ∧
    cmd_find_client {} {} none = some (none, []) :=
  ⟨rfl, rfl⟩

/-! ## Key bindings: C20 -/

theorem key_bindings_cmp_self (P : Int) (bd : key_binding) : key_bindings_cmp P bd bd = 0 := by
  unfold key_bindings_cmp
  simp

/-- The comparison reads the fields `key` and `key2` only. -/
theorem key_bindings_cmp_fields (P : Int) (a b : key_binding) :
    key_bindings_cmp P a b = key_bindings_cmp P (search_record a.key2 a.key) b := rfl

theorem splay_find_none (cmp : key_binding → key_binding → Int) (head : List key_binding)
    (elm : key_binding) (h : ∀ b ∈ head, cmp elm b ≠ 0) : splay_find cmp head elm = none := by
  unfold splay_find
  rw [List.find?_eq_none]
  intro b hb
  simpa using h b hb

theorem splay_insert_new (cmp : key_binding → key_binding → Int) (head : List key_binding)
    (elm : key_binding) (h : ∀ b ∈ head, cmp elm b ≠ 0) :
    splay_insert cmp head elm = head ++ [elm] := by
  unfold splay_insert
  rw [splay_find_none cmp head elm h]
  rfl

theorem key_bindings_remove_absent (P junk key : Int) (T : key_tables)
    (h : ∀ b ∈ T.key_bindings, key_bindings_cmp P (search_record junk key) b ≠ 0) :
    key_bindings_remove P junk key T = T := by
  unfold key_bindings_remove key_bindings_lookup
  rw [splay_find_none _ _ _ h]

/-- C20 fails as stated. From a table that binds the key `a` (97) to the list
L0, with an empty dead set, binding `a` to L1 and then to L2 and cleaning
frees one list, L0, and not L1, even when every lookup meets in the unset
field of its search record the second key it looks for (4095): the binding
of L1 compares equal to the binding of L0 that is in the dead set already,
and is not inserted there. -/
theorem key_bindings_replace_counterexample :
    freed_names
      (key_bindings_clean
        (key_bindings_add 65536 4095 4095 97 4095 0 0 (one_command "lock-session")
          (key_bindings_add 65536 4095 4095 97 4095 0 0 (one_command "lock-client")
            ⟨[⟨97, 4095, 0, 0, one_command "lock-server"⟩], [], []⟩))) =
      [["lock-server"]] := by
  decide

/-- C20, amended. From a table with an empty dead set that holds no binding a
lookup of `key`, of `key2a` or of `key2b` finds, after
`key_bindings_add(key, key2a, .., L1)` and `key_bindings_add(key, key2b, ..,
L2)`, provided the lookup of `key` in the second call finds the binding of the
first (the field `key2` of its search record, which `key_bindings_lookup`
leaves unset, compares equal to `key2a`): nothing has been freed before
`key_bindings_clean()`, which frees exactly one list, L1, and empties the dead
set; the table is the one of the start with the binding of `key` to L2. -/
theorem key_bindings_replace (P : Int) (T : List key_binding)
    (key key2a key2b hs1 cr1 hs2 cr2 : Int) (L1 L2 : cmd_list) (j1 j2 j3 j4 : Int)
    (hT : ∀ b ∈ T, ∀ j, key_bindings_cmp P (search_record j key) b ≠ 0 ∧
      key_bindings_cmp P (search_record j key2a) b ≠ 0 ∧
      key_bindings_cmp P (search_record j key2b) b ≠ 0)
    (hj3 : key_bindings_cmp P (search_record j3 key) ⟨key, key2a, hs1, cr1, L1⟩ = 0) :
    (key_bindings_add P j3 j4 key key2b hs2 cr2 L2
      (key_bindings_add P j1 j2 key key2a hs1 cr1 L1 ⟨T, [], []⟩)).freed = [] ∧
    (key_bindings_clean (key_bindings_add P j3 j4 key key2b hs2 cr2 L2
      (key_bindings_add P j1 j2 key key2a hs1 cr1 L1 ⟨T, [], []⟩))).freed = [L1] ∧
    (key_bindings_clean (key_bindings_add P j3 j4 key key2b hs2 cr2 L2
      (key_bindings_add P j1 j2 key key2a hs1 cr1 L1 ⟨T, [], []⟩))).dead_key_bindings = [] ∧
    (key_bindings_clean (key_bindings_add P j3 j4 key key2b hs2 cr2 L2
      (key_bindings_add P j1 j2 key key2a hs1 cr1 L1 ⟨T, [], []⟩))).key_bindings =
      T ++ [⟨key, key2b, hs2, cr2, L2⟩] := by
  have hkey : ∀ j, ∀ b ∈ T, key_bindings_cmp P (search_record j key) b ≠ 0 :=
    fun j b hb => (hT b hb j).1
  have hk2a : ∀ j, ∀ b ∈ T, key_bindings_cmp P (search_record j key2a) b ≠ 0 :=
    fun j b hb => (hT b hb j).2.1
  have hk2b : ∀ j, ∀ b ∈ T, key_bindings_cmp P (search_record j key2b) b ≠ 0 :=
    fun j b hb => (hT b hb j).2.2
  -- the first call adds the binding of L1 behind the table
  have hadd1 : key_bindings_add P j1 j2 key key2a hs1 cr1 L1 ⟨T, [], []⟩ =
      ⟨T ++ [⟨key, key2a, hs1, cr1, L1⟩], [], []⟩ := by
    unfold key_bindings_add
    rw [key_bindings_remove_absent P j1 key ⟨T, [], []⟩ (hkey j1),
      key_bindings_remove_absent P j2 key2a ⟨T, [], []⟩ (hk2a j2)]
    simp only []
    rw [splay_insert_new _ T _ (fun b hb => by
      rw [key_bindings_cmp_fields]; exact hkey key2a b hb)]
  -- the lookup of the second call finds it and moves it to the dead set
  have hfind : key_bindings_lookup P j3 key ⟨T ++ [⟨key, key2a, hs1, cr1, L1⟩], [], []⟩ =
      some ⟨key, key2a, hs1, cr1, L1⟩ := by
    unfold key_bindings_lookup splay_find
    rw [List.find?_append, List.find?_eq_none.mpr (fun b hb => by simpa using hkey j3 b hb)]
    simp [hj3]
  have hrem : key_bindings_remove P j3 key ⟨T ++ [⟨key, key2a, hs1, cr1, L1⟩], [], []⟩ =
      ⟨T, [⟨key, key2a, hs1, cr1, L1⟩], []⟩ := by
    unfold key_bindings_remove
    rw [hfind]
    simp only []
    have h1 : splay_remove (key_bindings_cmp P) (T ++ [⟨key, key2a, hs1, cr1, L1⟩])
        ⟨key, key2a, hs1, cr1, L1⟩ = T := by
      unfold splay_remove
      rw [List.eraseP_append_right _ (fun b hb => by
        have := hkey key2a b hb
        rw [← key_bindings_cmp_fields P ⟨key, key2a, hs1, cr1, L1⟩ b] at this
        simpa using this)]
      simp [key_bindings_cmp_self]
    have h2 : splay_insert (key_bindings_cmp P) [] ⟨key, key2a, hs1, cr1, L1⟩ =
        [⟨key, key2a, hs1, cr1, L1⟩] := rfl
    rw [h1, h2]
  have hadd2 : key_bindings_add P j3 j4 key key2b hs2 cr2 L2
      ⟨T ++ [⟨key, key2a, hs1, cr1, L1⟩], [], []⟩ =
      ⟨T ++ [⟨key, key2b, hs2, cr2, L2⟩], [⟨key, key2a, hs1, cr1, L1⟩], []⟩ := by
    unfold key_bindings_add
    rw [hrem, key_bindings_remove_absent P j4 key2b _ (hk2b j4)]
    simp only []
    rw [splay_insert_new _ T _ (fun b hb => by
      rw [key_bindings_cmp_fields]; exact hkey key2b b hb)]
  rw [hadd1, hadd2]
  exact ⟨rfl, rfl, rfl, rfl⟩

/-- Witness for C20: in a table that binds `b` (98), with the prefix bit
65536 and the second key 4095 everywhere, binding `a` (97) twice and cleaning
frees the first list only. -/
theorem key_bindings_replace_witness :
    freed_names
      (key_bindings_clean
        (key_bindings_add 65536 4095 0 97 4095 0 0 (one_command "lock-session")
          (key_bindings_add 65536 0 0 97 4095 0 0 (one_command "lock-client")
            ⟨[⟨98, 4095, 0, 0, one_command "lock-server"⟩], [], []⟩))) =
      [["lock-client"]] :=
  (congrArg (fun l => l.map (fun (c : cmd_list) => c.map (fun c => String.mk c.entry.name)))
    (key_bindings_replace 65536 [⟨98, 4095, 0, 0, one_command "lock-server"⟩]
      97 4095 4095 0 0 0 0 (one_command "lock-client") (one_command "lock-session") 0 0 4095 0
      (by
        intro b hb j
        simp only [List.mem_singleton] at hb
        subst hb
        simp only [key_bindings_cmp, search_record]
        refine ⟨?_, ?_, ?_⟩ <;> (rw [if_pos (by decide)]; decide))
      (by decide)).2.1).trans (by decide)

/-! ## Key bindings: C21, C22 -/

/-- C21, at the failing input. In an empty table the key `a` (97) is bound
with the second key 4095. A lookup of `a` whose search record holds 0 in its
unset field `key2` finds nothing, whatever the lookups of the add met; a
lookup that happens to hold 4095 there finds the binding. -/
theorem key_bindings_lookup_after_add (j1 j2 : Int) :
    key_bindings_lookup 65536 0 97
      (key_bindings_add 65536 j1 j2 97 4095 0 0 (one_command "lock-server") ⟨[], [], []⟩)
      = none ∧
    (key_bindings_lookup 65536 4095 97
      (key_bindings_add 65536 j1 j2 97 4095 0 0 (one_command "lock-server")
        ⟨[], [], []⟩)).map (fun bd => (bd.key, bd.key2)) = some (97, 4095) := by
  constructor <;> rfl

/-- C22, at the failing input. The bindings `(a, b)` and `(a, b + prefix bit)`
have equal base values and the second alone requires a prefix: compared in
this order they are equal (0), not greater; in the other order the result is
-1. -/
theorem key_bindings_cmp_plain_prefixed :
    key_bindings_cmp 65536 ⟨97, 98, 0, 0, []⟩ ⟨97, 98 + 65536, 0, 0, []⟩ = 0 ∧
    key_bindings_cmp 65536 ⟨97, 98 + 65536, 0, 0, []⟩ ⟨97, 98, 0, 0, []⟩ = -1 := by
  decide

/-! ## Configuration loader: C23, C24, C25 -/

theorem cfg_after_after {σ : Type} (a b : List cfg_event) (r : cfg_result σ) :
    cfg_after a (cfg_after b r) = cfg_after (a ++ b) r := by
  simp [cfg_after]

theorem cfg_after_ret {σ : Type} (a : List cfg_event) (r : cfg_result σ) :
    (cfg_after a r).ret = r.ret := rfl

theorem cfg_after_n {σ : Type} (a : List cfg_event) (r : cfg_result σ) :
    (cfg_after a r).n = r.n := rfl

theorem cfg_after_state {σ : Type} (a : List cfg_event) (r : cfg_result σ) :
    (cfg_after a r).state = r.state := rfl

theorem cfg_after_trace {σ : Type} (a : List cfg_event) (r : cfg_result σ) :
    (cfg_after a r).trace = a ++ r.trace := rfl

theorem cfg_after_cause {σ : Type} (a : List cfg_event) (r : cfg_result σ) :
    (cfg_after a r).cause = r.cause := rfl

/-- The loop over `pre ++ rest` goes on with `rest` where the loop over `pre`
ended, when that one met no error. -/
theorem load_cfg_loop_append {σ : Type} (E : cfg_env σ) (path : CStr) (ctx : cmd_ctx)
    (pre rest : List (List Char)) (n : Nat) (s : σ)
    (h : (load_cfg_loop E path ctx pre n s).ret = 0) :
    load_cfg_loop E path ctx (pre ++ rest) n s =
      cfg_after (load_cfg_loop E path ctx pre n s).trace
        (load_cfg_loop E path ctx rest (load_cfg_loop E path ctx pre n s).n
          (load_cfg_loop E path ctx pre n s).state) := by
  induction pre generalizing n s with
  | nil => simp [load_cfg_loop, cfg_after]
  | cons l pre ih =>
    rw [List.cons_append]
    rw [load_cfg_loop] at h ⊢
    rw [load_cfg_loop]
    cases hp : E.cmd_string_parse (cfg_line l) with
    | failed c =>
      cases c with
      | none =>
        simp only [hp] at h ⊢
        rw [cfg_after_ret] at h
        rw [ih _ _ h, cfg_after_after]; rfl
      | some c => simp [hp] at h
    | parsed c =>
      cases c with
      | none =>
        simp only [hp] at h ⊢
        rw [cfg_after_ret] at h
        rw [ih _ _ h, cfg_after_after]; rfl
      | some c =>
        simp only [hp] at h ⊢
        cases hc : cfg_cause (E.cmd_list_exec c ctx s).2 with
        | some m => simp [hc] at h
        | none =>
          simp only [hc] at h ⊢
          rw [cfg_after_ret] at h
          rw [ih _ _ h, cfg_after_after]; rfl

/-- Without error the counter ends at the number of lines read, and the
record lists every line as parsed once and every command list as executed
once, in file order. -/
theorem load_cfg_loop_clean {σ : Type} (E : cfg_env σ) (path : CStr) (ctx : cmd_ctx)
    (pre : List (List Char)) (n : Nat) (s : σ)
    (h : (load_cfg_loop E path ctx pre n s).ret = 0)
    (hn : n + pre.length < 4294967296) :
    (load_cfg_loop E path ctx pre n s).n = n + pre.length ∧
    cfg_parsed (load_cfg_loop E path ctx pre n s).trace =
      (cfg_numbered pre n).map (fun nl => (nl.1, cfg_line nl.2)) ∧
    cfg_executed (load_cfg_loop E path ctx pre n s).trace =
      (cfg_numbered pre n).filterMap (cfg_line_cmdlist E) := by
  induction pre generalizing n s with
  | nil => simp [load_cfg_loop, cfg_numbered, cfg_parsed, cfg_executed]
  | cons l pre ih =>
    have hlen : (l :: pre).length = pre.length + 1 := rfl
    have hmod : (n + 1) % 4294967296 = n + 1 := Nat.mod_eq_of_lt (by omega)
    rw [load_cfg_loop] at h ⊢
    rw [hmod] at h ⊢
    cases hp : E.cmd_string_parse (cfg_line l) with
    | failed c =>
      cases c with
      | none =>
        simp only [hp] at h ⊢
        rw [cfg_after_ret] at h
        obtain ⟨h1, h2, h3⟩ := ih (n + 1) s h (by omega)
        refine ⟨by rw [cfg_after_n, h1]; omega, ?_, ?_⟩
        · rw [cfg_after_trace, cfg_numbered, List.map_cons, ← h2]; rfl
        · rw [cfg_after_trace, cfg_numbered, List.filterMap_cons]
          simp only [cfg_line_cmdlist, hp]
          rw [← h3]; rfl
      | some c => simp [hp] at h
    | parsed c =>
      cases c with
      | none =>
        simp only [hp] at h ⊢
        rw [cfg_after_ret] at h
        obtain ⟨h1, h2, h3⟩ := ih (n + 1) s h (by omega)
        refine ⟨by rw [cfg_after_n, h1]; omega, ?_, ?_⟩
        · rw [cfg_after_trace, cfg_numbered, List.map_cons, ← h2]; rfl
        · rw [cfg_after_trace, cfg_numbered, List.filterMap_cons]
          simp only [cfg_line_cmdlist, hp]
          rw [← h3]; rfl
      | some c =>
        simp only [hp] at h ⊢
        cases hc : cfg_cause (E.cmd_list_exec c ctx s).2 with
        | some m => simp [hc] at h
        | none =>
          simp only [hc] at h ⊢
          rw [cfg_after_ret] at h
          obtain ⟨h1, h2, h3⟩ := ih (n + 1) _ h (by omega)
          refine ⟨by rw [cfg_after_n, h1]; omega, ?_, ?_⟩
          · rw [cfg_after_trace, cfg_numbered, List.map_cons, ← h2]; rfl
          · rw [cfg_after_trace, cfg_numbered, List.filterMap_cons]
            simp only [cfg_line_cmdlist, hp]
            rw [← h3]; rfl

theorem cfg_numbered_append (pre rest : List (List Char)) (n : Nat) :
    cfg_numbered (pre ++ rest) n = cfg_numbered pre n ++ cfg_numbered rest (n + pre.length) := by
  induction pre generalizing n with
  | nil => simp [cfg_numbered]
  | cons l pre ih =>
    rw [List.cons_append, cfg_numbered, cfg_numbered, ih, List.length_cons, List.cons_append,
      show n + 1 + pre.length = n + (pre.length + 1) by omega]

theorem cfg_parsed_append (a b : List cfg_event) :
    cfg_parsed (a ++ b) = cfg_parsed a ++ cfg_parsed b := by
  simp [cfg_parsed, List.filterMap_append]

theorem cfg_executed_append (a b : List cfg_event) :
    cfg_executed (a ++ b) = cfg_executed a ++ cfg_executed b := by
  simp [cfg_executed, List.filterMap_append]

/-- A line without final newline is handed to the parser as the same line
with the newline added. -/
theorem cfg_line_unterminated (l : List Char) (h : l.getLast? ≠ some '\n') :
    cfg_line (l ++ ['\n']) = cfg_line l := by
  unfold cfg_line
  rw [if_neg h, if_pos (by simp), List.dropLast_concat]

/-- The loop at a line whose parse gives the message `m`, or whose command
list reports `m` last. -/
theorem load_cfg_loop_error_line {σ : Type} (E : cfg_env σ) (path : CStr) (ctx : cmd_ctx)
    (l : List Char) (post : List (List Char)) (n : Nat) (s : σ) (m : CStr)
    (hl : E.cmd_string_parse (cfg_line l) = .failed (some m) ∨
      ∃ c, E.cmd_string_parse (cfg_line l) = .parsed (some c) ∧
        cfg_cause (E.cmd_list_exec c ctx s).2 = some m) :
    (load_cfg_loop E path ctx (l :: post) n s).ret = 1 ∧
    (load_cfg_loop E path ctx (l :: post) n s).cause =
      some (cfg_error_cause path m ((n + 1) % 4294967296)) ∧
    cfg_parsed (load_cfg_loop E path ctx (l :: post) n s).trace =
      [((n + 1) % 4294967296, cfg_line l)] ∧
    cfg_executed (load_cfg_loop E path ctx (l :: post) n s).trace =
      ([((n + 1) % 4294967296, l)]).filterMap (cfg_line_cmdlist E) := by
  rw [load_cfg_loop]
  rcases hl with hl | ⟨c, hl, hc⟩
  · refine ⟨?_, ?_, ?_, ?_⟩ <;> simp [hl, cfg_line_cmdlist, cfg_parsed, cfg_executed]
  · refine ⟨?_, ?_, ?_, ?_⟩ <;> simp [hl, hc, cfg_line_cmdlist, cfg_parsed, cfg_executed]

/-- C24, counterexample: a line whose command list sends a message to `print`
and one to `info` is executed and the load goes on to return 0 without a
cause. -/
theorem load_cfg_print_counterexample :
    (cfg_env_chatty.cmd_list_exec (one_command "lock-server") ⟨none, none, none⟩ 0).2 =
      [(sink.print, "0: ksh".toList), (sink.info, "done".toList)] ∧
    (load_cfg cfg_env_chatty "tmux.conf".toList (.ok ["lock-server\n".toList]) none 0).ret = 0 ∧
    (load_cfg cfg_env_chatty "tmux.conf".toList (.ok ["lock-server\n".toList]) none 0).cause
      = none ∧
    (cfg_executed (load_cfg cfg_env_chatty "tmux.conf".toList
      (.ok ["lock-server\n".toList]) none 0).trace).map (fun e => e.1) = [1] := by
  refine ⟨by decide, rfl, rfl, rfl⟩

theorem cfg_cause_last (before after : List (sink × CStr)) (m : CStr)
    (h : ∀ x ∈ after, x.1 ≠ sink.error) :
    cfg_cause (before ++ (sink.error, m) :: after) = some m := by
  unfold cfg_cause
  have ha : after.filter (fun m => decide (m.1 = sink.error)) = [] := by
    rw [List.filter_eq_nil_iff]
    intro x hx
    simpa using h x hx
  rw [List.filter_append, List.filter_cons_of_pos (by simp), ha, List.map_append,
    List.map_cons, List.map_nil, List.getLast?_append]
  simp

theorem cfg_cause_none (msgs : List (sink × CStr)) (h : ∀ x ∈ msgs, x.1 ≠ sink.error) :
    cfg_cause msgs = none := by
  unfold cfg_cause
  have ha : msgs.filter (fun m => decide (m.1 = sink.error)) = [] := by
    rw [List.filter_eq_nil_iff]
    intro x hx
    simpa using h x hx
  rw [ha]; rfl

/-- Lines that give no parse message and report no error load without
error, and leave the state that executing their command lists in order
leaves. -/
theorem load_cfg_loop_of_clean {σ : Type} (E : cfg_env σ) (path : CStr) (ctx : cmd_ctx)
    (pre : List (List Char)) :
    ∀ (n : Nat) (s : σ), cfg_clean E ctx pre s = true →
      (load_cfg_loop E path ctx pre n s).ret = 0 ∧
      (load_cfg_loop E path ctx pre n s).state = cfg_state_after E ctx pre s := by
  induction pre with
  | nil => intro n s _; exact ⟨rfl, rfl⟩
  | cons l pre ih =>
    intro n s h
    rw [cfg_clean] at h
    rw [load_cfg_loop, cfg_state_after]
    cases hp : E.cmd_string_parse (cfg_line l) with
    | failed c =>
      cases c with
      | none =>
        simp only [hp] at h ⊢
        rw [cfg_after_ret, cfg_after_state]
        exact ih _ _ h
      | some c => simp [hp] at h
    | parsed c =>
      cases c with
      | none =>
        simp only [hp] at h ⊢
        rw [cfg_after_ret, cfg_after_state]
        exact ih _ _ h
      | some c =>
        simp only [hp, Bool.and_eq_true, List.all_eq_true, decide_eq_true_eq] at h ⊢
        rw [cfg_cause_none _ (fun x hx => h.1 x hx)]
        simp only []
        rw [cfg_after_ret, cfg_after_state]
        exact ih _ _ h.2

theorem cfg_state_after_append {σ : Type} (E : cfg_env σ) (ctx : cmd_ctx)
    (pre rest : List (List Char)) :
    ∀ s : σ, cfg_state_after E ctx (pre ++ rest) s =
      cfg_state_after E ctx rest (cfg_state_after E ctx pre s) := by
  induction pre with
  | nil => intro s; rfl
  | cons l pre ih =>
    intro s
    rw [List.cons_append, cfg_state_after, cfg_state_after]
    cases hp : E.cmd_string_parse (cfg_line l) with
    | failed c => simp only []; exact ih _
    | parsed c =>
      cases c with
      | none => simp only []; exact ih _
      | some c => simp only []; exact ih _

/-- The state at a line that stops the load: what the line executed, if it
was executed, is kept. -/
theorem load_cfg_loop_error_line_state {σ : Type} (E : cfg_env σ) (path : CStr)
    (ctx : cmd_ctx) (l : List Char) (post : List (List Char)) (n : Nat) (s : σ) (m : CStr)
    (hl : E.cmd_string_parse (cfg_line l) = .failed (some m) ∨
      ∃ c, E.cmd_string_parse (cfg_line l) = .parsed (some c) ∧
        cfg_cause (E.cmd_list_exec c ctx s).2 = some m) :
    (load_cfg_loop E path ctx (l :: post) n s).state = cfg_state_after E ctx [l] s := by
  rw [load_cfg_loop, cfg_state_after]
  rcases hl with hl | ⟨c, hl, hc⟩
  · simp only [hl]
    rfl
  · simp only [hl, hc]
    rfl

/-- C23. Let no line of `pre`, taken in order from the state `s`, give a parse
message or have a command list whose execution sends a message to the error
callback, and let the next line `l`, line `pre.length + 1` (a number the
counter `n` can hold, below 2^32), be one whose parse gives the message `m`
or whose command list, executed on the state the lines before it left,
sends `m` as its last message to the error callback. Then `load_cfg` on
`pre ++ l :: post` returns 1 with the cause
`<path>: <m> at line <pre.length + 1>`; the strings parsed are those of the
lines 1 to `pre.length + 1`, once each and in order; the command lists
executed are those these lines parse to, once each and in order; and the
state left is the one that executing these command lists in order leaves,
nothing rolled back: nothing of `post` is parsed or executed. -/
theorem load_cfg_first_error {σ : Type} (E : cfg_env σ) (path : CStr)
    (ctxin : Option cmd_ctx) (s : σ) (pre post : List (List Char)) (l : List Char)
    (m : CStr)
    (hpre : cfg_clean E (ctxin.getD ⟨none, none, none⟩) pre s = true)
    (hk : pre.length + 1 < 4294967296)
    (hl : E.cmd_string_parse (cfg_line l) = .failed (some m) ∨
      ∃ c before after, E.cmd_string_parse (cfg_line l) = .parsed (some c) ∧
        (E.cmd_list_exec c (ctxin.getD ⟨none, none, none⟩)
          (cfg_state_after E (ctxin.getD ⟨none, none, none⟩) pre s)).2 =
            before ++ (sink.error, m) :: after ∧
        ∀ x ∈ after, x.1 ≠ sink.error) :
    (load_cfg E path (.ok (pre ++ l :: post)) ctxin s).ret = 1 ∧
    (load_cfg E path (.ok (pre ++ l :: post)) ctxin s).cause =
      some (path ++ ": ".toList ++ m ++ " at line ".toList ++ utoa (pre.length + 1)) ∧
    cfg_parsed (load_cfg E path (.ok (pre ++ l :: post)) ctxin s).trace =
      (cfg_numbered (pre ++ [l]) 0).map (fun nl => (nl.1, cfg_line nl.2)) ∧
    cfg_executed (load_cfg E path (.ok (pre ++ l :: post)) ctxin s).trace =
      (cfg_numbered (pre ++ [l]) 0).filterMap (cfg_line_cmdlist E) ∧
    (load_cfg E path (.ok (pre ++ l :: post)) ctxin s).state =
      cfg_state_after E (ctxin.getD ⟨none, none, none⟩) (pre ++ [l]) s := by
  simp only [load_cfg]
  obtain ⟨hret, hstate⟩ := load_cfg_loop_of_clean E path _ pre 0 s hpre
  have hl2 : E.cmd_string_parse (cfg_line l) = .failed (some m) ∨
      ∃ c, E.cmd_string_parse (cfg_line l) = .parsed (some c) ∧
        cfg_cause (E.cmd_list_exec c (ctxin.getD ⟨none, none, none⟩)
          (load_cfg_loop E path (ctxin.getD ⟨none, none, none⟩) pre 0 s).state).2 =
            some m := by
    rcases hl with hl | ⟨c, before, after, hp, hm, ha⟩
    · exact Or.inl hl
    · refine Or.inr ⟨c, hp, ?_⟩
      rw [hstate, hm]
      exact cfg_cause_last before after m ha
  obtain ⟨h1, h2, h3⟩ := load_cfg_loop_clean E path _ pre 0 s hret (by omega)
  obtain ⟨e1, e2, e3, e4⟩ :=
    load_cfg_loop_error_line E path _ l post (0 + pre.length) _ m hl2
  have e5 := load_cfg_loop_error_line_state E path _ l post (0 + pre.length) _ m hl2
  have hmod : (0 + pre.length + 1) % 4294967296 = pre.length + 1 := by
    rw [Nat.zero_add]; exact Nat.mod_eq_of_lt (by omega)
  rw [hmod] at e2 e3 e4
  rw [load_cfg_loop_append E path _ pre (l :: post) 0 s hret, h1]
  refine ⟨by rw [cfg_after_ret]; exact e1, by rw [cfg_after_cause, e2]; rfl, ?_, ?_, ?_⟩
  · rw [cfg_after_trace, cfg_parsed_append, h2, e3, cfg_numbered_append, List.map_append]
    simp [cfg_numbered]
  · rw [cfg_after_trace, cfg_executed_append, h3, e4, cfg_numbered_append,
      List.filterMap_append]
    simp [cfg_numbered]
  · rw [cfg_after_state, e5, hstate, cfg_state_after_append]

/-- C23, witness: a script of three lines whose line 2 is an unknown command,
with a command layer that counts the commands it runs: the cause names line
2, and one command has been run, the one of line 1. -/
theorem load_cfg_first_error_witness :
    cfg_clean cfg_env_simple ⟨none, none, none⟩ ["lock-server\n".toList] 0 = true ∧
    cfg_env_simple.cmd_string_parse (cfg_line "bogus\n".toList) =
      .failed (some "unknown command: bogus".toList) ∧
    (load_cfg cfg_env_simple "tmux.conf".toList
      (.ok (["lock-server\n".toList] ++ "bogus\n".toList :: ["lock-server\n".toList]))
      none 0).ret = 1 ∧
    (load_cfg cfg_env_simple "tmux.conf".toList
      (.ok (["lock-server\n".toList] ++ "bogus\n".toList :: ["lock-server\n".toList]))
      none 0).cause = some "tmux.conf: unknown command: bogus at line 2".toList ∧
    cfg_parsed (load_cfg cfg_env_simple "tmux.conf".toList
      (.ok (["lock-server\n".toList] ++ "bogus\n".toList :: ["lock-server\n".toList]))
      none 0).trace = [(1, "lock-server".toList), (2, "bogus".toList)] ∧
    (cfg_executed (load_cfg cfg_env_simple "tmux.conf".toList
      (.ok (["lock-server\n".toList] ++ "bogus\n".toList :: ["lock-server\n".toList]))
      none 0).trace).map (fun e => e.1) = [1] ∧
    (load_cfg cfg_env_simple "tmux.conf".toList
      (.ok (["lock-server\n".toList] ++ "bogus\n".toList :: ["lock-server\n".toList]))
      none 0).state = 1 :=
  have h := load_cfg_first_error cfg_env_simple "tmux.conf".toList none 0
    ["lock-server\n".toList] ["lock-server\n".toList] "bogus\n".toList
    "unknown command: bogus".toList (by decide) (by decide) (Or.inl rfl)
  ⟨by decide, rfl, h.1, h.2.1.trans (by decide), h.2.2.1.trans (by decide),
    (congrArg (fun t => t.map (fun e => e.1)) h.2.2.2.1).trans rfl,
    h.2.2.2.2.trans (by decide)⟩

/-- C24, amended. For a line that parses to the command list `c`, run in the
state `s` with `n` lines read before it: if the last message its execution
sends to the error callback is `m`, whatever goes to `print` and `info`, the
load stops there and returns 1 with `<path>: <m> at line <n + 1>`; if the
execution sends nothing to the error callback, whatever goes to `print` and
`info`, the load goes on with the next line in the state the execution
left. -/
theorem load_cfg_error_sink_only {σ : Type} (E : cfg_env σ) (path : CStr) (ctx : cmd_ctx)
    (l : List Char) (rest : List (List Char)) (n : Nat) (s : σ) (c : cmd_list)
    (hn : n + 1 < 4294967296)
    (hp : E.cmd_string_parse (cfg_line l) = .parsed (some c)) :
    (∀ before after m, (E.cmd_list_exec c ctx s).2 = before ++ (sink.error, m) :: after →
      (∀ x ∈ after, x.1 ≠ sink.error) →
      load_cfg_loop E path ctx (l :: rest) n s =
        ⟨1, some (path ++ ": ".toList ++ m ++ " at line ".toList ++ utoa (n + 1)), n + 1,
          (E.cmd_list_exec c ctx s).1, [.parse (n + 1) (cfg_line l), .exec (n + 1) c]⟩) ∧
    ((∀ x ∈ (E.cmd_list_exec c ctx s).2, x.1 ≠ sink.error) →
      load_cfg_loop E path ctx (l :: rest) n s =
        cfg_after [.parse (n + 1) (cfg_line l), .exec (n + 1) c]
          (load_cfg_loop E path ctx rest (n + 1) (E.cmd_list_exec c ctx s).1)) := by
  have hmod : (n + 1) % 4294967296 = n + 1 := Nat.mod_eq_of_lt hn
  constructor
  · intro before after m hm ha
    have hc : cfg_cause (E.cmd_list_exec c ctx s).2 = some m := by
      rw [hm]; exact cfg_cause_last before after m ha
    rw [load_cfg_loop, hmod]
    simp only [hp, hc]
    rfl
  · intro ha
    have hc : cfg_cause (E.cmd_list_exec c ctx s).2 = none := cfg_cause_none _ ha
    rw [load_cfg_loop, hmod]
    simp only [hp, hc]

/-- C24, witness: a command layer that reports two errors (the second is the
cause), and one that only prints (the load goes on). -/
theorem load_cfg_error_sink_only_witness :
    (load_cfg_loop cfg_env_failing "tmux.conf".toList ⟨none, none, none⟩
        ["lock-server\n".toList, "lock\n".toList] 0 0).cause =
      some "tmux.conf: server locked at line 1".toList ∧
    load_cfg_loop cfg_env_chatty "tmux.conf".toList ⟨none, none, none⟩
        ["lock-server\n".toList, "lock\n".toList] 0 0 =
      cfg_after [.parse 1 "lock-server".toList, .exec 1 [lock_server_cmd]]
        (load_cfg_loop cfg_env_chatty "tmux.conf".toList ⟨none, none, none⟩
          ["lock\n".toList] 1 1) :=
  ⟨(congrArg cfg_result.cause
      ((load_cfg_error_sink_only cfg_env_failing "tmux.conf".toList ⟨none, none, none⟩
        "lock-server\n".toList ["lock\n".toList] 0 0 [lock_server_cmd]
        (by decide) rfl).1
        [(sink.error, "no current client".toList), (sink.print, "0: ksh".toList)] []
          "server locked".toList rfl (by decide))).trans (by decide),
   (load_cfg_error_sink_only cfg_env_chatty "tmux.conf".toList ⟨none, none, none⟩
      "lock-server\n".toList ["lock\n".toList] 0 0 [lock_server_cmd]
      (by decide) rfl).2 (by decide)⟩

/-- The loop depends on a line only through the string handed to the
parser. -/
theorem load_cfg_loop_last_line {σ : Type} (E : cfg_env σ) (path : CStr) (ctx : cmd_ctx)
    (pre : List (List Char)) (l k : List Char) (n : Nat) (s : σ)
    (h : cfg_line l = cfg_line k) :
    load_cfg_loop E path ctx (pre ++ [l]) n s = load_cfg_loop E path ctx (pre ++ [k]) n s := by
  induction pre generalizing n s with
  | nil =>
    simp only [List.nil_append, load_cfg_loop, h]
  | cons x pre ih =>
    rw [List.cons_append, List.cons_append, load_cfg_loop, load_cfg_loop]
    simp only [ih]

/-- C25, counterexample: the file is the single line `lock-server` without
terminator. The line is handed to the parser and its command is executed. -/
theorem load_cfg_unterminated_counterexample :
    cfg_parsed (load_cfg cfg_env_simple "tmux.conf".toList (.ok ["lock-server".toList])
      none 0).trace = [(1, "lock-server".toList)] ∧
    (cfg_executed (load_cfg cfg_env_simple "tmux.conf".toList (.ok ["lock-server".toList])
      none 0).trace).map (fun e => (e.1, e.2.map (fun c => c.entry.name))) =
        [(1, ["lock-server".toList])] ∧
    (load_cfg cfg_env_simple "tmux.conf".toList (.ok ["lock-server".toList]) none 0).state
      = 1 := by
  refine ⟨by decide, by decide, rfl⟩

/-- C25, amended. A last line without terminator is copied into the line
buffer with a NUL after it, and the copy is parsed and executed as any other
line: the load does exactly what it does on the file in which that line ends
with a newline. -/
theorem load_cfg_unterminated_last_line {σ : Type} (E : cfg_env σ) (path : CStr)
    (ctxin : Option cmd_ctx) (s : σ) (pre : List (List Char)) (l : List Char)
    (h : l.getLast? ≠ some '\n') :
    load_cfg E path (.ok (pre ++ [l])) ctxin s =
      load_cfg E path (.ok (pre ++ [l ++ ['\n']])) ctxin s := by
  simp only [load_cfg]
  exact load_cfg_loop_last_line E path _ pre l (l ++ ['\n']) 0 s
    (cfg_line_unterminated l h).symm

/-- C25, witness: a comment line followed by `bogus` without terminator. -/
theorem load_cfg_unterminated_last_line_witness :
    "bogus".toList.getLast? ≠ some '\n' ∧
    load_cfg cfg_env_simple "tmux.conf".toList
        (.ok (["# locks\n".toList] ++ ["bogus".toList])) none 0 =
      load_cfg cfg_env_simple "tmux.conf".toList
        (.ok (["# locks\n".toList] ++ ["bogus".toList ++ ['\n']])) none 0 ∧
    (load_cfg cfg_env_simple "tmux.conf".toList
        (.ok (["# locks\n".toList] ++ ["bogus".toList])) none 0).cause =
      some "tmux.conf: unknown command: bogus at line 2".toList :=
  ⟨by decide,
   load_cfg_unterminated_last_line cfg_env_simple "tmux.conf".toList none 0
     ["# locks\n".toList] "bogus".toList (by decide),
   by decide⟩

/-! ## The client loop: C26, C27, C28, C29 -/

/-- The loop from `restart`, one decode at a time. -/
theorem client_restart_succ (W : wire) (cm : Int) (fuel : Nat) (st : client_loop) :
    client_restart W cm (fuel + 1) st =
      match client_step W cm st with
      | .wait => st
      | .stop s => s
      | .next s => client_restart W cm fuel s := by
  rw [client_restart, client_step]
  by_cases h1 : st.srv_in.length < W.hdr_size
  · simp only [if_pos h1]
  · simp only [if_neg h1]
    by_cases h2 : st.srv_in.length <
        (W.hdr_size + (W.read_hdr (st.srv_in.take W.hdr_size)).size) % SIZE_MOD
    · simp only [if_pos h2]
    · simp only [if_neg h2]
      cases (W.read_hdr (st.srv_in.take W.hdr_size)).type <;> simp only [] <;>
        split_ifs <;> rfl

/-- A decode that jumps to `restart` has removed a header and a print record
and keeps the status. -/
theorem client_step_next (W : wire) (cm : Int) (st s : client_loop)
    (h : client_step W cm st = .next s) :
    s.srv_in = (st.srv_in.drop W.hdr_size).drop W.print_size ∧
    W.hdr_size + W.print_size ≤ st.srv_in.length ∧ s.status = st.status := by
  unfold client_step at h
  split at h
  · cases h
  · split at h
    · cases h
    · rename_i h1 h2
      cases ht : (W.read_hdr (st.srv_in.take W.hdr_size)).type <;> simp only [ht] at h <;>
        first
        | cases h
        | (split at h
           · cases h
           · split at h
             · cases h
             · rename_i h3 h4
               rw [buffer_underflow, List.length_drop] at h4
               injection h with h
               subst h
               exact ⟨rfl, by omega, rfl⟩)

/-- A decode that leaves the loop leaves it with the buffer gone and a status
other than `polling`. -/
theorem client_step_stop (W : wire) (cm : Int) (st s : client_loop)
    (h : client_step W cm st = .stop s) :
    s.srv_in = [] ∧ s.status ≠ .polling := by
  unfold client_step at h
  split at h
  · cases h
  · split at h
    · cases h
    · cases ht : (W.read_hdr (st.srv_in.take W.hdr_size)).type <;> simp only [ht] at h <;>
        first
        | (injection h with h; subst h; exact ⟨rfl, by simp⟩)
        | (split at h
           · injection h with h; subst h; exact ⟨rfl, by simp⟩
           · split at h
             · injection h with h; subst h; exact ⟨rfl, by simp⟩
             · cases h)

/-- Enough fuel: the loop from `restart` does not depend on the bound once it
exceeds the number of bytes buffered. -/
theorem client_restart_fuel (W : wire) (cm : Int) (hW : 0 < W.hdr_size) (n : Nat) :
    ∀ (m : Nat) (st : client_loop), st.srv_in.length < n → st.srv_in.length < m →
      client_restart W cm n st = client_restart W cm m st := by
  induction n with
  | zero => intro m st h; omega
  | succ n ih =>
    intro m st hn hm
    obtain ⟨m, rfl⟩ : ∃ k, m = k + 1 := ⟨m - 1, by omega⟩
    rw [client_restart_succ, client_restart_succ]
    cases hs : client_step W cm st with
    | wait => rfl
    | stop s => rfl
    | next s =>
      simp only []
      obtain ⟨h1, h2, _⟩ := client_step_next W cm st s hs
      have hl : s.srv_in.length + (W.hdr_size + W.print_size) = st.srv_in.length := by
        rw [h1, List.length_drop, List.length_drop]; omega
      exact ih m s (by omega) (by omega)

theorem print_text_fed (W : wire) (b c : List Char) (h : W.print_size ≤ b.length) :
    print_text W (b ++ c) = print_text W b := by
  unfold print_text
  rw [List.take_append_of_le_length h]

/-- More bytes behind a message do not change its decode, unless the decode
ended in an underflow. -/
theorem client_step_fed (W : wire) (cm : Int) (st : client_loop) (c : List Char) :
    (∀ s, client_step W cm st = .next s →
      client_step W cm (client_fed st c) = .next (client_fed s c)) ∧
    (∀ s, client_step W cm st = .stop s → s.status ≠ .fatal "underflow".toList →
      client_step W cm (client_fed st c) = .stop s) := by
  unfold client_step client_fed
  by_cases h1 : st.srv_in.length < W.hdr_size
  · simp only [if_pos h1]
    exact ⟨fun s h => (by cases h), fun s h => (by cases h)⟩
  · by_cases h2 : st.srv_in.length <
        (W.hdr_size + (W.read_hdr (st.srv_in.take W.hdr_size)).size) % SIZE_MOD
    · simp only [if_neg h1, if_pos h2]
      exact ⟨fun s h => (by cases h), fun s h => (by cases h)⟩
    · have e1 : (st.srv_in ++ c).take W.hdr_size = st.srv_in.take W.hdr_size :=
        List.take_append_of_le_length (by omega)
      have n1 : ¬ (st.srv_in ++ c).length < W.hdr_size := by
        rw [List.length_append]; omega
      have n2 : ¬ (st.srv_in ++ c).length <
          (W.hdr_size + (W.read_hdr (st.srv_in.take W.hdr_size)).size) % SIZE_MOD := by
        rw [List.length_append]; omega
      have e2 : (st.srv_in ++ c).drop W.hdr_size = st.srv_in.drop W.hdr_size ++ c :=
        List.drop_append_of_le_length (by omega)
      simp only [if_neg h1, if_neg h2, if_neg n1, e1, if_neg n2, e2]
      cases (W.read_hdr (st.srv_in.take W.hdr_size)).type <;> simp only [] <;>
        first
        | exact ⟨fun s h => (by cases h), fun s h _ => h⟩
        | skip
      all_goals
        by_cases h3 : (W.read_hdr (st.srv_in.take W.hdr_size)).size < W.print_size
        · simp only [if_pos h3]
          exact ⟨fun s h => (by cases h), fun s h _ => h⟩
        · by_cases h4 : (st.srv_in.drop W.hdr_size).length < W.print_size
          · simp only [if_neg h3, if_pos h4]
            refine ⟨fun s h => (by cases h), fun s h hs => ?_⟩
            injection h with h
            subst h
            exact absurd rfl hs
          · have n4 : ¬ (st.srv_in.drop W.hdr_size ++ c).length < W.print_size := by
              rw [List.length_append]; omega
            have e3 : (st.srv_in.drop W.hdr_size ++ c).drop W.print_size =
                (st.srv_in.drop W.hdr_size).drop W.print_size ++ c :=
              List.drop_append_of_le_length (by omega)
            have e4 : print_text W (st.srv_in.drop W.hdr_size ++ c) =
                print_text W (st.srv_in.drop W.hdr_size) :=
              print_text_fed W _ c (by omega)
            simp only [if_neg h3, if_neg h4, if_neg n4, e3, e4]
            refine ⟨fun s h => ?_, fun s h => (by cases h)⟩
            injection h with h
            subst h
            rfl

/-- Feeding bytes after a decode step that ended without underflow gives the
decode step of the buffer with the bytes added. -/
theorem client_wake_restart (W : wire) (cm : Int) (hW : 0 < W.hdr_size) (c : List Char)
    (n : Nat) :
    ∀ st : client_loop, st.srv_in.length < n → st.status = .polling →
      (client_restart W cm n st).status ≠ .fatal "underflow".toList →
      client_wake W cm (some c) (client_restart W cm n st) =
        client_restart W cm (n + c.length) (client_fed st c) := by
  induction n with
  | zero => intro st h; omega
  | succ n ih =>
    intro st hn hp hu
    rw [show n + 1 + c.length = (n + c.length) + 1 by omega]
    rw [client_restart_succ] at hu ⊢
    rw [client_restart_succ]
    cases hs : client_step W cm st with
    | wait =>
      simp only [hs] at hu ⊢
      have hw : client_wake W cm (some c) st = client_decode W cm (client_fed st c) := by
        cases st
        simp only at hp
        subst hp
        rfl
      rw [hw, client_decode, ← client_restart_succ]
      exact client_restart_fuel W cm hW _ _ _ (by omega)
        (by simp only [client_fed, List.length_append]; omega)
    | stop s =>
      simp only [hs] at hu ⊢
      rw [(client_step_fed W cm st c).2 s hs hu]
      simp only []
      have hne := (client_step_stop W cm st s hs).2
      unfold client_wake
      cases hst : s.status with
      | polling => exact absurd hst hne
      | out => rfl
      | fatal m => rfl
    | next s =>
      simp only [hs] at hu ⊢
      rw [(client_step_fed W cm st c).1 s hs]
      simp only []
      obtain ⟨h1, h2, h3⟩ := client_step_next W cm st s hs
      have hl : s.srv_in.length + (W.hdr_size + W.print_size) = st.srv_in.length := by
        rw [h1, List.length_drop, List.length_drop]; omega
      exact ih s (by omega) (by rw [h3, hp]) hu

/-- On a prefix of the bytes of well-formed messages the decode step never
reads more than is buffered. -/
theorem client_restart_no_underflow (W : wire) (cm : Int) (hW : 0 < W.hdr_size)
    (msgs : List message) (hwf : ∀ m ∈ msgs, well_formed W m) :
    ∀ (P t : List Char) (n : Nat) (rc : Int) (hd : List (msgtype × CStr)),
      P ++ t = wire_bytes msgs → P.length < n →
      (client_restart W cm n ⟨P, rc, hd, .polling⟩).status ≠ .fatal "underflow".toList := by
  induction msgs with
  | nil =>
    intro P t n rc hd hP hn
    obtain ⟨n, rfl⟩ : ∃ k, n = k + 1 := ⟨n - 1, by omega⟩
    have hnil : P = [] := (List.append_eq_nil.mp hP).1
    subst hnil
    have hs : client_step W cm ⟨[], rc, hd, .polling⟩ = .wait := by
      unfold client_step
      rw [if_pos (by simpa using hW)]
    rw [client_restart_succ, hs]
    simp
  | cons m ms ih =>
    intro P t n rc hd hP hn
    obtain ⟨n, rfl⟩ : ∃ k, n = k + 1 := ⟨n - 1, by omega⟩
    obtain ⟨hlen, hsize, hnw, hps⟩ := hwf m (List.mem_cons_self _ _)
    rw [client_restart_succ]
    by_cases h1 : P.length < W.hdr_size
    · have hs : client_step W cm ⟨P, rc, hd, .polling⟩ = .wait := by
        unfold client_step
        rw [if_pos h1]
      rw [hs]; simp
    · have hbytes : P ++ t = m.header ++ (m.payload ++ wire_bytes ms) := by
        rw [hP, wire_bytes, List.append_assoc]
      have hhead : P.take W.hdr_size = m.header := by
        have e := congrArg (List.take W.hdr_size) hbytes
        rw [List.take_append_of_le_length (by omega), List.take_left' hlen] at e
        exact e
      have hmod : (W.hdr_size + m.payload.length) % SIZE_MOD = W.hdr_size + m.payload.length :=
        Nat.mod_eq_of_lt hnw
      by_cases h2 : P.length < W.hdr_size + m.payload.length
      · have hs : client_step W cm ⟨P, rc, hd, .polling⟩ = .wait := by
          unfold client_step
          simp only [if_neg h1, hhead, hsize, hmod, if_pos h2]
        rw [hs]; simp
      · have hrest : ∀ k, k = W.hdr_size + m.payload.length →
            P.drop k ++ t = wire_bytes ms := by
          intro k hk
          have e := congrArg (List.drop k) hP
          rw [List.drop_append_of_le_length (by omega), wire_bytes,
            List.drop_left' (by rw [List.length_append, hlen, hk])] at e
          exact e
        have hstep : client_step W cm ⟨P, rc, hd, .polling⟩ =
            match (W.read_hdr m.header).type with
            | .MSG_EXIT => .stop ⟨[], rc, hd ++ [(.MSG_EXIT, [])], .out⟩
            | .MSG_SHUTDOWN => .stop ⟨[], rc, hd ++ [(.MSG_SHUTDOWN, [])], .out⟩
            | .MSG_ERROR =>
              if m.payload.length < W.print_size then
                .stop ⟨[], 1, hd, .fatal "bad MSG_PRINT size".toList⟩
              else if (P.drop W.hdr_size).length < W.print_size then
                .stop ⟨[], 1, hd, .fatal "underflow".toList⟩
              else
                .next ⟨(P.drop W.hdr_size).drop W.print_size, 1,
                  hd ++ [(.MSG_ERROR, print_text W (P.drop W.hdr_size))], .polling⟩
            | .MSG_PRINT =>
              if m.payload.length < W.print_size then
                .stop ⟨[], rc, hd, .fatal "bad MSG_PRINT size".toList⟩
              else if (P.drop W.hdr_size).length < W.print_size then
                .stop ⟨[], rc, hd, .fatal "underflow".toList⟩
              else
                .next ⟨(P.drop W.hdr_size).drop W.print_size, rc,
                  hd ++ [(.MSG_PRINT, print_text W (P.drop W.hdr_size))], .polling⟩
            | .MSG_READY => .stop ⟨[], cm, hd ++ [(.MSG_READY, [])], .out⟩
            | .other _ => .stop ⟨[], rc, hd, .fatal "unexpected command".toList⟩ := by
          unfold client_step
          simp only [if_neg h1, hhead, hsize, hmod, if_neg h2]
        rw [hstep]
        cases ht : (W.read_hdr m.header).type with
        | MSG_EXIT => simp
        | MSG_SHUTDOWN => simp
        | MSG_READY => simp
        | other k => simp only []; decide
        | MSG_ERROR =>
          simp only []
          by_cases h3 : m.payload.length < W.print_size
          · simp only [if_pos h3]; decide
          · have hle := hps (Or.inr ht)
            have h4 : ¬ (P.drop W.hdr_size).length < W.print_size := by
              rw [List.length_drop]; omega
            simp only [if_neg h3, if_neg h4]
            refine ih (fun x hx => hwf x (List.mem_cons_of_mem _ hx)) _ t n 1 _ ?_ ?_
            · rw [List.drop_drop]
              exact hrest _ (by omega)
            · rw [List.length_drop, List.length_drop]; omega
        | MSG_PRINT =>
          simp only []
          by_cases h3 : m.payload.length < W.print_size
          · simp only [if_pos h3]; decide
          · have hle := hps (Or.inl ht)
            have h4 : ¬ (P.drop W.hdr_size).length < W.print_size := by
              rw [List.length_drop]; omega
            simp only [if_neg h3, if_neg h4]
            refine ih (fun x hx => hwf x (List.mem_cons_of_mem _ hx)) _ t n rc _ ?_ ?_
            · rw [List.drop_drop]
              exact hrest _ (by omega)
            · rw [List.length_drop, List.length_drop]; omega

/-- The loop fed chunk after chunk, from the state the decode step reaches on
the bytes `P`, ends as the decode step on all the bytes. -/
theorem client_loop_run_chunks (W : wire) (cm : Int) (hW : 0 < W.hdr_size)
    (msgs : List message) (hwf : ∀ m ∈ msgs, well_formed W m) (chunks : List (List Char)) :
    ∀ (P t : List Char), P ++ chunk_bytes chunks ++ t = wire_bytes msgs →
      client_loop_run W cm (chunks.map some) (client_decode W cm ⟨P, 0, [], .polling⟩) =
        client_decode W cm ⟨P ++ chunk_bytes chunks, 0, [], .polling⟩ := by
  induction chunks with
  | nil =>
    intro P t _
    simp [client_loop_run, chunk_bytes]
  | cons c cs ih =>
    intro P t hP
    rw [List.map_cons, client_loop_run]
    have hu : (client_restart W cm (P.length + 1) ⟨P, 0, [], .polling⟩).status ≠
        .fatal "underflow".toList :=
      client_restart_no_underflow W cm hW msgs hwf P (chunk_bytes (c :: cs) ++ t)
        (P.length + 1) 0 [] (by rw [← List.append_assoc]; exact hP) (by omega)
    have hw := client_wake_restart W cm hW c (P.length + 1) ⟨P, 0, [], .polling⟩
      (by simp) rfl hu
    have hd : client_wake W cm (some c) (client_decode W cm ⟨P, 0, [], .polling⟩) =
        client_decode W cm ⟨P ++ c, 0, [], .polling⟩ := by
      rw [client_decode, hw, client_decode]
      exact client_restart_fuel W cm hW _ _ _
        (by simp only [client_fed, List.length_append]; omega)
        (by simp only [client_fed, List.length_append]; omega)
    rw [hd, ih (P ++ c) t (by rw [← hP, chunk_bytes]; simp [List.append_assoc])]
    rw [chunk_bytes, List.append_assoc]

/-- C27. For the bytes of well-formed messages (each header declares the
length of its payload, header and payload fit in `size_t`, no print or error
message is longer than the print record) and every way of cutting them into
chunks read on successive turns, the client loop ends in the state in which
it ends when all the bytes are read in one turn: the same messages
dispatched with the same texts in the same order, the same `retcode`, the
same status. -/
theorem client_loop_chunking (W : wire) (cm : Int) (hW : 0 < W.hdr_size)
    (msgs : List message) (hwf : ∀ m ∈ msgs, well_formed W m)
    (chunks : List (List Char)) (hc : chunk_bytes chunks = wire_bytes msgs) :
    client_loop_run W cm (chunks.map some) client_start =
      client_wake W cm (some (wire_bytes msgs)) client_start := by
  have h0 : client_decode W cm ⟨[], 0, [], .polling⟩ = client_start := by
    rw [client_decode, client_restart_succ]
    have hs : client_step W cm ⟨[], 0, [], .polling⟩ = .wait := by
      unfold client_step
      rw [if_pos (by simpa using hW)]
    rw [hs]; rfl
  have h := client_loop_run_chunks W cm hW msgs hwf chunks [] [] (by simp [hc])
  rw [h0, List.nil_append, hc] at h
  rw [h]
  rfl

/-- C27, witness: a print, an error and an exit message, cut inside the first
header, inside the first payload and inside the second header. -/
theorem client_loop_chunking_witness :
    (0 < wire_simple.hdr_size) ∧
    (∀ m ∈ example_stream, well_formed wire_simple m) ∧
    chunk_bytes [(wire_bytes example_stream).take 3,
      ((wire_bytes example_stream).drop 3).take 8,
      ((wire_bytes example_stream).drop 11).take 7,
      (wire_bytes example_stream).drop 18] = wire_bytes example_stream ∧
    client_loop_run wire_simple 0
      ([(wire_bytes example_stream).take 3,
        ((wire_bytes example_stream).drop 3).take 8,
        ((wire_bytes example_stream).drop 11).take 7,
        (wire_bytes example_stream).drop 18].map some) client_start =
      client_wake wire_simple 0 (some (wire_bytes example_stream)) client_start ∧
    client_wake wire_simple 0 (some (wire_bytes example_stream)) client_start =
      ⟨[], 1, [(.MSG_PRINT, "hi".toList), (.MSG_ERROR, "no".toList), (.MSG_EXIT, [])],
        .out⟩ :=
  ⟨by decide, by decide, by decide,
   client_loop_chunking wire_simple 0 (by decide) example_stream (by decide)
     [(wire_bytes example_stream).take 3,
      ((wire_bytes example_stream).drop 3).take 8,
      ((wire_bytes example_stream).drop 11).take 7,
      (wire_bytes example_stream).drop 18] (by decide),
   by decide⟩

/-- A buffer that holds less than a header, or a header and less than the
payload it declares, is left as it is by the decode step, provided header
size and declared length add up within `size_t`. -/
theorem client_decode_partial (W : wire) (cm : Int) (st : client_loop)
    (h : st.srv_in.length < W.hdr_size ∨
      (W.hdr_size + (W.read_hdr (st.srv_in.take W.hdr_size)).size < SIZE_MOD ∧
        st.srv_in.length < W.hdr_size + (W.read_hdr (st.srv_in.take W.hdr_size)).size)) :
    client_decode W cm st = st := by
  rw [client_decode, client_restart_succ]
  have hs : client_step W cm st = .wait := by
    unfold client_step
    by_cases h1 : st.srv_in.length < W.hdr_size
    · rw [if_pos h1]
    · rcases h with h | ⟨h2, h3⟩
      · exact absurd h h1
      · rw [if_neg h1, Nat.mod_eq_of_lt h2, if_pos h3]
  rw [hs]

/-- C26, at the failing input. The buffer holds a complete header of nine
bytes that declares a payload of 2^64 - 1 bytes, and no byte of payload.
With the type `MSG_EXIT` the decode step removes the header, dispatches the
message and leaves the loop; with the type `MSG_ERROR` it removes the header,
sets `retcode` to 1 and ends in a fatal error. -/
theorem client_decode_wrapping_size :
    (hdr_bytes 0 18446744073709551615).length = wire_simple.hdr_size ∧
    (wire_simple.read_hdr (hdr_bytes 0 18446744073709551615)).size
      = 18446744073709551615 ∧
    client_decode wire_simple 0 ⟨hdr_bytes 0 18446744073709551615, 0, [], .polling⟩
      = ⟨[], 0, [(.MSG_EXIT, [])], .out⟩ ∧
    client_decode wire_simple 0 ⟨hdr_bytes 2 18446744073709551615, 0, [], .polling⟩
      = ⟨[], 1, [], .fatal "underflow".toList⟩ := by
  decide

/-- C28, at the failing input. The buffer holds a print message whose header
declares five bytes of payload, one more than the print record of four, and
the five bytes. The decode step logs `abc`, removes the header and four
bytes, and goes back to `poll` with the fifth byte at the front of the
buffer; when an exit message follows in the buffer, the next header is
decoded from that fifth byte on and the loop ends on an unexpected type
instead of the exit message. -/
theorem client_decode_oversized_print :
    client_decode wire_simple 0 ⟨hdr_bytes 3 5 ++ "abcde".toList, 0, [], .polling⟩
      = ⟨['e'], 0, [(.MSG_PRINT, "abc".toList)], .polling⟩ ∧
    client_decode wire_simple 0
        ⟨hdr_bytes 3 5 ++ "abcde".toList ++ hdr_bytes 0 0, 0, [], .polling⟩
      = ⟨[], 0, [(.MSG_PRINT, "abc".toList)], .fatal "unexpected command".toList⟩ := by
  decide

/-- C29, counterexample: an error message followed by a ready message, with
`client_main` returning 0. The error message is dispatched and the loop ends
at `out` with `retcode` 0. -/
theorem client_loop_retcode_counterexample :
    client_loop_run wire_simple 0
        [some (wire_bytes [simple_message 2 "no\x00\x00", simple_message 4 ""])]
        client_start
      = ⟨[], 0, [(.MSG_ERROR, "no".toList), (.MSG_READY, [])], .out⟩ := by
  decide

/-- One decode keeps the relation between `retcode` and the messages
dispatched. -/
theorem client_step_retcode (W : wire) (cm : Int) (st : client_loop)
    (hr : msgtype.MSG_READY ∉ handled_types st)
    (hc : st.retcode = if msgtype.MSG_ERROR ∈ handled_types st then 1 else 0) :
    match client_step W cm st with
    | .wait => True
    | .stop s => s.status = .out → s.retcode = retcode_of cm (handled_types s)
    | .next s => s.status = st.status ∧ msgtype.MSG_READY ∉ handled_types s ∧
        s.retcode = if msgtype.MSG_ERROR ∈ handled_types s then 1 else 0 := by
  unfold client_step
  unfold handled_types at hr hc
  by_cases h1 : st.srv_in.length < W.hdr_size
  · simp only [if_pos h1]
  · by_cases h2 : st.srv_in.length <
        (W.hdr_size + (W.read_hdr (st.srv_in.take W.hdr_size)).size) % SIZE_MOD
    · simp only [if_neg h1, if_pos h2]
    · simp only [if_neg h1, if_neg h2]
      cases (W.read_hdr (st.srv_in.take W.hdr_size)).type <;> simp only [] <;>
        (try split_ifs) <;>
        simp only [handled_types, retcode_of, List.map_append, List.map_cons, List.map_nil,
          List.mem_append, List.mem_singleton, hc] <;>
        (try split_ifs) <;>
        simp_all

/-- The loop from `restart` keeps the relation between `retcode` and the
messages dispatched. -/
theorem client_restart_retcode (W : wire) (cm : Int) (n : Nat) :
    ∀ st : client_loop, st.status = .polling →
      msgtype.MSG_READY ∉ handled_types st →
      (st.retcode = if msgtype.MSG_ERROR ∈ handled_types st then 1 else 0) →
      ((client_restart W cm n st).status = .polling →
        msgtype.MSG_READY ∉ handled_types (client_restart W cm n st) ∧
        (client_restart W cm n st).retcode =
          if msgtype.MSG_ERROR ∈ handled_types (client_restart W cm n st) then 1 else 0) ∧
      ((client_restart W cm n st).status = .out →
        (client_restart W cm n st).retcode =
          retcode_of cm (handled_types (client_restart W cm n st))) := by
  induction n with
  | zero =>
    intro st hp hr hc
    rw [client_restart]
    exact ⟨fun _ => ⟨hr, hc⟩, fun h => by rw [hp] at h; cases h⟩
  | succ n ih =>
    intro st hp hr hc
    rw [client_restart_succ]
    have hs := client_step_retcode W cm st hr hc
    cases hstep : client_step W cm st with
    | wait => exact ⟨fun _ => ⟨hr, hc⟩, fun h => by rw [hp] at h; cases h⟩
    | stop s =>
      rw [hstep] at hs
      simp only [] at hs ⊢
      refine ⟨fun h => ?_, hs⟩
      exact absurd h (client_step_stop W cm st s hstep).2
    | next s =>
      rw [hstep] at hs
      simp only [] at hs ⊢
      exact ih s (by rw [hs.1, hp]) hs.2.1 hs.2.2

/-- The loop over the turns keeps the relation between `retcode` and the
messages dispatched. -/
theorem client_loop_run_retcode (W : wire) (cm : Int) (wakes : List (Option (List Char))) :
    ∀ st : client_loop,
      (st.status = .polling → msgtype.MSG_READY ∉ handled_types st ∧
        st.retcode = if msgtype.MSG_ERROR ∈ handled_types st then 1 else 0) →
      (st.status = .out → st.retcode = retcode_of cm (handled_types st)) →
      ((client_loop_run W cm wakes st).status = .out →
        (client_loop_run W cm wakes st).retcode =
          retcode_of cm (handled_types (client_loop_run W cm wakes st))) := by
  induction wakes with
  | nil => intro st _ ho; exact ho
  | cons c cs ih =>
    intro st hp ho
    rw [client_loop_run]
    cases hst : st.status with
    | polling =>
      obtain ⟨hr, hc⟩ := hp hst
      cases c with
      | none =>
        have hw : client_wake W cm none st = ⟨[], st.retcode, st.handled, .out⟩ := by
          unfold client_wake; rw [hst]
        rw [hw]
        refine ih _ (fun h => by cases h) (fun _ => ?_)
        unfold handled_types at hr hc
        simp [retcode_of, handled_types, hr, hc]
      | some bytes =>
        have hw : client_wake W cm (some bytes) st =
            client_decode W cm { st with srv_in := st.srv_in ++ bytes } := by
          unfold client_wake; rw [hst]
        rw [hw, client_decode]
        obtain ⟨g1, g2⟩ := client_restart_retcode W cm _
          { st with srv_in := st.srv_in ++ bytes } hst hr hc
        exact ih _ g1 g2
    | out =>
      have hw : client_wake W cm c st = st := by
        unfold client_wake; rw [hst]
      rw [hw]
      exact ih st hp ho
    | fatal m =>
      have hw : client_wake W cm c st = st := by
        unfold client_wake; rw [hst]
      rw [hw]
      exact ih st hp ho

/-- C29, amended. Whatever the loop reads in its successive turns, when it
leaves through `out` the value `main` returns is: the value `client_main`
returned, if a ready message was dispatched (whatever came before it, error
messages included); else 1 if an error message was dispatched; else 0. -/
theorem client_loop_retcode (W : wire) (cm : Int) (wakes : List (Option (List Char)))
    (h : (client_loop_run W cm wakes client_start).status = .out) :
    (client_loop_run W cm wakes client_start).retcode =
      if msgtype.MSG_READY ∈ handled_types (client_loop_run W cm wakes client_start) then cm
      else if msgtype.MSG_ERROR ∈ handled_types (client_loop_run W cm wakes client_start)
        then 1 else 0 :=
  client_loop_run_retcode W cm wakes client_start
    (fun _ => ⟨by decide, by decide⟩) (fun h => by cases h) h

/-- C29, witness: an error message and a failed read give 1; an error message
and then a ready message give the value of `client_main`, here 7. -/
theorem client_loop_retcode_witness :
    (client_loop_run wire_simple 7
      [some (wire_bytes [simple_message 2 "no\x00\x00"]), none] client_start).status = .out ∧
    (client_loop_run wire_simple 7
      [some (wire_bytes [simple_message 2 "no\x00\x00"]), none] client_start).retcode = 1 ∧
    (client_loop_run wire_simple 7
      [some (wire_bytes [simple_message 2 "no\x00\x00"]), some (hdr_bytes 4 0)]
      client_start).retcode = 7 :=
  ⟨by decide,
   (client_loop_retcode wire_simple 7
     [some (wire_bytes [simple_message 2 "no\x00\x00"]), none] (by decide)).trans
     (by decide),
   (client_loop_retcode wire_simple 7
     [some (wire_bytes [simple_message 2 "no\x00\x00"]), some (hdr_bytes 4 0)]
     (by decide)).trans (by decide)⟩

/-! ## The execute functions: C30 -/

/-- `cmd_choose_session_exec` returns 0 or -1, and -1 only with a message
sent to `error`. -/
theorem cmd_choose_session_exec_reports (L : libc) (W : window_env) (S : server)
    (data : cmd_target_data) (ctx : cmd_ctx) :
    ((cmd_choose_session_exec L W S data ctx).ret = 0 ∨
      (cmd_choose_session_exec L W S data ctx).ret = -1) ∧
    ((cmd_choose_session_exec L W S data ctx).ret = -1 →
      (cmd_choose_session_exec L W S data ctx).errors ≠ []) := by
  unfold cmd_choose_session_exec
  cases ctx.curclient with
  | none => simp
  | some c =>
    cases hw : (cmd_find_window L S ctx data.target).wl with
    | none =>
      simp only [true_and, or_true, forall_true_left]
      exact (cmd_find_window_reports L S ctx data.target).1 hw
    | some wl =>
      simp only []
      split <;> simp

/-- `cmd_choose_tree_exec`, where it returns, returns 0 or -1, and -1 only
with a message sent to `error`. -/
theorem cmd_choose_tree_exec_reports (L : libc) (W : window_env) (S : server)
    (data : cmd_target_data) (ctx : cmd_ctx) (r : choose_result cmd_choose_tree_data)
    (h : cmd_choose_tree_exec L W S data ctx = some r) :
    (r.ret = 0 ∨ r.ret = -1) ∧ (r.ret = -1 → r.errors ≠ []) := by
  unfold cmd_choose_tree_exec at h
  cases hc : ctx.curclient with
  | none =>
    simp only [hc, Option.some.injEq] at h
    subst h; simp
  | some c =>
    simp only [hc] at h
    cases hw : (cmd_find_window L S ctx data.target).wl with
    | none =>
      simp only [hw, Option.some.injEq] at h
      subst h
      simp only [true_and, or_true, forall_true_left]
      exact (cmd_find_window_reports L S ctx data.target).1 hw
    | some wl =>
      simp only [hw] at h
      split at h
      · simp only [Option.some.injEq] at h
        subst h; simp
      · cases hs : c.session with
        | none => simp [hs] at h
        | some s =>
          simp only [hs, Option.some.injEq] at h
          subst h; simp

/-- With a target given, `cmd_list_windows_exec` returns 0 or -1, and -1 only
with a message sent to `error`. -/
theorem cmd_list_windows_exec_reports_target (L : libc) (W : window_env) (S : server)
    (target : CStr) (arg : Option CStr) (ctx : cmd_ctx) :
    ((cmd_list_windows_exec L W S ⟨some target, arg⟩ ctx).ret = 0 ∨
      (cmd_list_windows_exec L W S ⟨some target, arg⟩ ctx).ret = -1) ∧
    ((cmd_list_windows_exec L W S ⟨some target, arg⟩ ctx).ret = -1 →
      (cmd_list_windows_exec L W S ⟨some target, arg⟩ ctx).errors ≠ []) := by
  unfold cmd_list_windows_exec
  cases hs : (cmd_find_session L S ctx (some target)).1 with
  | none =>
    simp only [true_and, or_true, forall_true_left]
    exact (cmd_find_session_reports_target L S ctx target).1.1 hs
  | some s => simp

/-- C30, at the failing input. In a server without session, for the context
of a configuration file (no client, no record) and `list-windows` without
target, `cmd_list_windows_exec` returns -1 and nothing has been sent to
`error`. -/
theorem cmd_list_windows_exec_silent_failure (L : libc) (W : window_env) :
    cmd_list_windows_exec L W {} {} {} = ⟨-1, [], []⟩ := rfl

/-! ## Client lookup, comparison, record index, lost bindings: C33, C34, C35, C37, C40 -/

/-- C33, counterexample: the first client is on `/dev/ttyp0`, the second has
the path `ttyp0`. The lookup of `ttyp0` returns the first, by its path
without `/dev/`, although the path of the second equals the name. -/
theorem cmd_lookup_client_counterexample :
    cmd_lookup_client
      [some { tty_path := some "/dev/ttyp0".toList }, some { tty_path := some "ttyp0".toList }]
      "ttyp0".toList = some { tty_path := some "/dev/ttyp0".toList } := by
  decide

/-- A client matches a name by its path or by its path without `/dev/`. -/
theorem cmd_lookup_client_step (c : client) (rest : List (Option client)) (name : CStr) :
    cmd_lookup_client (some c :: rest) name =
      if c.tty_path = some name ∨ c.tty_path = some (PATH_DEV ++ name) then some c
      else cmd_lookup_client rest name := by
  rw [cmd_lookup_client]
  cases hp : c.tty_path with
  | none => simp
  | some path =>
    simp only [Option.some.injEq]
    by_cases h1 : name = path
    · rw [if_pos h1, if_pos (Or.inl h1.symm)]
    · rw [if_neg h1]
      by_cases h2 : strncmp_eq path PATH_DEV PATH_DEV.length = true
      · rw [if_neg (by simpa using h2)]
        obtain ⟨t, ht⟩ := (strncmp_eq_iff_starts path PATH_DEV).mp h2
        by_cases h3 : name = path.drop PATH_DEV.length
        · rw [if_pos h3, if_pos]
          right
          rw [h3, ← ht, List.drop_left]
        · rw [if_neg h3, if_neg]
          rintro (h | h)
          · exact h1 h.symm
          · apply h3
            rw [h, List.drop_left]
      · rw [if_pos (by simpa using h2), if_neg]
        rintro (h | h)
        · exact h1 h.symm
        · apply h2
          rw [strncmp_eq_iff_starts, h]
          exact List.prefix_append _ _

/-- C33, amended. `cmd_lookup_client` returns the first client, in the order
of the table, whose path equals the name or equals `/dev/` followed by the
name, whichever of the two ways it matches; the client returned is of the
table and matches in one of the two ways, and nothing is returned exactly
when no client of the table matches in either way. -/
theorem cmd_lookup_client_first_match (clients : List (Option client)) (name : CStr) :
    cmd_lookup_client clients name =
      (clients.filterMap id).find? (fun c =>
        decide (c.tty_path = some name ∨ c.tty_path = some (PATH_DEV ++ name))) ∧
    (∀ c, cmd_lookup_client clients name = some c →
      some c ∈ clients ∧ (c.tty_path = some name ∨ c.tty_path = some (PATH_DEV ++ name))) ∧
    (cmd_lookup_client clients name = none ↔
      ∀ c, some c ∈ clients →
        ¬ (c.tty_path = some name ∨ c.tty_path = some (PATH_DEV ++ name))) := by
  have key : cmd_lookup_client clients name =
      (clients.filterMap id).find? (fun c =>
        decide (c.tty_path = some name ∨ c.tty_path = some (PATH_DEV ++ name))) := by
    induction clients with
    | nil => rfl
    | cons o rest ih =>
      cases o with
      | none =>
        rw [cmd_lookup_client, ih]
        rfl
      | some c =>
        rw [cmd_lookup_client_step,
          show List.filterMap id (some c :: rest) = c :: List.filterMap id rest from rfl,
          List.find?_cons]
        by_cases h : c.tty_path = some name ∨ c.tty_path = some (PATH_DEV ++ name)
        · rw [if_pos h]; simp [h]
        · rw [if_neg h, ih]; simp [h]
  refine ⟨key, ?_, ?_⟩
  · intro c hc
    rw [key] at hc
    have hm := List.mem_of_find?_eq_some hc
    have hp := List.find?_some hc
    exact ⟨by simpa using hm, by simpa using hp⟩
  · rw [key, List.find?_eq_none]
    constructor
    · intro h c hc
      have := h c (by simpa using hc)
      simpa using this
    · intro h c hc
      have := h c (by simpa using hc)
      simpa using this

/-- C34, at the failing input. The bindings `(x, 4095)` and `(x, 4095 + prefix
bit)` compare equal in one order and unequal in the other: 0 one way, -1 the
other way, and no result is positive. -/
theorem key_bindings_cmp_not_symmetric :
    key_bindings_cmp 65536 ⟨120, 4095, 0, 0, []⟩ ⟨120, 4095 + 65536, 0, 0, []⟩ = 0 ∧
    key_bindings_cmp 65536 ⟨120, 4095 + 65536, 0, 0, []⟩ ⟨120, 4095, 0, 0, []⟩ ≠ 0 ∧
    key_bindings_cmp 65536 ⟨120, 4095 + 65536, 0, 0, []⟩ ⟨120, 4095, 0, 0, []⟩ < 0 ∧
    ¬ key_bindings_cmp 65536 ⟨120, 4095, 0, 0, []⟩ ⟨120, 4095 + 65536, 0, 0, []⟩ > 0 := by
  decide

/-- An index above the number of slots is refused without a read. -/
theorem cmd_current_session_env_above (S : server) (data : msg_command_data)
    (h : data.idx > S.sessions.length) :
    cmd_current_session_env S data = (none, none) := by
  unfold cmd_current_session_env
  split
  · rfl
  · simp [h]

/-- C35, at the failing input. The table has one slot and the record, of the
pid of the server, has the index 1: the table is read at position 1, past its
last slot; so it is at position 0 when the table is empty; and what lies
behind the last slot is returned as the current session. -/
theorem cmd_current_session_env_reads_past :
    (cmd_current_session_env { sessions := [some session_a], pid := 100 } ⟨100, 1⟩).2
      = some 1 ∧
    (cmd_current_session_env { sessions := [], pid := 100 } ⟨100, 0⟩).2 = some 0 ∧
    cmd_current_session
      { sessions := [some session_a], pid := 100, sessions_past := some session_b }
      { msgdata := some ⟨100, 1⟩ } = some session_b := by
  decide

/-- C37, at the failing input. The key `a` (97) is bound three times in a row
from the empty table, every lookup finding the binding in place. After the
third call the live table holds the third list and the dead set the first
alone: the binding of the second list, taken out of the live table by the
third call, compares equal to the dead binding of the first and is not
inserted. The clean that follows frees one list, not two. -/
theorem key_bindings_second_binding_lost :
    ((key_bindings_add 65536 4095 4095 97 4095 0 0 (one_command "lock-session")
        (key_bindings_add 65536 4095 4095 97 4095 0 0 (one_command "lock-client")
          (key_bindings_add 65536 4095 4095 97 4095 0 0 (one_command "lock-server")
            ⟨[], [], []⟩))).key_bindings.map
        (fun bd => bd.cmdlist.map (fun c => String.mk c.entry.name)))
      = [["lock-session"]] ∧
    ((key_bindings_add 65536 4095 4095 97 4095 0 0 (one_command "lock-session")
        (key_bindings_add 65536 4095 4095 97 4095 0 0 (one_command "lock-client")
          (key_bindings_add 65536 4095 4095 97 4095 0 0 (one_command "lock-server")
            ⟨[], [], []⟩))).dead_key_bindings.map
        (fun bd => bd.cmdlist.map (fun c => String.mk c.entry.name)))
      = [["lock-server"]] ∧
    freed_names
      (key_bindings_clean
        (key_bindings_add 65536 4095 4095 97 4095 0 0 (one_command "lock-session")
          (key_bindings_add 65536 4095 4095 97 4095 0 0 (one_command "lock-client")
            (key_bindings_add 65536 4095 4095 97 4095 0 0 (one_command "lock-server")
              ⟨[], [], []⟩)))) = [["lock-server"]] := by
  decide

/-- C40. When neither the current client nor the tty of the calling client
gives a session: a record whose pid is neither -1 nor the pid of the server
gives no session, whatever sessions the table holds; a record of the pid of
the server gives nothing for an index above the number of slots and else
what is read at its index (behind the last slot for the index that equals
the number of slots); the newest session of the table is the answer when
there is no record or the pid of the record is -1. -/
theorem cmd_current_session_foreign_pid (S : server) (ctx : cmd_ctx)
    (h1 : ctx.curclient.bind client.session = none)
    (h2 : cmd_current_session_tty S ctx = none) :
    (∀ data, ctx.msgdata = some data → data.pid ≠ -1 → data.pid ≠ S.pid →
      cmd_current_session S ctx = none) ∧
    (∀ data, ctx.msgdata = some data → data.pid ≠ -1 → data.pid = S.pid →
      cmd_current_session S ctx =
        if data.idx > S.sessions.length then none
        else ((S.sessions ++ [S.sessions_past])[data.idx]?).join) ∧
    ((ctx.msgdata = none ∨ ∃ data, ctx.msgdata = some data ∧ data.pid = -1) →
      cmd_current_session S ctx = cmd_newest_session S.sessions) := by
  unfold cmd_current_session
  rw [h1, h2]
  refine ⟨?_, ?_, ?_⟩
  · intro data hd hp hs
    simp only [hd, if_pos hp, cmd_current_session_env, if_pos hs]
  · intro data hd hp hs
    simp only [hd, if_pos hp, cmd_current_session_env, if_neg (not_not.mpr hs)]
    split <;> rfl
  · rintro (hd | ⟨data, hd, hp⟩)
    · simp only [hd]
    · simp only [hd, if_neg (not_not.mpr hp)]

/-- C40, witness: the server of the examples, pid 100, holds two sessions; a
record of the pid 55 gives no session, no record gives the newest, `b`. -/
theorem cmd_current_session_foreign_pid_witness :
    cmd_current_session server_ab { msgdata := some ⟨55, 0⟩ } = none ∧
    cmd_newest_session server_ab.sessions = some session_b ∧
    cmd_current_session server_ab {} = some session_b :=
  ⟨(cmd_current_session_foreign_pid server_ab { msgdata := some ⟨55, 0⟩ } rfl rfl).1
      ⟨55, 0⟩ rfl (by decide) (by decide),
   by decide,
   ((cmd_current_session_foreign_pid server_ab {} rfl rfl).2.2 (Or.inl rfl)).trans
     (by decide)⟩

/-- C33, witness: among the clients on `/dev/ttyp1` and `/dev/ttyp0`, the
lookup of `ttyp0` returns the second, a client of the table whose path is
`/dev/` followed by the name; the lookup of `ttyp9` returns nothing. -/
theorem cmd_lookup_client_first_match_witness :
    cmd_lookup_client
      [some { tty_path := some "/dev/ttyp1".toList }, none,
       some { tty_path := some "/dev/ttyp0".toList }] "ttyp0".toList =
      some { tty_path := some "/dev/ttyp0".toList } ∧
    (({ tty_path := some "/dev/ttyp0".toList } : client).tty_path = some "ttyp0".toList ∨
      ({ tty_path := some "/dev/ttyp0".toList } : client).tty_path =
        some (PATH_DEV ++ "ttyp0".toList)) ∧
    cmd_lookup_client
      [some { tty_path := some "/dev/ttyp1".toList }, none,
       some { tty_path := some "/dev/ttyp0".toList }] "ttyp9".toList = none :=
  ⟨by decide,
   ((cmd_lookup_client_first_match
      [some { tty_path := some "/dev/ttyp1".toList }, none,
       some { tty_path := some "/dev/ttyp0".toList }] "ttyp0".toList).2.1
      { tty_path := some "/dev/ttyp0".toList } (by decide)).2,
   (cmd_lookup_client_first_match
      [some { tty_path := some "/dev/ttyp1".toList }, none,
       some { tty_path := some "/dev/ttyp0".toList }] "ttyp9".toList).2.2.mpr
      (fun c hc => by
        simp only [List.mem_cons, Option.some.injEq, List.mem_nil_iff, or_false] at hc
        rcases hc with hc | hc | hc
        · subst hc; decide
        · cases hc
        · subst hc; decide)⟩

/-! ## `cmd_unpack_argv` on arbitrary bytes: C39 -/

/-- In a region of `L` bytes that ends with a NUL, the loop of
`cmd_unpack_argv` entered at the offset `off` with `l` bytes remaining,
`off + l = L`, runs at most `n` times; each time the counter is positive, the
length subtracted is the one found at the read pointer `L - l` and does not
exceed the counter, and the string copied lies before the last byte. -/
theorem cmd_unpack_argv_loop_bounded (mem : List Char) (L : Nat)
    (hnul : L ≠ 0 → mem[L - 1]? = some NUL) :
    ∀ (n off l : Nat), l < SIZE_MOD → off + l = L →
      (cmd_unpack_argv_loop mem n off l).subs.length ≤ n ∧
      (∀ p ∈ (cmd_unpack_argv_loop mem n off l).subs,
        0 < p.1 ∧ p.1 ≤ l ∧ p.2 = strlen mem (L - p.1) + 1 ∧ (L - p.1) + p.2 ≤ L) ∧
      (∀ a ∈ (cmd_unpack_argv_loop mem n off l).argv,
        (∀ c ∈ a, c ≠ NUL) ∧ ∃ o, o + a.length < L ∧ a = (mem.drop o).take a.length) := by
  intro n
  induction n with
  | zero => intro off l _ _; simp [cmd_unpack_argv_loop]
  | succ n ih =>
    intro off l hl hoff
    by_cases h0 : l = 0
    · subst h0; simp [cmd_unpack_argv_loop]
    · have hnul2 : (mem.drop off)[l - 1]? = some NUL := by
        rw [List.getElem?_drop, show off + (l - 1) = L - 1 by omega]
        exact hnul (by omega)
      obtain ⟨r, hr1, hr2⟩ := split_at_nul (mem.drop off) l h0 hnul2
      have hs : strlen mem off = ((mem.drop off).takeWhile (fun c => c != NUL)).length := rfl
      have hx : xstrdup mem off = (mem.drop off).takeWhile (fun c => c != NUL) := rfl
      have hsn := takeWhile_no_nul (mem.drop off)
      have hpre : (mem.drop off).takeWhile (fun c => c != NUL) <+: mem.drop off :=
        List.takeWhile_prefix _
      generalize (mem.drop off).takeWhile (fun c => c != NUL) = s at hr1 hr2 hx hs hsn hpre
      have hal : (s.length + 1) % SIZE_MOD = s.length + 1 := Nat.mod_eq_of_lt (by omega)
      have hsub : size_sub l (s.length + 1) = l - (s.length + 1) :=
        size_sub_eq _ _ (by omega) hl
      obtain ⟨i1, i2, i3⟩ := ih (off + (s.length + 1)) (l - (s.length + 1)) (by omega)
        (by omega)
      simp only [cmd_unpack_argv_loop, if_neg h0, hs, hx, hal, hsub, List.length_cons]
      refine ⟨by omega, ?_, ?_⟩
      · intro p hp
        rcases List.mem_cons.mp hp with hp | hp
        · subst hp
          refine ⟨by omega, le_refl _, ?_, ?_⟩
          · show s.length + 1 = strlen mem (L - l) + 1
            rw [show L - l = off by omega, hs]
          · show (L - l) + (s.length + 1) ≤ L
            omega
        · obtain ⟨a1, a2, a3, a4⟩ := i2 p hp
          exact ⟨a1, by omega, a3, a4⟩
      · intro a ha
        split at ha
        · rcases List.mem_cons.mp ha with ha | ha
          · subst ha
            refine ⟨hsn, off, by omega, ?_⟩
            exact List.prefix_iff_eq_take.mp hpre
          · exact i3 a ha
        · exact absurd ha (List.not_mem_nil _)

theorem take_mid_drop {α : Type} (X : List α) (o k : Nat) :
    X.take o ++ ((X.drop o).take k ++ X.drop (o + k)) = X := by
  rw [← List.drop_drop, List.take_append_drop, List.take_append_drop]

/-- A string that lies before the last byte of the region is a segment of the
buffer as it was handed in. -/
theorem segment_before_last (mem : List Char) (len : Nat) (a : List Char) (o : Nat)
    (ho : o + a.length < len)
    (ha : a = ((mem.set (len - 1) NUL).drop o).take a.length) :
    a <:+: mem.take len := by
  have e : ((mem.set (len - 1) NUL).drop o).take a.length = (mem.drop o).take a.length := by
    apply List.ext_getElem?
    intro i
    by_cases hi : i < a.length
    · rw [List.getElem?_take_of_lt hi, List.getElem?_take_of_lt hi, List.getElem?_drop,
        List.getElem?_drop, List.getElem?_set_ne (by omega)]
    · rw [List.getElem?_take_eq_none (by omega), List.getElem?_take_eq_none (by omega)]
  rw [e] at ha
  have h1 : (mem.drop o).take a.length = ((mem.take len).drop o).take a.length := by
    rw [List.drop_take, List.take_take, Nat.min_eq_left (by omega)]
  have ha2 : a = ((mem.take len).drop o).take a.length := ha.trans h1
  have h3 := take_mid_drop (mem.take len) o a.length
  rw [← ha2, ← List.append_assoc] at h3
  exact ⟨_, _, h3⟩

/-- C39. For every buffer content, every length `len >= 1` the buffer holds
(a `size_t`) and every `argc`, `cmd_unpack_argv` runs its loop at most `argc`
times; each time the remaining-length counter is positive and at most `len`,
the length subtracted from it is the one of the string at the read pointer
plus one and does not exceed it, so that the bytes read end before the offset
`len`; and every string returned is free of NUL and a segment of the first
`len` bytes of the buffer. -/
theorem cmd_unpack_argv_bounded (mem : List Char) (len argc : Nat)
    (h1 : 1 ≤ len) (hlen : len < SIZE_MOD) (hmem : len ≤ mem.length) :
    (cmd_unpack_argv mem len argc).subs.length ≤ argc ∧
    (∀ p ∈ (cmd_unpack_argv mem len argc).subs,
      0 < p.1 ∧ p.1 ≤ len ∧
      p.2 = strlen (mem.set (len - 1) NUL) (len - p.1) + 1 ∧
      p.2 ≤ p.1 ∧ (len - p.1) + p.2 ≤ len) ∧
    (∀ a ∈ (cmd_unpack_argv mem len argc).argv,
      (∀ c ∈ a, c ≠ NUL) ∧ a <:+: mem.take len) := by
  have hsz : size_sub len 1 = len - 1 := size_sub_eq _ _ h1 hlen
  by_cases h0 : argc = 0
  · subst h0
    simp [cmd_unpack_argv]
  · have hcall : cmd_unpack_argv mem len argc =
        cmd_unpack_argv_loop (mem.set (len - 1) NUL) argc 0 len := by
      unfold cmd_unpack_argv
      rw [if_neg h0, hsz]
    rw [hcall]
    obtain ⟨b1, b2, b3⟩ := cmd_unpack_argv_loop_bounded (mem.set (len - 1) NUL) len
      (fun _ => by rw [List.getElem?_set_self (by omega)])
      argc 0 len hlen (by omega)
    refine ⟨b1, ?_, ?_⟩
    · intro p hp
      obtain ⟨a1, a2, a3, a4⟩ := b2 p hp
      exact ⟨a1, a2, a3, by omega, a4⟩
    · intro a ha
      obtain ⟨c1, o, c2, c3⟩ := b3 a ha
      exact ⟨c1, segment_before_last mem len a o c2 c3⟩

/-- C39, witness: six bytes without a NUL, of which four are handed in, and
three strings asked for. The loop runs once, on the string `abc` of the
first four bytes with the last forced to NUL, and fails on the empty rest. -/
theorem cmd_unpack_argv_bounded_witness :
    (cmd_unpack_argv "abcdef".toList 4 3).subs = [(4, 4)] ∧
    (cmd_unpack_argv "abcdef".toList 4 3).ret = -1 ∧
    (cmd_unpack_argv "abcdef".toList 4 1).argv = ["abc".toList] ∧
    (∀ p ∈ (cmd_unpack_argv "abcdef".toList 4 3).subs, (4 - p.1) + p.2 ≤ 4) ∧
    (∀ a ∈ (cmd_unpack_argv "abcdef".toList 4 1).argv, a <:+: "abcdef".toList.take 4) :=
  ⟨by decide, by decide, by decide,
   fun p hp => ((cmd_unpack_argv_bounded "abcdef".toList 4 3 (by decide) (by decide)
     (by decide)).2.1 p hp).2.2.2.2,
   fun a ha => ((cmd_unpack_argv_bounded "abcdef".toList 4 1 (by decide) (by decide)
     (by decide)).2.2 a ha).2⟩

/-! ## `cmd_template_replace`: C38 -/

/-- A character other than `%` is copied. -/
theorem cmd_template_replace_loop_char (s : CStr) (idx : Int) (c : Char) (rest : List Char)
    (r : Bool) (buf : CStr) (hc : c ≠ '%') :
    cmd_template_replace_loop s idx (c :: rest) r buf =
      cmd_template_replace_loop s idx rest r (buf ++ [c]) := by
  cases rest with
  | nil => rfl
  | cons nxt rest => rw [cmd_template_replace_loop, if_neg hc]

/-- A text without `%` is copied. -/
theorem cmd_template_replace_loop_text (s : CStr) (idx : Int) (t : CStr) (ht : '%' ∉ t) :
    ∀ (rest : List Char) (r : Bool) (buf : CStr),
      cmd_template_replace_loop s idx (t ++ rest) r buf =
        cmd_template_replace_loop s idx rest r (buf ++ t) := by
  induction t with
  | nil => intro rest r buf; simp
  | cons c t ih =>
    intro rest r buf
    have hc : c ≠ '%' := fun h => ht (by rw [h]; exact List.mem_cons_self _ _)
    have ht2 : '%' ∉ t := fun h => ht (List.mem_cons_of_mem _ h)
    rw [List.cons_append, cmd_template_replace_loop_char s idx c _ r buf hc, ih ht2]
    simp

/-- The marker of the index is replaced, whatever was replaced before. -/
theorem cmd_template_replace_loop_arg (s : CStr) (idx : Nat) (h1 : 1 ≤ idx) (h9 : idx ≤ 9)
    (rest : List Char) (r : Bool) (buf : CStr) :
    cmd_template_replace_loop s idx ('%' :: idx_digit idx :: rest) r buf =
      cmd_template_replace_loop s idx rest r (buf ++ s) := by
  have ht : ¬ ((idx_digit idx).toNat < '1'.toNat ∨ (idx_digit idx).toNat > '9'.toNat ∨
      ((idx_digit idx).toNat : Int) - '0'.toNat ≠ (idx : Int)) := by
    interval_cases idx <;> decide
  rw [cmd_template_replace_loop, if_pos rfl, if_neg ht, strlcat_fits _ _ _ (by omega)]

/-- The first `%%` is replaced. -/
theorem cmd_template_replace_loop_first (s : CStr) (idx : Int) (rest : List Char)
    (buf : CStr) :
    cmd_template_replace_loop s idx ('%' :: '%' :: rest) false buf =
      cmd_template_replace_loop s idx rest true (buf ++ s) := by
  rw [cmd_template_replace_loop, if_pos rfl, if_pos (Or.inl (by decide)),
    if_neg (by decide), strlcat_fits _ _ _ (by omega)]

/-- A `%` that is followed neither by the digit of the index nor by a `%` that
can still be replaced is copied. -/
theorem cmd_template_replace_loop_percent (s : CStr) (idx : Nat)
    (rest : List Char) (r : Bool) (buf : CStr)
    (hd : rest.head? ≠ some (idx_digit idx))
    (hp : r = true ∨ rest.head? ≠ some '%') :
    cmd_template_replace_loop s idx ('%' :: rest) r buf =
      cmd_template_replace_loop s idx rest r (buf ++ ['%']) := by
  cases rest with
  | nil => rfl
  | cons nxt rest =>
    have hne : nxt ≠ idx_digit idx := fun h => hd (by rw [h]; rfl)
    have ht : nxt.toNat < '1'.toNat ∨ nxt.toNat > '9'.toNat ∨
        (nxt.toNat : Int) - '0'.toNat ≠ (idx : Int) := by
      by_contra hcon
      push_neg at hcon
      obtain ⟨_, _, c3⟩ := hcon
      apply hne
      have hn : nxt.toNat = '0'.toNat + idx := by omega
      unfold idx_digit
      rw [← hn, Char.ofNat_toNat]
    have hp2 : nxt ≠ '%' ∨ r = true := by
      rcases hp with hp | hp
      · exact Or.inr hp
      · exact Or.inl (fun h => hp (by rw [h]; rfl))
    rw [cmd_template_replace_loop, if_pos rfl, if_pos ht, if_pos hp2]

theorem idx_digit_ne_percent (idx : Nat) (h1 : 1 ≤ idx) (h9 : idx ≤ 9) :
    idx_digit idx ≠ '%' := by
  interval_cases idx <;> decide

/-- The loop on a template written as pieces that are read as written. -/
theorem cmd_template_replace_loop_pieces (s : CStr) (idx : Nat) (h1 : 1 ≤ idx)
    (h9 : idx ≤ 9) :
    ∀ (ps : List template_piece) (r : Bool) (buf : CStr), template_clear idx r ps = true →
      cmd_template_replace_loop s idx (template_of idx ps) r buf =
        buf ++ template_substituted s r ps := by
  intro ps
  induction ps with
  | nil => intro r buf _; simp [template_of, template_substituted, cmd_template_replace_loop]
  | cons p ps ih =>
    intro r buf hclear
    cases p with
    | text t =>
      cases r <;>
      · rw [template_clear, Bool.and_eq_true, decide_eq_true_eq] at hclear
        obtain ⟨ht, hc⟩ := hclear
        rw [template_of, cmd_template_replace_loop_text s idx t ht, ih _ _ hc,
          template_substituted, List.append_assoc]
    | arg =>
      cases r <;>
      · rw [template_clear] at hclear
        rw [template_of, cmd_template_replace_loop_arg s idx h1 h9, ih _ _ hclear,
          template_substituted, List.append_assoc]
    | percents =>
      cases r with
      | false =>
        rw [template_clear] at hclear
        rw [template_of, cmd_template_replace_loop_first, ih _ _ hclear,
          template_substituted, List.append_assoc]
      | true =>
        rw [template_clear, Bool.and_eq_true, decide_eq_true_eq] at hclear
        obtain ⟨hd, hc⟩ := hclear
        rw [template_of,
          cmd_template_replace_loop_percent s idx _ true buf
            (by
              intro h
              exact idx_digit_ne_percent idx h1 h9 (Option.some.inj h).symm)
            (Or.inl rfl),
          cmd_template_replace_loop_percent s idx _ true _ hd (Or.inl rfl),
          ih _ _ hc, template_substituted]
        simp
    | percent =>
      have hcl : (template_of idx ps).head? ≠ some (idx_digit idx) ∧
          (r = true ∨ (template_of idx ps).head? ≠ some '%') ∧
          template_clear idx r ps = true := by
        cases r <;>
        · rw [template_clear] at hclear
          simpa [Bool.and_eq_true, and_assoc] using hclear
      obtain ⟨hd, hp, hc⟩ := hcl
      have e1 : template_of idx (.percent :: ps) = '%' :: template_of idx ps := by
        cases r <;> rfl
      have e2 : template_substituted s r (.percent :: ps) =
          '%' :: template_substituted s r ps := by
        cases r <;> rfl
      rw [e1, cmd_template_replace_loop_percent s idx _ r buf hd hp, ih _ _ hc, e2]
      simp

/-- Every template is the characters of its pieces read from left to
right. -/
theorem template_of_reading (idx : Nat) :
    ∀ (n : Nat) (t : List Char), t.length ≤ n → ∀ r : Bool,
      template_of idx (template_reading idx r t) = t := by
  intro n
  induction n with
  | zero =>
    intro t ht r
    have : t = [] := List.length_eq_zero.mp (by omega)
    subst this
    rfl
  | succ n ih =>
    intro t ht r
    match t, ht with
    | [], _ => rfl
    | [c], _ =>
      rw [template_reading]
      by_cases hc : c = '%'
      · rw [if_pos hc, hc]; rfl
      · rw [if_neg hc]; rfl
    | c :: nxt :: rest, ht =>
      have hl1 : (nxt :: rest).length ≤ n := by simp only [List.length_cons] at ht ⊢; omega
      have hl2 : rest.length ≤ n := by simp only [List.length_cons] at ht; omega
      rw [template_reading]
      by_cases hc : c = '%'
      · rw [if_pos hc]
        by_cases hd : nxt = idx_digit idx
        · rw [if_pos hd, template_of, ih rest hl2, hc, hd]
        · rw [if_neg hd]
          by_cases hp : nxt = '%' ∧ r = false
          · rw [if_pos hp, template_of, ih rest hl2, hc, hp.1]
          · rw [if_neg hp, template_of, ih _ hl1, hc]
      · rw [if_neg hc, template_of, ih _ hl1]
        rfl

/-- The pieces of a template read from left to right are its markers. -/
theorem template_clear_reading (idx : Nat) :
    ∀ (n : Nat) (t : List Char), t.length ≤ n → ∀ r : Bool,
      template_clear idx r (template_reading idx r t) = true := by
  intro n
  induction n with
  | zero =>
    intro t ht r
    have : t = [] := List.length_eq_zero.mp (by omega)
    subst this
    cases r <;> rfl
  | succ n ih =>
    intro t ht r
    match t, ht with
    | [], _ => cases r <;> rfl
    | [c], _ =>
      rw [template_reading]
      by_cases hc : c = '%'
      · rw [if_pos hc]
        cases r <;> simp [template_clear, template_of]
      · rw [if_neg hc]
        have hn : ¬ '%' = c := fun h => hc h.symm
        cases r <;> simp [template_clear, hn]
    | c :: nxt :: rest, ht =>
      have hl1 : (nxt :: rest).length ≤ n := by simp only [List.length_cons] at ht ⊢; omega
      have hl2 : rest.length ≤ n := by simp only [List.length_cons] at ht; omega
      rw [template_reading]
      by_cases hc : c = '%'
      · rw [if_pos hc]
        by_cases hd : nxt = idx_digit idx
        · rw [if_pos hd]
          have := ih rest hl2 r
          cases r <;> simpa [template_clear] using this
        · rw [if_neg hd]
          by_cases hp : nxt = '%' ∧ r = false
          · rw [if_pos hp]
            obtain ⟨_, hr⟩ := hp
            subst hr
            rw [template_clear]
            exact ih rest hl2 true
          · rw [if_neg hp]
            have hrest := ih (nxt :: rest) hl1 r
            have hof := template_of_reading idx n (nxt :: rest) hl1 r
            have hhd : (template_of idx (template_reading idx r (nxt :: rest))).head? ≠
                some (idx_digit idx) := by
              rw [hof]
              exact fun h => hd (Option.some.inj h)
            have hpp : r = true ∨
                (template_of idx (template_reading idx r (nxt :: rest))).head? ≠ some '%' := by
              rw [hof]
              by_cases hr : r = true
              · exact Or.inl hr
              · right
                intro h
                exact hp ⟨Option.some.inj h, by simpa using hr⟩
            cases r with
            | false =>
              rw [template_clear]
              rcases hpp with hpp | hpp
              · cases hpp
              · simp [hhd, hpp, hrest]
            | true =>
              rw [template_clear]
              simp [hhd, hrest]
      · rw [if_neg hc]
        have hn : ¬ '%' = c := fun h => hc h.symm
        have := ih (nxt :: rest) hl1 r
        cases r <;> simp [template_clear, hn, this]

/-- C38, counterexample: with the index 1, both `%1` of the template
`%1 and %1` are replaced, not the first alone; and in `%% and %1` the `%%`
and the `%1` are replaced. -/
theorem cmd_template_replace_counterexample :
    cmd_template_replace "%1 and %1".toList "x".toList 1 = "x and x".toList ∧
    cmd_template_replace "%1 and %1".toList "x".toList 1 ≠ "x and %1".toList ∧
    cmd_template_replace "%% and %1".toList "x".toList 1 = "x and x".toList := by
  decide

/-- C38, amended. For every template, every `s` and every index from 1 to 9:
the template is the characters of its markers `%<idx>` and `%%` read from
left to right, of texts without `%` and of `%` that belong to no marker;
however it is written so, the result is the template with `s` in the place
of the first `%%` and of every `%<idx>` and every other character copied
unchanged; and a template without `%` is returned unchanged. -/
theorem cmd_template_replace_pieces (template s : CStr) (idx : Nat) (h1 : 1 ≤ idx)
    (h9 : idx ≤ 9) :
    (∃ ps, template_of idx ps = template ∧ template_clear idx false ps = true) ∧
    (∀ ps, template_of idx ps = template → template_clear idx false ps = true →
      cmd_template_replace template s idx = template_substituted s false ps) ∧
    ('%' ∉ template → cmd_template_replace template s idx = template) := by
  refine ⟨⟨template_reading idx false template,
    template_of_reading idx _ template (le_refl _) false,
    template_clear_reading idx _ template (le_refl _) false⟩, ?_, ?_⟩
  · intro ps hof hclear
    subst hof
    have hloop := cmd_template_replace_loop_pieces s idx h1 h9 ps false [] hclear
    rw [List.nil_append] at hloop
    unfold cmd_template_replace
    split
    · rename_i hno
      have hcopy := cmd_template_replace_loop_text s idx (template_of idx ps) hno [] false []
      rw [List.append_nil, List.nil_append] at hcopy
      rw [← hloop, hcopy]
      rfl
    · exact hloop
  · intro hno
    unfold cmd_template_replace
    rw [if_pos hno]

/-- C38, witness: the default template of `choose-session`; a template with
two `%%` and two `%1`; and the templates `%2 %1` and `50% %1`, whose first
`%` belongs to no marker of the index 1. -/
theorem cmd_template_replace_pieces_witness :
    cmd_template_replace "switch-client -t \x27%%\x27".toList "work".toList 1
      = "switch-client -t \x27work\x27".toList ∧
    cmd_template_replace "%1:%% %%%1".toList "w".toList 1 = "w:w %%w".toList ∧
    cmd_template_replace "%2 %1".toList "x".toList 1 = "%2 x".toList ∧
    cmd_template_replace "50% %1".toList "x".toList 1 = "50% x".toList ∧
    cmd_template_replace "lock-server".toList "x".toList 1 = "lock-server".toList :=
  ⟨((cmd_template_replace_pieces "switch-client -t \x27%%\x27".toList "work".toList 1
      (by decide) (by decide)).2.1
      [.text "switch-client -t \x27".toList, .percents, .text "\x27".toList]
      (by decide) (by decide)).trans (by decide),
   ((cmd_template_replace_pieces "%1:%% %%%1".toList "w".toList 1
      (by decide) (by decide)).2.1
      [.arg, .text ":".toList, .percents, .text " ".toList, .percents, .arg]
      (by decide) (by decide)).trans (by decide),
   ((cmd_template_replace_pieces "%2 %1".toList "x".toList 1
      (by decide) (by decide)).2.1
      [.percent, .text "2 ".toList, .arg] (by decide) (by decide)).trans (by decide),
   ((cmd_template_replace_pieces "50% %1".toList "x".toList 1
      (by decide) (by decide)).2.1
      [.text "50".toList, .percent, .text " ".toList, .arg]
      (by decide) (by decide)).trans (by decide),
   (cmd_template_replace_pieces "lock-server".toList "x".toList 1
      (by decide) (by decide)).2.2 (by decide)⟩

/-! ## The callbacks and the reference counts: C31, C32, C36 -/

/-- C31. `cmd_choose_session_callback` returns at once, with no read of the
session table, nothing parsed, no status message, nothing executed and the
state as it was, when the index is -1 or the captured client has the dead
flag; `cmd_choose_tree_callback` does so when the index is -1, the captured
client has the dead flag, the captured session has the dead flag, or the
session of the client is not the captured session. -/
theorem choose_callbacks_check_liveness {σ : Type} (E : cfg_env σ)
    (CLIENT_DEAD SESSION_DEAD : Nat) (S : server) (idx : Int) (st : σ) :
    (∀ cdata : cmd_choose_session_data,
      idx = -1 ∨ cdata.client.flags &&& CLIENT_DEAD ≠ 0 →
      cmd_choose_session_callback E CLIENT_DEAD S cdata idx st =
        ⟨none, none, none, none, [], st, cdata⟩) ∧
    (∀ cdata : cmd_choose_tree_data,
      idx = -1 ∨ cdata.client.flags &&& CLIENT_DEAD ≠ 0 ∨
        cdata.session.flags &&& SESSION_DEAD ≠ 0 ∨
        cdata.client.session ≠ some cdata.session →
      cmd_choose_tree_callback E CLIENT_DEAD SESSION_DEAD cdata idx st =
        ⟨none, none, none, none, [], st, cdata⟩) := by
  constructor
  · intro cdata h
    unfold cmd_choose_session_callback
    by_cases h1 : idx = -1
    · rw [if_pos h1]; rfl
    · rw [if_neg h1, if_pos (h.resolve_left h1)]; rfl
  · intro cdata h
    unfold cmd_choose_tree_callback
    by_cases h1 : idx = -1
    · rw [if_pos h1]; rfl
    · rw [if_neg h1]
      by_cases h2 : cdata.client.flags &&& CLIENT_DEAD ≠ 0
      · rw [if_pos h2]; rfl
      · rw [if_neg h2]
        by_cases h3 : cdata.session.flags &&& SESSION_DEAD ≠ 0
        · rw [if_pos h3]; rfl
        · rw [if_neg h3,
            if_pos (((h.resolve_left h1).resolve_left h2).resolve_left h3)]
          rfl

/-- C31, witness: with the dead flag 512, a captured client whose flags are
512 makes the session callback return at once for the index 0; a live client
has the command of the template run. -/
theorem choose_callbacks_check_liveness_witness :
    (cmd_choose_session_callback cfg_env_lock 512 server_ab
      ⟨{ flags := 512 }, "switch-client -t \x27%%\x27".toList⟩ 0 0).state = 0 ∧
    (cmd_choose_session_callback cfg_env_lock 512 server_ab
      ⟨{ flags := 512 }, "switch-client -t \x27%%\x27".toList⟩ 0 0).parsed = none ∧
    (cmd_choose_session_callback cfg_env_lock 512 server_ab
      ⟨{ flags := 0 }, "switch-client -t \x27%%\x27".toList⟩ 0 0).parsed =
        some "switch-client -t \x27a\x27".toList ∧
    (cmd_choose_session_callback cfg_env_lock 512 server_ab
      ⟨{ flags := 0 }, "switch-client -t \x27%%\x27".toList⟩ 0 0).state = 1 ∧
    (cmd_choose_tree_callback cfg_env_lock 512 256
      ⟨{ session := some session_b }, session_a, "select-window -t \x27%%\x27".toList,
        "switch-client -t \x27%%\x27".toList⟩ 0 0).parsed = none :=
  ⟨congrArg callback_result.state
      ((choose_callbacks_check_liveness cfg_env_lock 512 256 server_ab 0 0).1
        ⟨{ flags := 512 }, "switch-client -t \x27%%\x27".toList⟩ (Or.inr (by decide))),
   congrArg callback_result.parsed
      ((choose_callbacks_check_liveness cfg_env_lock 512 256 server_ab 0 0).1
        ⟨{ flags := 512 }, "switch-client -t \x27%%\x27".toList⟩ (Or.inr (by decide))),
   by decide, by decide,
   congrArg callback_result.parsed
      ((choose_callbacks_check_liveness cfg_env_lock 512 256 server_ab 0 0).2
        ⟨{ session := some session_b }, session_a, "select-window -t \x27%%\x27".toList,
          "switch-client -t \x27%%\x27".toList⟩ (Or.inr (Or.inr (Or.inr (by decide)))))⟩

/-- In a table that is not empty, an index at or past the number of slots
makes the session callback return without a read. -/
theorem cmd_choose_session_callback_past {σ : Type} (E : cfg_env σ) (CLIENT_DEAD : Nat)
    (S : server) (cdata : cmd_choose_session_data) (idx : Int) (st : σ)
    (h0 : S.sessions ≠ []) (hlen : S.sessions.length < 4294967296)
    (hidx : (S.sessions.length : Int) ≤ idx) (hint : idx < 2147483648) :
    cmd_choose_session_callback E CLIENT_DEAD S cdata idx st = callback_nothing st cdata := by
  have hpos : 0 < S.sessions.length := List.length_pos.mpr h0
  have hu : to_u32 idx > (S.sessions.length + 4294967296 - 1) % 4294967296 := by
    have e1 : (S.sessions.length + 4294967296 - 1) % 4294967296 = S.sessions.length - 1 := by
      omega
    have e2 : to_u32 idx = idx.toNat := by
      unfold to_u32
      rw [Int.emod_eq_of_lt (by omega) (by omega)]
    rw [e1, e2]
    omega
  unfold cmd_choose_session_callback
  by_cases h1 : idx = -1
  · rw [if_pos h1]
  · by_cases h2 : cdata.client.flags &&& CLIENT_DEAD ≠ 0
    · rw [if_neg h1, if_pos h2]
    · rw [if_neg h1, if_neg h2, if_pos hu]

/-- C36, at the failing input. With an empty session table, a live captured
client and the index 0, the test against `ARRAY_LENGTH(&sessions) - 1`, which
is the largest `u_int` here, lets the index through and the table is read at
position 0; so it is at position 5. With one session in the table the index
1 is refused without a read. -/
theorem cmd_choose_session_callback_empty_table :
    (cmd_choose_session_callback cfg_env_lock 512 { sessions := [] }
      ⟨{}, "switch-client -t \x27%%\x27".toList⟩ 0 0).read = some 0 ∧
    (cmd_choose_session_callback cfg_env_lock 512 { sessions := [] }
      ⟨{}, "switch-client -t \x27%%\x27".toList⟩ 5 0).read = some 5 ∧
    (cmd_choose_session_callback cfg_env_lock 512 { sessions := [some session_a] }
      ⟨{}, "switch-client -t \x27%%\x27".toList⟩ 1 0).read = none := by
  decide

end Tmux
